import Mathlib

/-!
# QUIT: the voxelwise dispatch engine `itk::ApplyAlgorithmFilter`

A shallow embedding of `Source/Filters/ApplyAlgorithmFilter.hxx`, followed by
the validity test of the two plugins of `Source/qidespot2fm.cpp`, the text
serialisation of the filter kernels of `Source/QI/Kernels.cpp` and the
bounded-queue worker pool.

Modelling conventions.

* Pixel values (`TConst`, `TOutput`, the components of `TInput`) are an
  arbitrary type `V` with a zero and decidable equality: the engine only
  copies values, writes zero and tests a mask value against zero.  Conversions
  between the value types of the plugin and of the images are not modelled.
* An image is its geometry, an `allocated` flag and a pixel store indexed by
  grid position.  ITK region iterators that are constructed over one region
  and advanced together are modelled by the common grid position they point
  at; the scan order is that of `itk::ImageRegionConstIterator` (first
  dimension fastest).
* A C++ exception leaves the object in the state reached when it is thrown.
  The two pipeline methods therefore return the filter state together with an
  optional error.  The use of a null image pointer or of an iterator that was
  never bound to an image is undefined behaviour and is modelled by the error
  `nullDereference`.
* The one such statement inside the dispatch loop, the write through the
  all-residuals iterator in the masked-out branch, is given a second reading,
  `GenerateDataTraced`: the statements of the source are followed through it,
  the write changes no volume and its position is recorded.  The two readings
  agree wherever `GenerateData` completes.
* The input volumes cover the active region (they are geometry-compatible with
  data channel 0), so that binding a region iterator to an existing image
  succeeds.
* `QI::ThreadPool` runs every enqueued unit of work once, at a time of its
  choosing, and is drained when `GenerateData` returns.  The model runs the
  units after the dispatch loop in an order given by a schedule.
* `Superclass::GenerateOutputInformation()`, console output and the progress
  observer mechanism belong to ITK and are not modelled.
-/

namespace QUIT

/-! ## Regions -/

/-- A grid position: one signed coordinate per image dimension. -/
abbrev Index := List Int

/-- The `itk::ImageRegion`: for every dimension a start index and a size. -/
structure Region where
  dims : List (Int × Nat)
deriving DecidableEq

/-- The `ImageRegion::GetNumberOfPixels`: the product of the sizes. -/
def Region.GetNumberOfPixels (r : Region) : Nat :=
  (r.dims.map Prod.snd).prod

/-- The per-dimension test of `ImageRegion::IsInside(const IndexType &)`. -/
def Region.insideIndexAux : List (Int × Nat) → Index → Bool
  | [], [] => true
  | (i, n) :: r, x :: xs =>
      decide (i ≤ x) && decide (x < i + (n : Int)) && Region.insideIndexAux r xs
  | _, _ => false

/-- The `ImageRegion::IsInside(const IndexType &)`. -/
def Region.IsInsideIndex (r : Region) (ix : Index) : Bool :=
  Region.insideIndexAux r.dims ix

/-- The `ImageRegion::GetIndex`: the first corner of the region. -/
def Region.GetIndex (r : Region) : Index :=
  r.dims.map Prod.fst

/-- The last corner `index + size - 1` computed by `IsInside(const Self &)`. -/
def Region.endCorner (r : Region) : Index :=
  r.dims.map (fun d => d.1 + (d.2 : Int) - 1)

/-- The `ImageRegion::IsInside(const Self &)` of ITK 4: both corners of the
other region are inside this one. -/
def Region.IsInside (r sub : Region) : Bool :=
  r.IsInsideIndex sub.GetIndex && r.IsInsideIndex sub.endCorner

/-- The positions of a region in the order an `ImageRegionConstIterator`
visits them: the first dimension runs fastest. -/
def Region.indicesAux : List (Int × Nat) → List Index
  | [] => [[]]
  | (i, n) :: r =>
      (Region.indicesAux r).flatMap
        (fun t => (List.range n).map (fun (k : Nat) => (i + (k : Int)) :: t))

/-- The scan of a region by a region iterator, from `GoToBegin` to `IsAtEnd`. -/
def Region.indices (r : Region) : List Index :=
  Region.indicesAux r.dims

/-! ## Images -/

/-- The `itk::Image` / `itk::VectorImage` data an engine run looks at. -/
structure Image (α : Type) where
  region : Region
  spacing : List Rat
  origin : List Rat
  direction : List (List Rat)
  ncomp : Nat
  allocated : Bool
  pix : Index → α

/-- The `SetRegions`: largest possible, buffered and requested region. -/
def Image.SetRegions {α : Type} (img : Image α) (r : Region) : Image α :=
  { img with region := r }

/-- The `SetSpacing`. -/
def Image.SetSpacing {α : Type} (img : Image α) (s : List Rat) : Image α :=
  { img with spacing := s }

/-- The `SetOrigin`. -/
def Image.SetOrigin {α : Type} (img : Image α) (o : List Rat) : Image α :=
  { img with origin := o }

/-- The `SetDirection`. -/
def Image.SetDirection {α : Type} (img : Image α) (d : List (List Rat)) : Image α :=
  { img with direction := d }

/-- The `SetNumberOfComponentsPerPixel`. -/
def Image.SetNumberOfComponentsPerPixel {α : Type} (img : Image α) (n : Nat) : Image α :=
  { img with ncomp := n }

/-- The `Allocate(true)`: a buffer whose every pixel is the zero pixel. -/
def Image.Allocate {α : Type} (img : Image α) (zero : α) : Image α :=
  { img with allocated := true, pix := fun _ => zero }

/-- The iterator `Set` at grid position `p`. -/
def Image.Set {α : Type} (img : Image α) (p : Index) (v : α) : Image α :=
  { img with pix := fun q => if q = p then v else img.pix q }

/-- A freshly constructed image (`New()`): empty region, unit spacing, zero
origin, identity direction, no buffer. -/
def Image.fresh {α : Type} (dim : Nat) (ncomp : Nat) (zero : α) : Image α :=
  { region := ⟨List.replicate dim (0, 0)⟩
    spacing := List.replicate dim 1
    origin := List.replicate dim 0
    direction := (List.range dim).map
      (fun i => (List.range dim).map (fun j => if i = j then 1 else 0))
    ncomp := ncomp
    allocated := false
    pix := fun _ => zero }

/-- The objects held in the input and output slots of the process object. -/
inductive DataObject (V : Type) where
  | vector (img : Image (List V))
  | scalar (img : Image V)
  | iterations (img : Image Int)

/-- The cast of a slot to `TInputImage` (a vector image). -/
def castVector {V : Type} : Option (DataObject V) → Option (Image (List V))
  | some (.vector img) => some img
  | _ => none

/-- The cast of a slot to `TConstImage` / `TOutputImage` (a scalar image). -/
def castScalar {V : Type} : Option (DataObject V) → Option (Image V)
  | some (.scalar img) => some img
  | _ => none

/-- The cast of a slot to `TIterationsImage`. -/
def castIterations {V : Type} : Option (DataObject V) → Option (Image Int)
  | some (.iterations img) => some img
  | _ => none

/-! ## The algorithm plugin and the filter object -/

/-- What one call of `Algorithm::apply` leaves in its output arguments. -/
structure ApplyResult (V : Type) where
  outputs : List V
  residual : V
  resids : List V
  iterations : Int

/-- The `Algorithm` interface consumed by the filter. -/
structure Algorithm (V : Type) where
  numInputs : Nat
  numConsts : Nat
  numOutputs : Nat
  dataSize : Nat
  defaultConsts : List V
  apply : List (List V) → List V → ApplyResult V

/-- The exceptions raised by the filter, one constructor per throw site, and
the undefined use of a null pointer or unbound iterator. -/
inductive Error where
  | inputDoesNotExist (i n : Nat)
  | constDoesNotExist (i n : Nat)
  | outputPastMaximum (i n : Nat)
  | outputNotCreated (idx n : Nat)
  | sequenceSizeMismatch (dataSize size : Nat)
  | zeroInputSize
  | subregionNotInside
  | nullDereference
deriving DecidableEq

/-- The index errors: a channel index at or past the declared count. -/
def Error.isIndexError : Error → Bool
  | .inputDoesNotExist _ _ => true
  | .constDoesNotExist _ _ => true
  | .outputPastMaximum _ _ => true
  | _ => false

/-- The configuration errors: size mismatch, zero size, bad sub-region. -/
def Error.isConfigurationError : Error → Bool
  | .sequenceSizeMismatch _ _ => true
  | .zeroInputSize => true
  | .subregionNotInside => true
  | _ => false

/-- Modelled from the spec: the output slot numbers are declared in
`ApplyAlgorithmFilter.h`, which is not among the sources; the order is the one
stated in `SetAlgorithm`: AllResiduals, Residual, Iterations, Parameter 0, ... -/
def AllResidualsOutput : Nat := 0

/-- Modelled from the spec: see `AllResidualsOutput`. -/
def ResidualOutput : Nat := 1

/-- Modelled from the spec: see `AllResidualsOutput`. -/
def IterationsOutput : Nat := 2

/-- Modelled from the spec: see `AllResidualsOutput`. -/
def StartOutputs : Nat := 3

/-- The member variables of `ApplyAlgorithmFilter` and the indexed input and
output slots of its `ProcessObject` base. -/
structure ApplyAlgorithmFilter (V : Type) where
  ImageDimension : Nat
  algorithm : Algorithm V
  poolsize : Nat
  subregion : Region
  hasSubregion : Bool
  verbose : Bool
  allResiduals : Bool
  elapsedTime : Rat
  unmaskedVoxels : Nat
  inputs : Nat → Option (DataObject V)
  outputs : Nat → Option (DataObject V)

/-- The filter state after a pipeline method, with the exception it raised. -/
structure Outcome (V : Type) where
  filter : ApplyAlgorithmFilter V
  error : Option Error

/-- Sequencing: a raised error stops the method in the state it was raised. -/
def Outcome.andThen {V : Type} (o : Outcome V)
    (k : ApplyAlgorithmFilter V → Outcome V) : Outcome V :=
  match o.error with
  | none => k o.filter
  | some _ => o

/-- The use of an image pointer: a null pointer is undefined behaviour. -/
def deref {α : Type} : Option α → Except Error α
  | some a => .ok a
  | none => .error .nullDereference

namespace ApplyAlgorithmFilter

variable {V : Type}

/-- The `ProcessObject::SetNthInput`. -/
def SetNthInput (f : ApplyAlgorithmFilter V) (i : Nat) (o : Option (DataObject V)) :
    ApplyAlgorithmFilter V :=
  { f with inputs := fun j => if j = i then o else f.inputs j }

/-- The `ProcessObject::SetNthOutput`. -/
def SetNthOutput (f : ApplyAlgorithmFilter V) (i : Nat) (o : Option (DataObject V)) :
    ApplyAlgorithmFilter V :=
  { f with outputs := fun j => if j = i then o else f.outputs j }

/-- The `MakeOutput`. -/
def MakeOutput [Zero V] (f : ApplyAlgorithmFilter V) (idx : Nat) : Except Error (DataObject V) :=
  if idx = AllResidualsOutput then
    .ok (.vector (Image.fresh f.ImageDimension 0 []))
  else if idx = ResidualOutput then
    .ok (.scalar (Image.fresh f.ImageDimension 1 0))
  else if idx = IterationsOutput then
    .ok (.iterations (Image.fresh f.ImageDimension 1 0))
  else if idx < f.algorithm.numOutputs + StartOutputs then
    .ok (.scalar (Image.fresh f.ImageDimension 1 0))
  else
    .error (.outputNotCreated idx f.algorithm.numOutputs)

/-- The output creation loop of `SetAlgorithm`, for slots below `n`; for these
slots `MakeOutput` does not raise. -/
def makeOutputs [Zero V] (f : ApplyAlgorithmFilter V) : Nat → ApplyAlgorithmFilter V
  | 0 => f
  | n + 1 =>
      let f1 := makeOutputs f n
      match f1.MakeOutput n with
      | .ok o => f1.SetNthOutput n (some o)
      | .error _ => f1

/-- The `SetAlgorithm`. -/
def SetAlgorithm [Zero V] (f : ApplyAlgorithmFilter V) (a : Algorithm V) :
    ApplyAlgorithmFilter V :=
  let f1 := { f with algorithm := a }
  f1.makeOutputs (StartOutputs + a.numOutputs)

/-- The `SetPoolsize`. -/
def SetPoolsize (f : ApplyAlgorithmFilter V) (n : Nat) : ApplyAlgorithmFilter V :=
  { f with poolsize := n }

/-- The `SetSubregion`. -/
def SetSubregion (f : ApplyAlgorithmFilter V) (sr : Region) : ApplyAlgorithmFilter V :=
  { f with subregion := sr, hasSubregion := true }

/-- The `SetVerbose`. -/
def SetVerbose (f : ApplyAlgorithmFilter V) (v : Bool) : ApplyAlgorithmFilter V :=
  { f with verbose := v }

/-- The `SetOutputAllResiduals`. -/
def SetOutputAllResiduals (f : ApplyAlgorithmFilter V) (r : Bool) : ApplyAlgorithmFilter V :=
  { f with allResiduals := r }

/-- The `GetEvaluations`. -/
def GetEvaluations (f : ApplyAlgorithmFilter V) : Nat :=
  f.unmaskedVoxels

/-- The `SetInput`. -/
def SetInput (f : ApplyAlgorithmFilter V) (i : Nat) (image : Option (Image (List V))) :
    Except Error (ApplyAlgorithmFilter V) :=
  if i < f.algorithm.numInputs then
    .ok (f.SetNthInput i (image.map DataObject.vector))
  else
    .error (.inputDoesNotExist i f.algorithm.numInputs)

/-- The `SetConst`. -/
def SetConst (f : ApplyAlgorithmFilter V) (i : Nat) (image : Option (Image V)) :
    Except Error (ApplyAlgorithmFilter V) :=
  if i < f.algorithm.numConsts then
    .ok (f.SetNthInput (f.algorithm.numInputs + 1 + i) (image.map DataObject.scalar))
  else
    .error (.constDoesNotExist i f.algorithm.numConsts)

/-- The `SetMask`. -/
def SetMask (f : ApplyAlgorithmFilter V) (image : Option (Image V)) : ApplyAlgorithmFilter V :=
  f.SetNthInput f.algorithm.numInputs (image.map DataObject.scalar)

/-- The `GetInput`. -/
def GetInput (f : ApplyAlgorithmFilter V) (i : Nat) : Except Error (Option (Image (List V))) :=
  if i < f.algorithm.numInputs then
    .ok (castVector (f.inputs i))
  else
    .error (.inputDoesNotExist i f.algorithm.numInputs)

/-- The `GetConst`. -/
def GetConst (f : ApplyAlgorithmFilter V) (i : Nat) : Except Error (Option (Image V)) :=
  if i < f.algorithm.numConsts then
    .ok (castScalar (f.inputs (f.algorithm.numInputs + 1 + i)))
  else
    .error (.constDoesNotExist i f.algorithm.numConsts)

/-- The `GetMask`. -/
def GetMask (f : ApplyAlgorithmFilter V) : Option (Image V) :=
  castScalar (f.inputs f.algorithm.numInputs)

/-- The `GetOutput`. -/
def GetOutput (f : ApplyAlgorithmFilter V) (i : Nat) : Except Error (Option (Image V)) :=
  if i < f.algorithm.numOutputs then
    .ok (castScalar (f.outputs (i + StartOutputs)))
  else
    .error (.outputPastMaximum i f.algorithm.numOutputs)

/-- The `GetAllResidualsOutput`. -/
def GetAllResidualsOutput (f : ApplyAlgorithmFilter V) : Option (Image (List V)) :=
  castVector (f.outputs AllResidualsOutput)

/-- The `GetResidualOutput`. -/
def GetResidualOutput (f : ApplyAlgorithmFilter V) : Option (Image V) :=
  castScalar (f.outputs ResidualOutput)

/-- The `GetIterationsOutput`. -/
def GetIterationsOutput (f : ApplyAlgorithmFilter V) : Option (Image Int) :=
  castIterations (f.outputs IterationsOutput)

/-! ## GenerateOutputInformation (configure) -/

/-- The loop of `GenerateOutputInformation` that adds up
`GetInput(i)->GetNumberOfComponentsPerPixel()` for the channels below `n`. -/
def inputSize (f : ApplyAlgorithmFilter V) : Nat → Except Error Nat
  | 0 => .ok 0
  | n + 1 =>
      match inputSize f n with
      | .error e => .error e
      | .ok size =>
          match f.GetInput n with
          | .error e => .error e
          | .ok none => .error .nullDereference
          | .ok (some img) => .ok (size + img.ncomp)

/-- The five calls made on one scalar output volume: regions, spacing, origin
and direction of data channel 0, then `Allocate(true)`. -/
def prepareImage {α β : Type} (op : Image α) (input : Image β) (zero : α) : Image α :=
  ((((op.SetRegions input.region).SetSpacing input.spacing).SetOrigin input.origin).SetDirection
    input.direction).Allocate zero

/-- The body of the parameter output loop of `GenerateOutputInformation`. -/
def prepareOutput [Zero V] (f : ApplyAlgorithmFilter V) (input : Image (List V)) (i : Nat) :
    Outcome V :=
  match f.GetOutput i with
  | .error e => ⟨f, some e⟩
  | .ok none => ⟨f, some .nullDereference⟩
  | .ok (some op) =>
      ⟨f.SetNthOutput (i + StartOutputs) (some (.scalar (prepareImage op input 0))), none⟩

/-- The parameter output loop of `GenerateOutputInformation`, outputs below `n`. -/
def prepareOutputs [Zero V] (f : ApplyAlgorithmFilter V) (input : Image (List V)) :
    Nat → Outcome V
  | 0 => ⟨f, none⟩
  | n + 1 => (prepareOutputs f input n).andThen (fun f1 => f1.prepareOutput input n)

/-- The all-residuals block of `GenerateOutputInformation`. -/
def prepareAllResiduals [Zero V] (f : ApplyAlgorithmFilter V) (input : Image (List V))
    (size : Nat) : Outcome V :=
  if f.allResiduals then
    match f.GetAllResidualsOutput with
    | none => ⟨f, some .nullDereference⟩
    | some r =>
        let r1 := ((((r.SetRegions input.region).SetSpacing input.spacing).SetOrigin
          input.origin).SetDirection input.direction).SetNumberOfComponentsPerPixel size
        ⟨f.SetNthOutput AllResidualsOutput
          (some (.vector (r1.Allocate (List.replicate size 0)))), none⟩
  else
    ⟨f, none⟩

/-- The residual block of `GenerateOutputInformation`. -/
def prepareResidual [Zero V] (f : ApplyAlgorithmFilter V) (input : Image (List V)) : Outcome V :=
  match f.GetResidualOutput with
  | none => ⟨f, some .nullDereference⟩
  | some r => ⟨f.SetNthOutput ResidualOutput (some (.scalar (prepareImage r input 0))), none⟩

/-- The iterations block of `GenerateOutputInformation`. -/
def prepareIterations (f : ApplyAlgorithmFilter V) (input : Image (List V)) : Outcome V :=
  match f.GetIterationsOutput with
  | none => ⟨f, some .nullDereference⟩
  | some i => ⟨f.SetNthOutput IterationsOutput (some (.iterations (prepareImage i input 0))), none⟩

/-- The `GenerateOutputInformation`: the size checks, then the allocation of
every output volume with the geometry of data channel 0. -/
def GenerateOutputInformation [Zero V] (f : ApplyAlgorithmFilter V) : Outcome V :=
  match f.inputSize f.algorithm.numInputs with
  | .error e => ⟨f, some e⟩
  | .ok size =>
      if f.algorithm.dataSize ≠ size then
        ⟨f, some (.sequenceSizeMismatch f.algorithm.dataSize size)⟩
      else if size = 0 then
        ⟨f, some .zeroInputSize⟩
      else
        match f.GetInput 0 with
        | .error e => ⟨f, some e⟩
        | .ok none => ⟨f, some .nullDereference⟩
        | .ok (some input) =>
            (((f.prepareOutputs input f.algorithm.numOutputs).andThen
              (fun f1 => f1.prepareAllResiduals input size)).andThen
              (fun f2 => f2.prepareResidual input)).andThen
              (fun f3 => f3.prepareIterations input)

/-! ## GenerateData (run) -/

/-- The mask pre-pass: `++m_unmaskedVoxels` at every non-zero mask value. -/
def countMask [DecidableEq V] [Zero V] (mask : Image V) : List Index → Nat → Nat
  | [], n => n
  | p :: ps, n => countMask mask ps (if mask.pix p ≠ 0 then n + 1 else n)

/-- The test `!mask || maskIter.Get()` of the dispatch loop. -/
def isActive [DecidableEq V] [Zero V] (mask : Option (Image V)) (p : Index) : Bool :=
  match mask with
  | none => true
  | some m => decide (m.pix p ≠ 0)

/-- The `outputIters[i].Set(v)` with the iterators at position `p`. -/
def writeOutput (f : ApplyAlgorithmFilter V) (i : Nat) (p : Index) (v : V) :
    ApplyAlgorithmFilter V :=
  match castScalar (f.outputs (i + StartOutputs)) with
  | some img => f.SetNthOutput (i + StartOutputs) (some (.scalar (img.Set p v)))
  | none => f

/-- The `residualIter.Set(v)` with the iterators at position `p`. -/
def writeResidual (f : ApplyAlgorithmFilter V) (p : Index) (v : V) : ApplyAlgorithmFilter V :=
  match castScalar (f.outputs ResidualOutput) with
  | some img => f.SetNthOutput ResidualOutput (some (.scalar (img.Set p v)))
  | none => f

/-- The `allResidualsIter.Set(v)` of a bound iterator at position `p`. -/
def writeAllResiduals (f : ApplyAlgorithmFilter V) (p : Index) (v : List V) :
    ApplyAlgorithmFilter V :=
  match castVector (f.outputs AllResidualsOutput) with
  | some img => f.SetNthOutput AllResidualsOutput (some (.vector (img.Set p v)))
  | none => f

/-- The `iterationsIter.Set(v)` with the iterators at position `p`. -/
def writeIterations (f : ApplyAlgorithmFilter V) (p : Index) (v : Int) : ApplyAlgorithmFilter V :=
  match castIterations (f.outputs IterationsOutput) with
  | some img => f.SetNthOutput IterationsOutput (some (.iterations (img.Set p v)))
  | none => f

/-- The construction of `dataIters`: every data channel below `n` is used. -/
def bindDataIters (f : ApplyAlgorithmFilter V) : Nat → Except Error Unit
  | 0 => .ok ()
  | n + 1 =>
      match bindDataIters f n with
      | .error e => .error e
      | .ok _ =>
          match f.GetInput n with
          | .error e => .error e
          | .ok none => .error .nullDereference
          | .ok (some _) => .ok ()

/-- The construction of `outputIters`: every parameter output below `n` is used. -/
def bindOutputIters (f : ApplyAlgorithmFilter V) : Nat → Except Error Unit
  | 0 => .ok ()
  | n + 1 =>
      match bindOutputIters f n with
      | .error e => .error e
      | .ok _ =>
          match f.GetOutput n with
          | .error e => .error e
          | .ok none => .error .nullDereference
          | .ok (some _) => .ok ()

/-- The construction of all iterators before the dispatch loop.  The constant
iterators are bound only for supplied channels and the all-residuals iterator
only when the flag is set; these two never use a null pointer. -/
def bindIterators (f : ApplyAlgorithmFilter V) : Except Error Unit :=
  match f.bindDataIters f.algorithm.numInputs with
  | .error e => .error e
  | .ok _ =>
      match f.bindOutputIters f.algorithm.numOutputs with
      | .error e => .error e
      | .ok _ =>
          if f.allResiduals && f.GetAllResidualsOutput.isNone then .error .nullDereference
          else if f.GetResidualOutput.isNone then .error .nullDereference
          else if f.GetIterationsOutput.isNone then .error .nullDereference
          else .ok ()

/-- The constants vector of the unit of work at `p`, after the slots below `n`
were visited: the defaults, overwritten by each supplied constant channel. -/
def constants (f : ApplyAlgorithmFilter V) (p : Index) : Nat → List V
  | 0 => f.algorithm.defaultConsts
  | n + 1 =>
      match f.GetConst n with
      | .ok (some c) => (constants f p n).set n (c.pix p)
      | _ => constants f p n

/-- The input vector of the unit of work at `p`: `dataIters[i].Get()` for
every data channel. -/
def inputVector (f : ApplyAlgorithmFilter V) (p : Index) : List (List V) :=
  (List.range f.algorithm.numInputs).map
    (fun i => match f.GetInput i with
      | .ok (some img) => img.pix p
      | _ => [])

/-- The call of `apply` made by the unit of work at `p`. -/
def applyAt (f : ApplyAlgorithmFilter V) (p : Index) : ApplyResult V :=
  f.algorithm.apply (f.inputVector p) (f.constants p f.algorithm.numConsts)

/-- The loop `outputIters[i].Set(outputs[i])` of a unit of work, outputs below
`n`.  The vector `outputs` is created with `numOutputs` zero entries, so an
entry that `apply` did not provide reads as zero. -/
def writeOutputs [Zero V] (f : ApplyAlgorithmFilter V) (p : Index) (outputs : List V) :
    Nat → ApplyAlgorithmFilter V
  | 0 => f
  | n + 1 => (writeOutputs f p outputs n).writeOutput n p (outputs.getD n 0)

/-- The unit of work (the task lambda) submitted for position `p`. -/
def runTask [Zero V] (f : ApplyAlgorithmFilter V) (p : Index) : ApplyAlgorithmFilter V :=
  let r := f.applyAt p
  let f1 := writeOutputs f p r.outputs f.algorithm.numOutputs
  let f2 := f1.writeResidual p r.residual
  let f3 := if f2.allResiduals then f2.writeAllResiduals p r.resids else f2
  f3.writeIterations p r.iterations

/-- Modelled from the spec: `QI::ThreadPool` is not among the sources.  The
pool runs every enqueued unit of work once and is drained before
`GenerateData` returns; the list gives the order in which the units run. -/
def drain [Zero V] : List Index → ApplyAlgorithmFilter V → ApplyAlgorithmFilter V
  | [], f => f
  | p :: ps, f => drain ps (f.runTask p)

end ApplyAlgorithmFilter

/-- The state of `GenerateData`: the filter, a raised error, and three
observations: the positions visited by the loop, the positions for which a unit
of work was enqueued (both in order) and the count of `CompletedPixel` calls. -/
structure RunState (V : Type) where
  filter : ApplyAlgorithmFilter V
  error : Option Error
  visited : List Index
  submitted : List Index
  progress : Nat

namespace ApplyAlgorithmFilter

variable {V : Type}

/-- The loop `outputIters[i].Set(0)` of the inactive branch, outputs below `n`. -/
def zeroOutputs [Zero V] (f : ApplyAlgorithmFilter V) (p : Index) :
    Nat → ApplyAlgorithmFilter V
  | 0 => f
  | n + 1 => (zeroOutputs f p n).writeOutput n p 0

/-- The inactive branch of the dispatch loop.  The write through
`allResidualsIter` is not guarded by `m_allResiduals`: when the flag is off the
iterator was never bound to an image. -/
def writeInactive [Zero V] (f : ApplyAlgorithmFilter V) (p : Index) : Outcome V :=
  let f1 := zeroOutputs f p f.algorithm.numOutputs
  if f1.allResiduals then
    let f2 := f1.writeAllResiduals p (List.replicate f1.algorithm.dataSize 0)
    let f3 := f2.writeResidual p 0
    ⟨f3.writeIterations p 0, none⟩
  else
    ⟨f1, some .nullDereference⟩

/-- One iteration of the dispatch loop, with every iterator at position `p`. -/
def dispatchStep [DecidableEq V] [Zero V] (mask : Option (Image V)) (st : RunState V)
    (p : Index) : RunState V :=
  if isActive mask p then
    { st with
      visited := st.visited ++ [p]
      submitted := st.submitted ++ [p]
      progress := st.progress + 1 }
  else
    let o := st.filter.writeInactive p
    { st with
      filter := o.filter
      error := o.error
      visited := st.visited ++ [p] }

/-- The dispatch loop `while(!dataIters[0].IsAtEnd())` over the positions that
remain to be visited. -/
def dispatchLoop [DecidableEq V] [Zero V] (mask : Option (Image V)) :
    List Index → RunState V → RunState V
  | [], st => st
  | p :: ps, st =>
      let st1 := dispatchStep mask st p
      match st1.error with
      | some _ => st1
      | none => dispatchLoop mask ps st1

/-- The active region of `GenerateData`: the sub-region when one is set, else
the largest possible region of data channel 0. -/
def activeRegion (f : ApplyAlgorithmFilter V) (input : Image (List V)) : Region :=
  if f.hasSubregion then f.subregion else input.region

/-- The `GenerateData`, with the order in which the pool runs the submitted
units given by `schedule`. -/
def GenerateDataScheduled [DecidableEq V] [Zero V] (f : ApplyAlgorithmFilter V)
    (elapsed : Rat) (schedule : List Index → List Index) : RunState V :=
  match f.GetInput 0 with
  | .error e => ⟨f, some e, [], [], 0⟩
  | .ok none => ⟨f, some .nullDereference, [], [], 0⟩
  | .ok (some input) =>
      if f.hasSubregion && !input.region.IsInside f.subregion then
        ⟨f, some .subregionNotInside, [], [], 0⟩
      else
        let region := f.activeRegion input
        let mask := f.GetMask
        let f1 := { f with
          unmaskedVoxels :=
            match mask with
            | some m => countMask m region.indices 0
            | none => region.GetNumberOfPixels }
        match f1.bindIterators with
        | .error e => ⟨f1, some e, [], [], 0⟩
        | .ok _ =>
            let st := dispatchLoop mask region.indices ⟨f1, none, [], [], 0⟩
            match st.error with
            | some _ => st
            | none =>
                { st with
                  filter := { drain (schedule st.submitted) st.filter with
                    elapsedTime := elapsed } }

/-- The `GenerateData` with the units of work run in submission order. -/
def GenerateData [DecidableEq V] [Zero V] (f : ApplyAlgorithmFilter V) (elapsed : Rat) :
    RunState V :=
  f.GenerateDataScheduled elapsed id

/-! ## Reading the output volumes -/

/-- The value of parameter output `k` at position `p`. -/
def outputAt (f : ApplyAlgorithmFilter V) (k : Nat) (p : Index) : Option V :=
  (castScalar (f.outputs (k + StartOutputs))).map (fun img => img.pix p)

/-- The value of the residual volume at position `p`. -/
def residualAt (f : ApplyAlgorithmFilter V) (p : Index) : Option V :=
  (castScalar (f.outputs ResidualOutput)).map (fun img => img.pix p)

/-- The vector of the all-residuals volume at position `p`. -/
def allResidualsAt (f : ApplyAlgorithmFilter V) (p : Index) : Option (List V) :=
  (castVector (f.outputs AllResidualsOutput)).map (fun img => img.pix p)

/-- The value of the iteration-count volume at position `p`. -/
def iterationsAt (f : ApplyAlgorithmFilter V) (p : Index) : Option Int :=
  (castIterations (f.outputs IterationsOutput)).map (fun img => img.pix p)

end ApplyAlgorithmFilter

end QUIT

namespace QUIT

variable {V : Type}

/-- The effect of a scalar iterator `Set` on the object held in a slot. -/
def setScalar (p : Index) (v : V) : Option (DataObject V) → Option (DataObject V)
  | some (.scalar img) => some (.scalar (img.Set p v))
  | o => o

/-- The effect of a vector iterator `Set` on the object held in a slot. -/
def setVector (p : Index) (v : List V) : Option (DataObject V) → Option (DataObject V)
  | some (.vector img) => some (.vector (img.Set p v))
  | o => o

/-- The effect of an iterations iterator `Set` on the object held in a slot. -/
def setIterations (p : Index) (v : Int) : Option (DataObject V) → Option (DataObject V)
  | some (.iterations img) => some (.iterations (img.Set p v))
  | o => o

/-- An image after the value `g q` was written at every position `q` of `L`. -/
def Image.bulk {α : Type} (img : Image α) (L : List Index) (g : Index → α) : Image α :=
  { img with pix := fun q => if q ∈ L then g q else img.pix q }

/-- A scalar slot after `g q` was written at every position `q` of `L`. -/
def bulkScalar (L : List Index) (g : Index → V) : Option (DataObject V) → Option (DataObject V)
  | some (.scalar img) => some (.scalar (img.bulk L g))
  | o => o

/-- A vector slot after `g q` was written at every position `q` of `L`. -/
def bulkVector (L : List Index) (g : Index → List V) :
    Option (DataObject V) → Option (DataObject V)
  | some (.vector img) => some (.vector (img.bulk L g))
  | o => o

/-- An iterations slot after `g q` was written at every position `q` of `L`. -/
def bulkIterations (L : List Index) (g : Index → Int) :
    Option (DataObject V) → Option (DataObject V)
  | some (.iterations img) => some (.iterations (img.bulk L g))
  | o => o

namespace ApplyAlgorithmFilter

/-- The effect of the unit of work at `p` on the object held in one output slot. -/
def taskSlot [Zero V] (f : ApplyAlgorithmFilter V) (p : Index) (slot : Nat)
    (o : Option (DataObject V)) : Option (DataObject V) :=
  if slot = IterationsOutput then setIterations p (f.applyAt p).iterations o
  else if slot = AllResidualsOutput then
    (if f.allResiduals then setVector p (f.applyAt p).resids o else o)
  else if slot = ResidualOutput then setScalar p (f.applyAt p).residual o
  else if slot < f.algorithm.numOutputs + StartOutputs then
    setScalar p ((f.applyAt p).outputs.getD (slot - StartOutputs) 0) o
  else o

/-- The effect of the units of work at the positions `L` on one output slot. -/
def taskSlots [Zero V] (f : ApplyAlgorithmFilter V) (L : List Index) (slot : Nat)
    (o : Option (DataObject V)) : Option (DataObject V) :=
  if slot = IterationsOutput then bulkIterations L (fun q => (f.applyAt q).iterations) o
  else if slot = AllResidualsOutput then
    (if f.allResiduals then bulkVector L (fun q => (f.applyAt q).resids) o else o)
  else if slot = ResidualOutput then bulkScalar L (fun q => (f.applyAt q).residual) o
  else if slot < f.algorithm.numOutputs + StartOutputs then
    bulkScalar L (fun q => (f.applyAt q).outputs.getD (slot - StartOutputs) 0) o
  else o

/-- The effect of the inactive branch at `p` on the object held in one output
slot, when the all-residuals iterator is bound. -/
def zeroSlot [Zero V] (f : ApplyAlgorithmFilter V) (p : Index) (slot : Nat)
    (o : Option (DataObject V)) : Option (DataObject V) :=
  if slot = IterationsOutput then setIterations p 0 o
  else if slot = AllResidualsOutput then
    setVector p (List.replicate f.algorithm.dataSize 0) o
  else if slot = ResidualOutput then setScalar p 0 o
  else if slot < f.algorithm.numOutputs + StartOutputs then setScalar p 0 o
  else o

/-- The effect of the inactive branch at the positions `L` on one output slot,
when the all-residuals iterator is bound. -/
def zeroSlots [Zero V] (f : ApplyAlgorithmFilter V) (L : List Index) (slot : Nat)
    (o : Option (DataObject V)) : Option (DataObject V) :=
  if slot = IterationsOutput then bulkIterations L (fun _ => 0) o
  else if slot = AllResidualsOutput then
    bulkVector L (fun _ => List.replicate f.algorithm.dataSize 0) o
  else if slot = ResidualOutput then bulkScalar L (fun _ => 0) o
  else if slot < f.algorithm.numOutputs + StartOutputs then bulkScalar L (fun _ => 0) o
  else o

end ApplyAlgorithmFilter
end QUIT

namespace QUIT
variable {V : Type}
namespace ApplyAlgorithmFilter

/-- Every image pointer that `GenerateData` binds an iterator to is non-null:
the data channels, the parameter outputs, the residual and iterations outputs
and, when requested, the all-residuals output. -/
def IteratorsBound (f : ApplyAlgorithmFilter V) : Prop :=
  (∀ i, i < f.algorithm.numInputs → (castVector (f.inputs i)).isSome = true) ∧
  (∀ k, k < f.algorithm.numOutputs → (castScalar (f.outputs (k + StartOutputs))).isSome = true) ∧
  (f.allResiduals = true → (castVector (f.outputs AllResidualsOutput)).isSome = true) ∧
  (castScalar (f.outputs ResidualOutput)).isSome = true ∧
  (castIterations (f.outputs IterationsOutput)).isSome = true

/-- The total declared input size: the sum of the per-pixel component counts
of the data channels `0 .. numInputs - 1`. -/
def declaredInputSize (f : ApplyAlgorithmFilter V) : Nat :=
  ((List.range f.algorithm.numInputs).map
    (fun i => match castVector (f.inputs i) with
      | some img => img.ncomp
      | none => 0)).sum

/-- The number of active voxels of a region: the positions at which the mask is
non-zero, or all positions when there is no mask. -/
def activeCount [DecidableEq V] [Zero V] (mask : Option (Image V)) (r : Region) : Nat :=
  (r.indices.filter (isActive mask)).length

end ApplyAlgorithmFilter
end QUIT

namespace QUIT

/-- Row-major order on grid positions: the last coordinate is the most
significant one and the first coordinate runs fastest. -/
def scanBefore : Index → Index → Prop
  | x :: xs, y :: ys => scanBefore xs ys ∨ (xs = ys ∧ x < y)
  | _, _ => False

end QUIT

namespace QUIT
namespace ApplyAlgorithmFilter
variable {V : Type}

/-- The pipeline `Update()`: `GenerateOutputInformation` (configure), then,
unless it raised, `GenerateData` (run). -/
def Update [DecidableEq V] [Zero V] (f : ApplyAlgorithmFilter V) (t : Rat) : RunState V :=
  match f.GenerateOutputInformation.error with
  | some e => ⟨f.GenerateOutputInformation.filter, some e, [], [], 0⟩
  | none => f.GenerateOutputInformation.filter.GenerateData t

end ApplyAlgorithmFilter
end QUIT

/-! ## Test scenarios -/

namespace QUIT

/-- The plugin of the test scenario: one data channel of two components, no
constants, one output; `apply` returns the sum of the inputs, residual zero,
two zero residuals and one iteration. -/
def sumAlgo : Algorithm Int :=
  { numInputs := 1
    numConsts := 0
    numOutputs := 1
    dataSize := 2
    defaultConsts := []
    apply := fun inputs _ => ⟨[(inputs.map List.sum).sum], 0, [0, 0], 1⟩ }

/-- The full extent of the 2 x 2 x 1 test volume. -/
def region221 : Region := ⟨[(0, 2), (0, 2), (0, 1)]⟩

/-- The two-component data channel of the test scenario. -/
def dataImage : Image (List Int) :=
  { region := region221
    spacing := [1, 1, 1]
    origin := [0, 0, 0]
    direction := [[1, 0, 0], [0, 1, 0], [0, 0, 1]]
    ncomp := 2
    allocated := true
    pix := fun p =>
      match p with
      | [x, y, _] => [x + 1, 10 * y]
      | _ => [] }

/-- A mask over the test volume with exactly one non-zero voxel. -/
def maskImage : Image Int :=
  { region := region221
    spacing := [1, 1, 1]
    origin := [0, 0, 0]
    direction := [[1, 0, 0], [0, 1, 0], [0, 0, 1]]
    ncomp := 1
    allocated := true
    pix := fun p => if p = [0, 0, 0] then 1 else 0 }

/-- A filter object before `SetAlgorithm`. -/
def blankFilter : ApplyAlgorithmFilter Int :=
  { ImageDimension := 3
    algorithm := sumAlgo
    poolsize := 1
    subregion := ⟨[(0, 0), (0, 0), (0, 0)]⟩
    hasSubregion := false
    verbose := false
    allResiduals := false
    elapsedTime := 0
    unmaskedVoxels := 0
    inputs := fun _ => none
    outputs := fun _ => none }

/-- The test scenario without a mask. -/
def sumFilter : ApplyAlgorithmFilter Int :=
  (blankFilter.SetAlgorithm sumAlgo).SetNthInput 0 (some (.vector dataImage))

/-- The test scenario without a mask, after `GenerateOutputInformation`. -/
def sumConfigured : ApplyAlgorithmFilter Int :=
  sumFilter.GenerateOutputInformation.filter

/-- The test scenario with the one-voxel mask and all residuals requested,
after `GenerateOutputInformation`. -/
def maskedConfigured : ApplyAlgorithmFilter Int :=
  ((sumFilter.SetOutputAllResiduals true).SetMask
    (some maskImage)).GenerateOutputInformation.filter

/-- The test scenario with a sub-region that sticks out of the volume. -/
def outsideFilter : ApplyAlgorithmFilter Int :=
  sumFilter.SetSubregion ⟨[(1, 2), (0, 2), (0, 1)]⟩

/-- A plugin that expects five components; the data channel supplies two. -/
def mismatchFilter : ApplyAlgorithmFilter Int :=
  (blankFilter.SetAlgorithm { sumAlgo with dataSize := 5 }).SetNthInput 0
    (some (.vector dataImage))

/-- A constant channel over the test volume. -/
def constImage : Image Int :=
  { region := region221
    spacing := [1, 1, 1]
    origin := [0, 0, 0]
    direction := [[1, 0, 0], [0, 1, 0], [0, 0, 1]]
    ncomp := 1
    allocated := true
    pix := fun p =>
      match p with
      | [x, _, _] => 40 + x
      | _ => 0 }

/-- A filter whose plugin has two constants with defaults 7 and 9; only the
constant channel 1 is supplied. -/
def constFilter : ApplyAlgorithmFilter Int :=
  (blankFilter.SetAlgorithm { sumAlgo with numConsts := 2, defaultConsts := [7, 9] }).SetNthInput
    3 (some (.scalar constImage))

end QUIT

namespace QUIT
variable {V : Type}

/-- An output volume carries the geometry of data channel 0 and a buffer:
region (the largest possible region of the channel), spacing, origin and
direction are those of `input`, and the volume is allocated. -/
def SharesGeometry {α β : Type} (img : Image α) (input : Image β) : Prop :=
  img.region = input.region ∧ img.spacing = input.spacing ∧ img.origin = input.origin ∧
    img.direction = input.direction ∧ img.allocated = true

end QUIT

namespace QUIT
namespace ApplyAlgorithmFilter
variable {V : Type}

end ApplyAlgorithmFilter

/-- The test scenario with the one-voxel mask and all residuals not requested,
after `GenerateOutputInformation`. -/
def maskedPlainConfigured : ApplyAlgorithmFilter Int :=
  (sumFilter.SetMask (some maskImage)).GenerateOutputInformation.filter

/-- The test scenario with all residuals requested, before configure. -/
def residsFilter : ApplyAlgorithmFilter Int :=
  sumFilter.SetOutputAllResiduals true

end QUIT

/-! ## The DESPOT2-FM plugins (`Source/qidespot2fm.cpp`) -/

namespace QUIT

/-- The values of a C++ `double` as far as `isfinite` and comparisons look at
them: a finite value (an exact rational), the two infinities, or a NaN. -/
inductive Double where
  | finite (q : Rat)
  | posInf
  | negInf
  | nan
deriving DecidableEq

/-- The value `0.0`, written by `setZero()`. -/
def Double.zero : Double := .finite 0

/-- The `std::isfinite`. -/
def Double.isfinite : Double → Bool
  | .finite _ => true
  | _ => false

/-- The comparison `a > b` of two doubles; false whenever one is a NaN. -/
def Double.gt : Double → Double → Bool
  | .nan, _ => false
  | _, .nan => false
  | .negInf, _ => false
  | _, .posInf => false
  | .posInf, _ => true
  | .finite _, .negInf => true
  | .finite a, .finite b => decide (b < a)

/-- The literal `0.001`: the double nearest to one thousandth. -/
def literal0001 : Double :=
  .finite ((1152921504606847 : Rat) / 1152921504606846976)

/-- The type of the fitting branch of an `apply`: from the data, T1, B1 and the
output array passed in, the fitted outputs and the residuals.  The fit itself
(Levenberg-Marquardt or region contraction over the SSFP signal model) lies
outside `qidespot2fm.cpp` and is a parameter of the two plugins. -/
abbrev FitBranch := List Double → Double → Double → List Double → List Double × List Double

/-- The `FMLMAlgo::apply`: the result is the content of `outputs` and `resids`
on return; `none` is an out-of-range read of `inputs`. -/
def FMLMAlgo.apply (fit : FitBranch) (data inputs outputs resids : List Double) :
    Option (List Double × List Double) :=
  match inputs with
  | [] => none
  | T1 :: rest =>
      if T1.isfinite && T1.gt literal0001 then
        match rest with
        | [] => none
        | B1 :: _ => some (fit data T1 B1 outputs)
      else
        some (outputs.map (fun _ => Double.zero), resids.map (fun _ => Double.zero))

/-- The `FMSRCAlgo::apply`: the result is the content of `outputs` and `resids`
on return; `none` is an out-of-range read of `inputs`.  The local arrays
`thresh`, `weights` and `bounds` built before the test are used by the fit
only. -/
def FMSRCAlgo.apply (fit : FitBranch) (data inputs outputs resids : List Double) :
    Option (List Double × List Double) :=
  match inputs with
  | [] => none
  | T1 :: rest =>
      if T1.isfinite && T1.gt literal0001 then
        match rest with
        | [] => none
        | B1 :: _ => some (fit data T1 B1 outputs)
      else
        some (outputs.map (fun _ => Double.zero), resids.map (fun _ => Double.zero))

end QUIT

/-! ## Filter kernels (`Source/QI/Kernels.cpp`) -/

namespace QUIT

/-- The part of a `std::istream` that the kernel readers use: the characters
not yet extracted, the eofbit and the failbit. -/
structure IStream where
  rest : List Char
  eofbit : Bool
  failbit : Bool
deriving DecidableEq

/-- A stream over a text, as `std::istringstream` constructs it. -/
def IStream.ofText (text : List Char) : IStream :=
  { rest := text, eofbit := false, failbit := false }

/-- The `std::getline(istr, str, delim)`: the stream afterwards and the content
of `str`.  On a stream that is not good the failbit is set and `str` is left
as it was; otherwise `str` is replaced by the characters up to the delimiter,
which is extracted and dropped, or up to the end of the input, which sets the
eofbit; when nothing at all was extracted the failbit is set. -/
def IStream.getline (s : IStream) (str : List Char) (delim : Char) : IStream × List Char :=
  if s.eofbit || s.failbit then
    ({ s with failbit := true }, str)
  else
    match s.rest.dropWhile (fun c => c != delim) with
    | [] =>
        ({ rest := [], eofbit := true,
           failbit := (s.rest.takeWhile (fun c => c != delim)).isEmpty },
          s.rest.takeWhile (fun c => c != delim))
    | _ :: tail =>
        ({ rest := tail, eofbit := false, failbit := false },
          s.rest.takeWhile (fun c => c != delim))

/-- The two conversions between a `double` and text made by the C++ library:
`put` is `operator<<` of an output stream and `stod` is `std::stod`, with `none`
for `std::invalid_argument`.  Kernel parameters are exact rationals here. -/
structure NumberText where
  put : Rat → List Char
  stod : List Char → Option Rat

/-- The kernels of `Kernels.cpp` with their member variables. -/
inductive FilterKernel where
  | tukey (a q : Rat)
  | hamming (a b : Rat)
  | gauss (fwhm0 fwhm1 fwhm2 : Rat)
  | blackman (alpha a0 a1 a2 : Rat)
deriving DecidableEq

/-- The exceptions of the kernel readers. -/
inductive KernelError where
  | invalidArgument
  | unknownFilterType
deriving DecidableEq

/-- The values the member variables have before a stream constructor assigns
them; they are declared in `Kernels.h`, which is not among the sources. -/
structure KernelInit where
  tukey : FilterKernel
  hamming : FilterKernel
  gauss : FilterKernel
  blackman : FilterKernel

/-- The `std::stod` call of a reader. -/
def NumberText.parse (nt : NumberText) (s : List Char) : Except KernelError Rat :=
  match nt.stod s with
  | some v => .ok v
  | none => .error .invalidArgument

/-- The `TukeyKernel::TukeyKernel(std::istream &)`. -/
def TukeyKernel.read (nt : NumberText) (init : KernelInit) (istr : IStream) :
    Except KernelError FilterKernel :=
  if !istr.eofbit then
    match nt.parse (istr.getline [] ',').2 with
    | .error e => .error e
    | .ok a =>
        match nt.parse (((istr.getline [] ',').1).getline (istr.getline [] ',').2 ',').2 with
        | .error e => .error e
        | .ok q => .ok (.tukey a q)
  else .ok init.tukey

/-- The `HammingKernel::HammingKernel(std::istream &)`. -/
def HammingKernel.read (nt : NumberText) (init : KernelInit) (istr : IStream) :
    Except KernelError FilterKernel :=
  if !istr.eofbit then
    match nt.parse (istr.getline [] ',').2 with
    | .error e => .error e
    | .ok a =>
        match nt.parse (((istr.getline [] ',').1).getline (istr.getline [] ',').2 ',').2 with
        | .error e => .error e
        | .ok b => .ok (.hamming a b)
  else .ok init.hamming

/-- The `GaussKernel::GaussKernel(std::istream &)`. -/
def GaussKernel.read (nt : NumberText) (init : KernelInit) (istr : IStream) :
    Except KernelError FilterKernel :=
  if !istr.eofbit then
    let r1 := istr.getline [] ','
    if !r1.1.failbit then
      match nt.parse r1.2 with
      | .error e => .error e
      | .ok f0 =>
          let r2 := r1.1.getline r1.2 ','
          match nt.parse r2.2 with
          | .error e => .error e
          | .ok f1 =>
              let r3 := r2.1.getline r2.2 ','
              match nt.parse r3.2 with
              | .error e => .error e
              | .ok f2 => .ok (.gauss f0 f1 f2)
    else
      match nt.parse r1.2 with
      | .error e => .error e
      | .ok v => .ok (.gauss (1 * v) (1 * v) (1 * v))
  else .ok init.gauss

/-- The `BlackmanKernel::BlackmanKernel(std::istream &)`. -/
def BlackmanKernel.read (nt : NumberText) (init : KernelInit) (istr : IStream) :
    Except KernelError FilterKernel :=
  if !istr.eofbit then
    match nt.parse (istr.getline [] ',').2 with
    | .error e => .error e
    | .ok alpha => .ok (.blackman alpha ((1 - alpha) / 2) (1 / 2) (alpha / 2))
  else .ok init.blackman

/-- The `ReadKernel`. -/
def ReadKernel (nt : NumberText) (init : KernelInit) (istr : IStream) :
    Except KernelError FilterKernel :=
  let r := istr.getline [] ','
  if r.2 = ['T', 'u', 'k', 'e', 'y'] then TukeyKernel.read nt init r.1
  else if r.2 = ['H', 'a', 'm', 'm', 'i', 'n', 'g'] then HammingKernel.read nt init r.1
  else if r.2 = ['G', 'a', 'u', 's', 's'] then GaussKernel.read nt init r.1
  else if r.2 = ['B', 'l', 'a', 'c', 'k', 'm', 'a', 'n'] then BlackmanKernel.read nt init r.1
  else .error .unknownFilterType

/-- The text Eigen writes for a row of coefficients with its default format:
every coefficient right-aligned to the width of the widest one, the
coefficients separated by one blank. -/
def eigenRow (cells : List (List Char)) : List Char :=
  List.intercalate [' ']
    (cells.map (fun c =>
      List.replicate ((cells.map List.length).foldl max 0 - c.length) ' ' ++ c))

/-- The `print` of each kernel: the text written to the stream. -/
def FilterKernel.print (nt : NumberText) : FilterKernel → List Char
  | .tukey a q => ['T', 'u', 'k', 'e', 'y', ','] ++ nt.put a ++ [','] ++ nt.put q ++ ['\n']
  | .hamming a b =>
      ['H', 'a', 'm', 'm', 'i', 'n', 'g', ','] ++ nt.put a ++ [','] ++ nt.put b ++ ['\n']
  | .gauss f0 f1 f2 =>
      ['G', 'a', 'u', 's', 's', ','] ++ eigenRow [nt.put f0, nt.put f1, nt.put f2] ++ ['\n']
  | .blackman alpha _ _ _ =>
      ['B', 'l', 'a', 'c', 'k', 'm', 'a', 'n', ','] ++ nt.put alpha ++ ['\n']

/-- The two conversions at whole numbers below a million: `operator<<` writes
the decimal digits, and `std::stod` skips blanks and reads the digits that
follow. -/
def wholeText : NumberText :=
  { put := fun q => Nat.toDigits 10 q.num.toNat
    stod := fun s =>
      if ((s.dropWhile Char.isWhitespace).takeWhile Char.isDigit).isEmpty then none
      else some ((((s.dropWhile Char.isWhitespace).takeWhile Char.isDigit).foldl
        (fun n c => 10 * n + (c.toNat - 48)) 0 : Nat) : Rat) }

/-- Member values before a stream constructor assigns them, for the scenarios. -/
def zeroInit : KernelInit :=
  { tukey := .tukey 0 0, hamming := .hamming 0 0, gauss := .gauss 0 0 0,
    blackman := .blackman 0 0 0 0 }

end QUIT

/-! ## The bounded-queue worker pool -/

namespace QUIT

/-- Modelled from the spec: the state of the bounded-queue worker pool
(`QI::ThreadPool`, whose code is not among the sources) during a run: the units
of work the dispatch thread has still to enqueue, the FIFO queue of units that
are queued and not started, the units in flight on a worker, and the completed
units. -/
structure PoolState where
  pending : List Index
  queue : List Index
  running : List Index
  finished : List Index

/-- Modelled from the spec: the thread that makes the next move.  The dispatch
thread calls `enqueue` for its next unit, an idle worker pulls the unit at the
head of the queue, or the `k`-th unit in flight completes. -/
inductive Turn where
  | dispatch
  | start
  | finish (k : Nat)

/-- Modelled from the spec: the pool before the dispatch loop has submitted
anything; `units` are the units of work the loop will submit, in order. -/
def PoolState.initial (units : List Index) : PoolState :=
  { pending := units, queue := [], running := [], finished := [] }

/-- Modelled from the spec: one move of the pool with a queue of the given
capacity and the given number of worker threads.  `enqueue` on a queue at
capacity blocks: the dispatch thread makes no progress.  A worker pulls a unit
only when fewer than `workers` units are in flight. -/
def PoolState.step (capacity workers : Nat) (st : PoolState) : Turn → PoolState
  | .dispatch =>
      match st.pending with
      | [] => st
      | p :: ps =>
          if st.queue.length < capacity then
            { st with pending := ps, queue := st.queue ++ [p] }
          else st
  | .start =>
      match st.queue with
      | [] => st
      | p :: qs =>
          if st.running.length < workers then
            { st with queue := qs, running := st.running ++ [p] }
          else st
  | .finish k =>
      match st.running[k]? with
      | none => st
      | some p => { st with running := st.running.eraseIdx k, finished := st.finished ++ [p] }

/-- Modelled from the spec: the pool after the moves of a schedule. -/
def PoolState.run (capacity workers : Nat) : List Turn → PoolState → PoolState
  | [], st => st
  | turn :: turns, st => PoolState.run capacity workers turns (st.step capacity workers turn)

/-- Modelled from the spec: the schedule in which every unit is enqueued,
started and completed before the next one is enqueued. -/
def serialSchedule (units : List Index) : List Turn :=
  units.flatMap (fun _ => [Turn.dispatch, Turn.start, Turn.finish 0])

end QUIT

/-! ## The dispatch loop read statement by statement

Lines 285-291 of `GenerateData` are executed at every masked-out position,
whatever the value of `m_allResiduals`, and the loop goes on to the next
position.  `GenerateData` above ends the run at the one statement of that
branch whose behaviour is undefined.  The definitions of this section follow
the statement sequence through it: a write through the all-residuals iterator
that was never bound refers to none of the volumes of the filter, so it changes
none of them; its position is recorded. -/

namespace QUIT

/-- The state of `GenerateData` read statement by statement: the fields of
`RunState`, and the positions at which `allResidualsIter.Set` was called on the
iterator that was never bound (in order). -/
structure TracedRun (V : Type) where
  filter : ApplyAlgorithmFilter V
  error : Option Error
  visited : List Index
  submitted : List Index
  progress : Nat
  unboundWrites : List Index

namespace ApplyAlgorithmFilter

variable {V : Type}

/-- The inactive branch of the dispatch loop, lines 285-291: zero to every
parameter output, the zero vector to the all-residuals volume when its iterator
is bound (no volume is changed when it is not), zero to the residual and zero
to the iteration count. -/
def writeInactiveTraced [Zero V] (f : ApplyAlgorithmFilter V) (p : Index) :
    ApplyAlgorithmFilter V :=
  let f1 := zeroOutputs f p f.algorithm.numOutputs
  let f2 := if f1.allResiduals then
      f1.writeAllResiduals p (List.replicate f1.algorithm.dataSize 0)
    else f1
  let f3 := f2.writeResidual p 0
  f3.writeIterations p 0

/-- One iteration of the dispatch loop, with every iterator at position `p`. -/
def dispatchStepTraced [DecidableEq V] [Zero V] (mask : Option (Image V)) (st : TracedRun V)
    (p : Index) : TracedRun V :=
  if isActive mask p then
    { st with
      visited := st.visited ++ [p]
      submitted := st.submitted ++ [p]
      progress := st.progress + 1 }
  else
    { st with
      filter := st.filter.writeInactiveTraced p
      visited := st.visited ++ [p]
      unboundWrites :=
        (if st.filter.allResiduals then st.unboundWrites else st.unboundWrites ++ [p]) }

/-- The dispatch loop `while(!dataIters[0].IsAtEnd())` over the positions that
remain to be visited. -/
def dispatchLoopTraced [DecidableEq V] [Zero V] (mask : Option (Image V)) :
    List Index → TracedRun V → TracedRun V
  | [], st => st
  | p :: ps, st => dispatchLoopTraced mask ps (dispatchStepTraced mask st p)

/-- The `GenerateData` read statement by statement, with the units of work run
in submission order once the loop has ended. -/
def GenerateDataTraced [DecidableEq V] [Zero V] (f : ApplyAlgorithmFilter V)
    (elapsed : Rat) : TracedRun V :=
  match f.GetInput 0 with
  | .error e => ⟨f, some e, [], [], 0, []⟩
  | .ok none => ⟨f, some .nullDereference, [], [], 0, []⟩
  | .ok (some input) =>
      if f.hasSubregion && !input.region.IsInside f.subregion then
        ⟨f, some .subregionNotInside, [], [], 0, []⟩
      else
        let region := f.activeRegion input
        let mask := f.GetMask
        let f1 := { f with
          unmaskedVoxels :=
            match mask with
            | some m => countMask m region.indices 0
            | none => region.GetNumberOfPixels }
        match f1.bindIterators with
        | .error e => ⟨f1, some e, [], [], 0, []⟩
        | .ok _ =>
            let st := dispatchLoopTraced mask region.indices ⟨f1, none, [], [], 0, []⟩
            { st with
              filter := { drain st.submitted st.filter with elapsedTime := elapsed } }

/-- The effect of the inactive branch at `p` on the object held in one output
slot: that of `zeroSlot`, except that the all-residuals slot is left as it is
when all-residuals is off. -/
def zeroSlotTraced [Zero V] (f : ApplyAlgorithmFilter V) (p : Index) (slot : Nat)
    (o : Option (DataObject V)) : Option (DataObject V) :=
  if slot = AllResidualsOutput ∧ f.allResiduals = false then o else zeroSlot f p slot o

/-- The effect of the inactive branch at the positions `L` on one output slot:
that of `zeroSlots`, except that the all-residuals slot is left as it is when
all-residuals is off. -/
def zeroSlotsTraced [Zero V] (f : ApplyAlgorithmFilter V) (L : List Index) (slot : Nat)
    (o : Option (DataObject V)) : Option (DataObject V) :=
  if slot = AllResidualsOutput ∧ f.allResiduals = false then o else zeroSlots f L slot o

end ApplyAlgorithmFilter

/-- A plugin like `sumAlgo` whose `apply` returns a residual of seven, the
residuals three and four and five iterations. -/
def markAlgo : Algorithm Int :=
  { numInputs := 1
    numConsts := 0
    numOutputs := 1
    dataSize := 2
    defaultConsts := []
    apply := fun inputs _ => ⟨[(inputs.map List.sum).sum], 7, [3, 4], 5⟩ }

/-- The test scenario with the plugin `markAlgo`, before configure. -/
def markFilter : ApplyAlgorithmFilter Int :=
  (blankFilter.SetAlgorithm markAlgo).SetNthInput 0 (some (.vector dataImage))

/-- A filter whose output volumes hold the non-zero results of a run without a
mask, then given the one-voxel mask; all residuals are not requested. -/
def rerunPlain : ApplyAlgorithmFilter Int :=
  (markFilter.GenerateOutputInformation.filter.GenerateData 0).filter.SetMask (some maskImage)

/-- A filter whose output volumes hold the non-zero results of a run without a
mask, then given the one-voxel mask; all residuals are requested. -/
def rerunResids : ApplyAlgorithmFilter Int :=
  ((markFilter.SetOutputAllResiduals true).GenerateOutputInformation.filter.GenerateData
    0).filter.SetMask (some maskImage)

end QUIT

/-! # Properties -/

namespace QUIT

theorem Region.mem_indicesAux (ds : List (Int × Nat)) :
    ∀ p : Index, p ∈ Region.indicesAux ds ↔ Region.insideIndexAux ds p = true := by
  induction ds with
  | nil =>
      intro p
      cases p <;> simp [Region.indicesAux, Region.insideIndexAux]
  | cons d ds ih =>
      obtain ⟨i, n⟩ := d
      intro p
      cases p with
      | nil => simp [Region.indicesAux, Region.insideIndexAux]
      | cons x xs =>
          simp only [Region.indicesAux, Region.insideIndexAux, List.mem_flatMap, List.mem_map,
            List.mem_range, Bool.and_eq_true, decide_eq_true_eq, List.cons.injEq]
          constructor
          · rintro ⟨t, ht, k, hk, hx, rfl⟩
            refine ⟨⟨by omega, by omega⟩, (ih _).1 ht⟩
          · rintro ⟨⟨h1, h2⟩, h3⟩
            refine ⟨xs, (ih _).2 h3, (x - i).toNat, by omega, by omega, rfl⟩

theorem Region.mem_indices (r : Region) (p : Index) :
    p ∈ r.indices ↔ r.IsInsideIndex p = true :=
  Region.mem_indicesAux r.dims p

theorem Region.length_indicesAux (ds : List (Int × Nat)) :
    (Region.indicesAux ds).length = (ds.map Prod.snd).prod := by
  induction ds with
  | nil => rfl
  | cons d ds ih =>
      obtain ⟨i, n⟩ := d
      simp only [Region.indicesAux, List.length_flatMap, List.map_cons, List.prod_cons]
      rw [← ih]
      simp [Function.comp_def, Nat.mul_comm]

theorem Region.length_indices (r : Region) :
    r.indices.length = r.GetNumberOfPixels :=
  Region.length_indicesAux r.dims

theorem Region.nodup_indicesAux (ds : List (Int × Nat)) :
    (Region.indicesAux ds).Nodup := by
  induction ds with
  | nil => simp [Region.indicesAux]
  | cons d ds ih =>
      obtain ⟨i, n⟩ := d
      simp only [Region.indicesAux]
      rw [List.nodup_flatMap]
      constructor
      · intro t _
        refine List.Nodup.map ?_ (List.nodup_range n)
        intro a b hab
        simp only [List.cons.injEq, and_true] at hab
        omega
      · refine List.Pairwise.imp_of_mem ?_ (List.Nodup.pairwise_of_forall_ne ih (fun a _ b _ h => h))
        intro a b _ _ hne
        simp only [Function.onFun]
        intro q hqa hqb
        simp only [List.mem_map, List.mem_range] at hqa hqb
        obtain ⟨k1, _, rfl⟩ := hqa
        obtain ⟨k2, _, h⟩ := hqb
        simp only [List.cons.injEq] at h
        exact hne h.2.symm

theorem Region.nodup_indices (r : Region) : r.indices.Nodup :=
  Region.nodup_indicesAux r.dims

end QUIT

namespace QUIT

theorem Region.pairwise_indicesAux (ds : List (Int × Nat)) :
    (Region.indicesAux ds).Pairwise scanBefore := by
  induction ds with
  | nil => simp [Region.indicesAux]
  | cons d ds ih =>
      obtain ⟨i, n⟩ := d
      simp only [Region.indicesAux]
      rw [List.pairwise_flatMap]
      constructor
      · intro t _
        rw [List.pairwise_map]
        refine List.Pairwise.imp ?_ (List.pairwise_lt_range n)
        intro a b hab
        right
        exact ⟨rfl, by omega⟩
      · refine List.Pairwise.imp ?_ ih
        intro a b hab x hx y hy
        simp only [List.mem_map, List.mem_range] at hx hy
        obtain ⟨k1, _, rfl⟩ := hx
        obtain ⟨k2, _, rfl⟩ := hy
        left
        exact hab

theorem Region.pairwise_indices (r : Region) : r.indices.Pairwise scanBefore :=
  Region.pairwise_indicesAux r.dims

end QUIT

namespace QUIT

theorem Region.insideIndexAux_begin (ss : List (Int × Nat)) (hpos : ∀ d, d ∈ ss → 0 < d.2) :
    Region.insideIndexAux ss (ss.map Prod.fst) = true := by
  induction ss with
  | nil => rfl
  | cons s ss ih =>
      obtain ⟨i, n⟩ := s
      have hn : 0 < n := hpos (i, n) (List.mem_cons_self _ _)
      have ih1 := ih (fun d hd => hpos d (List.mem_cons_of_mem _ hd))
      simp only [List.map_cons, Region.insideIndexAux, Bool.and_eq_true, decide_eq_true_eq]
      exact ⟨⟨le_refl _, by omega⟩, ih1⟩

theorem Region.isInsideAux_iff (ds : List (Int × Nat)) :
    ∀ ss : List (Int × Nat), (∀ d, d ∈ ss → 0 < d.2) →
      ((Region.insideIndexAux ds (ss.map Prod.fst) = true ∧
        Region.insideIndexAux ds (ss.map (fun d => d.1 + (d.2 : Int) - 1)) = true) ↔
      ∀ p, Region.insideIndexAux ss p = true → Region.insideIndexAux ds p = true) := by
  induction ds with
  | nil =>
      intro ss hpos
      cases ss with
      | nil =>
          simp only [List.map_nil, Region.insideIndexAux, and_self, true_iff]
          intro p hp
          cases p with
          | nil => rfl
          | cons x xs => simp [Region.insideIndexAux] at hp
      | cons s ss =>
          constructor
          · intro h
            simp [Region.insideIndexAux] at h
          · intro h
            have := h _ (Region.insideIndexAux_begin (s :: ss) hpos)
            simp [Region.insideIndexAux] at this
  | cons d ds ih =>
      obtain ⟨i, n⟩ := d
      intro ss hpos
      cases ss with
      | nil =>
          constructor
          · intro h
            simp [Region.insideIndexAux] at h
          · intro h
            have := h [] rfl
            simp [Region.insideIndexAux] at this
      | cons s ss =>
          obtain ⟨j, m⟩ := s
          have hm : 0 < m := hpos (j, m) (List.mem_cons_self _ _)
          have hpos1 : ∀ d, d ∈ ss → 0 < d.2 := fun d hd => hpos d (List.mem_cons_of_mem _ hd)
          have ih1 := ih ss hpos1
          simp only [List.map_cons, Region.insideIndexAux, Bool.and_eq_true, decide_eq_true_eq]
          constructor
          · rintro ⟨⟨⟨h1, h2⟩, h3⟩, ⟨⟨h4, h5⟩, h6⟩⟩
            have hrest := ih1.1 ⟨h3, h6⟩
            intro p hp
            cases p with
            | nil => simp [Region.insideIndexAux] at hp
            | cons x xs =>
                simp only [Region.insideIndexAux, Bool.and_eq_true, decide_eq_true_eq] at hp ⊢
                obtain ⟨⟨hx1, hx2⟩, hxs⟩ := hp
                exact ⟨⟨by omega, by omega⟩, hrest xs hxs⟩
          · intro h
            have hb := Region.insideIndexAux_begin ss hpos1
            have hrest : ∀ xs, Region.insideIndexAux ss xs = true →
                Region.insideIndexAux ds xs = true := by
              intro xs hxs
              have := h (j :: xs) (by
                simp only [Region.insideIndexAux, Bool.and_eq_true, decide_eq_true_eq]
                exact ⟨⟨le_refl _, by omega⟩, hxs⟩)
              simp only [Region.insideIndexAux, Bool.and_eq_true, decide_eq_true_eq] at this
              exact this.2
            have hlo := h (j :: ss.map Prod.fst) (by
              simp only [Region.insideIndexAux, Bool.and_eq_true, decide_eq_true_eq]
              exact ⟨⟨le_refl _, by omega⟩, hb⟩)
            have hhi := h ((j + (m : Int) - 1) :: ss.map Prod.fst) (by
              simp only [Region.insideIndexAux, Bool.and_eq_true, decide_eq_true_eq]
              exact ⟨⟨by omega, by omega⟩, hb⟩)
            simp only [Region.insideIndexAux, Bool.and_eq_true, decide_eq_true_eq] at hlo hhi
            obtain ⟨h3, h6⟩ := ih1.2 hrest
            exact ⟨⟨hlo.1, h3⟩, ⟨hhi.1, h6⟩⟩

theorem Region.pos_of_prod_pos (ss : List (Int × Nat)) (h : 0 < (ss.map Prod.snd).prod) :
    ∀ d, d ∈ ss → 0 < d.2 := by
  induction ss with
  | nil => intro d hd; cases hd
  | cons s ss ih =>
      simp only [List.map_cons, List.prod_cons] at h
      have h1 : 0 < s.2 := Nat.pos_of_mul_pos_right h
      have h2 : 0 < (ss.map Prod.snd).prod := Nat.pos_of_mul_pos_left h
      intro d hd
      rcases List.mem_cons.1 hd with rfl | hd
      · exact h1
      · exact ih h2 d hd

/-- For a non-empty region `sub`, `IsInside` holds exactly when every position
of `sub` is a position of the region. -/
theorem Region.IsInside_iff (r sub : Region) (h : 0 < sub.GetNumberOfPixels) :
    r.IsInside sub = true ↔ ∀ p, p ∈ sub.indices → p ∈ r.indices := by
  have hpos := Region.pos_of_prod_pos sub.dims h
  have key := Region.isInsideAux_iff r.dims sub.dims hpos
  simp only [Region.IsInside, Region.IsInsideIndex, Region.GetIndex, Region.endCorner,
    Bool.and_eq_true, Region.mem_indices]
  exact key

end QUIT

namespace QUIT
namespace ApplyAlgorithmFilter
variable {V : Type}

/-- The `MakeOutput` creates an object for every slot that `SetAlgorithm` fills. -/
theorem MakeOutput_ok_of_lt [Zero V] (f : ApplyAlgorithmFilter V) (idx : Nat)
    (h : idx < f.algorithm.numOutputs + StartOutputs) : ∃ o, f.MakeOutput idx = .ok o := by
  unfold MakeOutput
  split_ifs
  all_goals exact ⟨_, rfl⟩

theorem inputSize_eq (f : ApplyAlgorithmFilter V)
    (hdata : ∀ i, i < f.algorithm.numInputs → (castVector (f.inputs i)).isSome = true) :
    ∀ n, n ≤ f.algorithm.numInputs →
      f.inputSize n = .ok (((List.range n).map
        (fun i => match castVector (f.inputs i) with
          | some img => img.ncomp
          | none => 0)).sum) := by
  intro n
  induction n with
  | zero => intro _; rfl
  | succ n ih =>
      intro hn
      have hlt : n < f.algorithm.numInputs := hn
      have hs := hdata n hlt
      rw [inputSize, ih (Nat.le_of_lt hlt)]
      cases hc : castVector (f.inputs n) with
      | none => rw [hc] at hs; cases hs
      | some img =>
          simp [GetInput, hlt, hc, List.range_succ]

theorem andThen_error_not_config (o : Outcome V) (k : ApplyAlgorithmFilter V → Outcome V)
    (ho : ∀ e, o.error = some e → e.isConfigurationError = false)
    (hk : ∀ g e, (k g).error = some e → e.isConfigurationError = false) :
    ∀ e, (o.andThen k).error = some e → e.isConfigurationError = false := by
  intro e he
  unfold Outcome.andThen at he
  cases h : o.error with
  | none => rw [h] at he; exact hk _ _ he
  | some e1 => rw [h] at he; exact ho e (by simpa [h] using he)

theorem prepareOutput_error_not_config [Zero V] (f : ApplyAlgorithmFilter V)
    (input : Image (List V)) (i : Nat) :
    ∀ e, (f.prepareOutput input i).error = some e → e.isConfigurationError = false := by
  intro e he
  unfold prepareOutput GetOutput at he
  split at he <;> rename_i h
  · split at h
    · cases h
    · cases h; cases he; rfl
  · cases he; rfl
  · cases he

end ApplyAlgorithmFilter
end QUIT

namespace QUIT
namespace ApplyAlgorithmFilter
variable {V : Type}

theorem prepareOutputs_error_not_config [Zero V] (f : ApplyAlgorithmFilter V)
    (input : Image (List V)) (n : Nat) :
    ∀ e, (f.prepareOutputs input n).error = some e → e.isConfigurationError = false := by
  induction n with
  | zero => intro e he; cases he
  | succ n ih =>
      exact andThen_error_not_config _ _ ih (fun g => prepareOutput_error_not_config g input n)

theorem prepareAllResiduals_error_not_config [Zero V] (f : ApplyAlgorithmFilter V)
    (input : Image (List V)) (size : Nat) :
    ∀ e, (f.prepareAllResiduals input size).error = some e → e.isConfigurationError = false := by
  intro e he
  unfold prepareAllResiduals at he
  split at he
  · split at he
    · cases he; rfl
    · cases he
  · cases he

theorem prepareResidual_error_not_config [Zero V] (f : ApplyAlgorithmFilter V)
    (input : Image (List V)) :
    ∀ e, (f.prepareResidual input).error = some e → e.isConfigurationError = false := by
  intro e he
  unfold prepareResidual at he
  split at he
  · cases he; rfl
  · cases he

theorem prepareIterations_error_not_config (f : ApplyAlgorithmFilter V)
    (input : Image (List V)) :
    ∀ e, (f.prepareIterations input).error = some e → e.isConfigurationError = false := by
  intro e he
  unfold prepareIterations at he
  split at he
  · cases he; rfl
  · cases he

theorem allocation_error_not_config [Zero V] (f : ApplyAlgorithmFilter V)
    (input : Image (List V)) (size : Nat) :
    ∀ e, ((((f.prepareOutputs input f.algorithm.numOutputs).andThen
        (fun f1 => f1.prepareAllResiduals input size)).andThen
        (fun f2 => f2.prepareResidual input)).andThen
        (fun f3 => f3.prepareIterations input)).error = some e →
      e.isConfigurationError = false := by
  apply andThen_error_not_config
  · apply andThen_error_not_config
    · apply andThen_error_not_config
      · exact prepareOutputs_error_not_config f input _
      · intro g; exact prepareAllResiduals_error_not_config g input size
    · intro g; exact prepareResidual_error_not_config g input
  · intro g; exact prepareIterations_error_not_config g input

/-- C1. When every data channel is set, `GenerateOutputInformation` (configure)
raises a configuration error if and only if the sum of the component counts of
the data channels `0 .. numInputs - 1` differs from `dataSize()` or is zero; and
when it does, the filter is in the state it was called in: no output volume was
given regions or allocated. -/
theorem configure_fails_iff_size_mismatch_or_zero [Zero V] (f : ApplyAlgorithmFilter V)
    (hdata : ∀ i, i < f.algorithm.numInputs → (castVector (f.inputs i)).isSome = true) :
    ((∃ e, f.GenerateOutputInformation.error = some e ∧ e.isConfigurationError = true) ↔
      (f.declaredInputSize ≠ f.algorithm.dataSize ∨ f.declaredInputSize = 0)) ∧
    (∀ e, f.GenerateOutputInformation.error = some e → e.isConfigurationError = true →
      f.GenerateOutputInformation.filter = f ∧
      ∀ slot, f.GenerateOutputInformation.filter.outputs slot = f.outputs slot) := by
  have hsize := inputSize_eq f hdata f.algorithm.numInputs (Nat.le_refl _)
  have hgoi : f.GenerateOutputInformation =
      if f.algorithm.dataSize ≠ f.declaredInputSize then
        ⟨f, some (.sequenceSizeMismatch f.algorithm.dataSize f.declaredInputSize)⟩
      else if f.declaredInputSize = 0 then ⟨f, some .zeroInputSize⟩
      else
        match f.GetInput 0 with
        | .error e => ⟨f, some e⟩
        | .ok none => ⟨f, some .nullDereference⟩
        | .ok (some input) =>
            (((f.prepareOutputs input f.algorithm.numOutputs).andThen
              (fun f1 => f1.prepareAllResiduals input f.declaredInputSize)).andThen
              (fun f2 => f2.prepareResidual input)).andThen
              (fun f3 => f3.prepareIterations input) := by
    unfold GenerateOutputInformation
    rw [hsize]
    rfl
  by_cases h1 : f.algorithm.dataSize ≠ f.declaredInputSize
  · rw [hgoi, if_pos h1]
    refine ⟨⟨fun _ => Or.inl (fun h => h1 h.symm), fun _ => ⟨_, rfl, rfl⟩⟩, ?_⟩
    intro e _ _
    exact ⟨rfl, fun _ => rfl⟩
  · by_cases h2 : f.declaredInputSize = 0
    · rw [hgoi, if_neg h1, if_pos h2]
      refine ⟨⟨fun _ => Or.inr h2, fun _ => ⟨_, rfl, rfl⟩⟩, ?_⟩
      intro e _ _
      exact ⟨rfl, fun _ => rfl⟩
    · have hnot : ∀ e, f.GenerateOutputInformation.error = some e →
          e.isConfigurationError = false := by
        intro e he
        rw [hgoi, if_neg h1, if_neg h2] at he
        have hpos : 0 < f.algorithm.numInputs := by
          by_contra hz
          apply h2
          have : f.algorithm.numInputs = 0 := by omega
          simp [declaredInputSize, this]
        simp only [GetInput, hpos, if_true] at he
        cases hc : castVector (f.inputs 0) with
        | none => rw [hc] at he; cases he; rfl
        | some input =>
            rw [hc] at he
            exact allocation_error_not_config f input _ e he
      refine ⟨⟨?_, ?_⟩, ?_⟩
      · rintro ⟨e, he, hcfg⟩
        rw [hnot e he] at hcfg
        cases hcfg
      · rintro (h | h)
        · exact absurd h.symm h1
        · exact absurd h h2
      · intro e he hcfg
        rw [hnot e he] at hcfg
        cases hcfg

end ApplyAlgorithmFilter
end QUIT

namespace QUIT
namespace ApplyAlgorithmFilter
variable {V : Type}

/-- C10. Every indexed accessor raises an index error if and only if the index
is at least the declared count (`numInputs` for `SetInput`/`GetInput`,
`numConsts` for `SetConst`/`GetConst`, `numOutputs` for `GetOutput`); below the
count it succeeds and addresses input slot `i`, input slot `numInputs + 1 + i`
and output slot `i + StartOutputs` respectively. -/
theorem accessors_raise_index_error_iff_past_count (f : ApplyAlgorithmFilter V) (i : Nat)
    (vimg : Option (Image (List V))) (cimg : Option (Image V)) :
    ((∃ e, f.SetInput i vimg = .error e ∧ e.isIndexError = true) ↔ f.algorithm.numInputs ≤ i) ∧
    ((∃ e, f.GetInput i = .error e ∧ e.isIndexError = true) ↔ f.algorithm.numInputs ≤ i) ∧
    ((∃ e, f.SetConst i cimg = .error e ∧ e.isIndexError = true) ↔ f.algorithm.numConsts ≤ i) ∧
    ((∃ e, f.GetConst i = .error e ∧ e.isIndexError = true) ↔ f.algorithm.numConsts ≤ i) ∧
    ((∃ e, f.GetOutput i = .error e ∧ e.isIndexError = true) ↔ f.algorithm.numOutputs ≤ i) ∧
    (i < f.algorithm.numInputs →
      (∃ g, f.SetInput i vimg = .ok g ∧ castVector (g.inputs i) = vimg ∧
        (∀ j, j ≠ i → g.inputs j = f.inputs j) ∧ g.outputs = f.outputs) ∧
      f.GetInput i = .ok (castVector (f.inputs i))) ∧
    (i < f.algorithm.numConsts →
      (∃ g, f.SetConst i cimg = .ok g ∧
        castScalar (g.inputs (f.algorithm.numInputs + 1 + i)) = cimg ∧
        (∀ j, j ≠ f.algorithm.numInputs + 1 + i → g.inputs j = f.inputs j) ∧
        g.outputs = f.outputs) ∧
      f.GetConst i = .ok (castScalar (f.inputs (f.algorithm.numInputs + 1 + i)))) ∧
    (i < f.algorithm.numOutputs →
      f.GetOutput i = .ok (castScalar (f.outputs (i + StartOutputs)))) := by
  refine ⟨?_, ?_, ?_, ?_, ?_, ?_, ?_, ?_⟩
  · unfold SetInput
    by_cases h : i < f.algorithm.numInputs
    · simp [h]
    · simp [h, Error.isIndexError]; omega
  · unfold GetInput
    by_cases h : i < f.algorithm.numInputs
    · simp [h]
    · simp [h, Error.isIndexError]; omega
  · unfold SetConst
    by_cases h : i < f.algorithm.numConsts
    · simp [h]
    · simp [h, Error.isIndexError]; omega
  · unfold GetConst
    by_cases h : i < f.algorithm.numConsts
    · simp [h]
    · simp [h, Error.isIndexError]; omega
  · unfold GetOutput
    by_cases h : i < f.algorithm.numOutputs
    · simp [h]
    · simp [h, Error.isIndexError]; omega
  · intro h
    refine ⟨⟨f.SetNthInput i (vimg.map DataObject.vector), ?_, ?_, ?_, rfl⟩, ?_⟩
    · simp [SetInput, h]
    · cases vimg <;> simp [SetNthInput, castVector]
    · intro j hj; simp [SetNthInput, hj]
    · simp [GetInput, h]
  · intro h
    refine ⟨⟨f.SetNthInput (f.algorithm.numInputs + 1 + i) (cimg.map DataObject.scalar),
      ?_, ?_, ?_, rfl⟩, ?_⟩
    · simp [SetConst, h]
    · cases cimg <;> simp [SetNthInput, castScalar]
    · intro j hj; simp [SetNthInput, hj]
    · simp [GetConst, h]
  · intro h
    simp [GetOutput, h]

end ApplyAlgorithmFilter
end QUIT

namespace QUIT
variable {V : Type}
namespace ApplyAlgorithmFilter

theorem writeOutput_eq (f : ApplyAlgorithmFilter V) (i : Nat) (p : Index) (v : V) :
    f.writeOutput i p v = { f with outputs := fun slot =>
      if slot = i + StartOutputs then setScalar p v (f.outputs slot) else f.outputs slot } := by
  unfold writeOutput
  cases h : f.outputs (i + StartOutputs) with
  | none =>
      simp only [castScalar]
      cases f
      simp only [mk.injEq, true_and]
      funext slot
      by_cases hs : slot = i + StartOutputs
      · subst hs; simp at h; simp [h, setScalar]
      · simp [hs]
  | some o =>
      cases o <;> simp only [castScalar, SetNthOutput] <;> cases f <;>
        simp only [mk.injEq, true_and] <;> funext slot <;>
        by_cases hs : slot = i + StartOutputs <;> simp_all [setScalar]

end ApplyAlgorithmFilter
end QUIT

namespace QUIT
variable {V : Type}
namespace ApplyAlgorithmFilter

theorem writeResidual_eq (f : ApplyAlgorithmFilter V) (p : Index) (v : V) :
    f.writeResidual p v = { f with outputs := fun slot =>
      if slot = ResidualOutput then setScalar p v (f.outputs slot) else f.outputs slot } := by
  unfold writeResidual
  cases h : f.outputs ResidualOutput with
  | none =>
      simp only [castScalar]
      cases f
      simp only [mk.injEq, true_and]
      funext slot
      by_cases hs : slot = ResidualOutput
      · subst hs; simp at h; simp [h, setScalar]
      · simp [hs]
  | some o =>
      cases o <;> simp only [castScalar, SetNthOutput] <;> cases f <;>
        simp only [mk.injEq, true_and] <;> funext slot <;>
        by_cases hs : slot = ResidualOutput <;> simp_all [setScalar]

theorem writeAllResiduals_eq (f : ApplyAlgorithmFilter V) (p : Index) (v : List V) :
    f.writeAllResiduals p v = { f with outputs := fun slot =>
      if slot = AllResidualsOutput then setVector p v (f.outputs slot) else f.outputs slot } := by
  unfold writeAllResiduals
  cases h : f.outputs AllResidualsOutput with
  | none =>
      simp only [castVector]
      cases f
      simp only [mk.injEq, true_and]
      funext slot
      by_cases hs : slot = AllResidualsOutput
      · subst hs; simp at h; simp [h, setVector]
      · simp [hs]
  | some o =>
      cases o <;> simp only [castVector, SetNthOutput] <;> cases f <;>
        simp only [mk.injEq, true_and] <;> funext slot <;>
        by_cases hs : slot = AllResidualsOutput <;> simp_all [setVector]

theorem writeIterations_eq (f : ApplyAlgorithmFilter V) (p : Index) (v : Int) :
    f.writeIterations p v = { f with outputs := fun slot =>
      if slot = IterationsOutput then setIterations p v (f.outputs slot) else f.outputs slot } := by
  unfold writeIterations
  cases h : f.outputs IterationsOutput with
  | none =>
      simp only [castIterations]
      cases f
      simp only [mk.injEq, true_and]
      funext slot
      by_cases hs : slot = IterationsOutput
      · subst hs; simp at h; simp [h, setIterations]
      · simp [hs]
  | some o =>
      cases o <;> simp only [castIterations, SetNthOutput] <;> cases f <;>
        simp only [mk.injEq, true_and] <;> funext slot <;>
        by_cases hs : slot = IterationsOutput <;> simp_all [setIterations]

theorem writeOutputs_eq [Zero V] (f : ApplyAlgorithmFilter V) (p : Index) (outs : List V)
    (n : Nat) :
    writeOutputs f p outs n = { f with outputs := (fun slot =>
      if StartOutputs ≤ slot ∧ slot < n + StartOutputs then
        setScalar p (outs.getD (slot - StartOutputs) 0) (f.outputs slot)
      else f.outputs slot) } := by
  induction n with
  | zero =>
      cases f
      simp only [writeOutputs, mk.injEq, true_and]
      funext slot
      rw [if_neg (by omega)]
  | succ n ih =>
      rw [writeOutputs, ih, writeOutput_eq]
      simp only [mk.injEq, true_and]
      funext slot
      by_cases h1 : slot = n + StartOutputs
      · subst h1
        have h2 : ¬ (StartOutputs ≤ n + StartOutputs ∧ n + StartOutputs < n + StartOutputs) := by
          omega
        have h3 : StartOutputs ≤ n + StartOutputs ∧ n + StartOutputs < n + 1 + StartOutputs := by
          omega
        simp [h2, h3]
      · by_cases h2 : StartOutputs ≤ slot ∧ slot < n + StartOutputs
        · have h3 : StartOutputs ≤ slot ∧ slot < n + 1 + StartOutputs := by omega
          simp [h1, h2, h3]
        · have h3 : ¬ (StartOutputs ≤ slot ∧ slot < n + 1 + StartOutputs) := by omega
          simp [h1, h2, h3]

theorem zeroOutputs_eq [Zero V] (f : ApplyAlgorithmFilter V) (p : Index) (n : Nat) :
    zeroOutputs f p n = { f with outputs := (fun slot =>
      if StartOutputs ≤ slot ∧ slot < n + StartOutputs then setScalar p 0 (f.outputs slot)
      else f.outputs slot) } := by
  induction n with
  | zero =>
      cases f
      simp only [zeroOutputs, mk.injEq, true_and]
      funext slot
      rw [if_neg (by omega)]
  | succ n ih =>
      rw [zeroOutputs, ih, writeOutput_eq]
      simp only [mk.injEq, true_and]
      funext slot
      by_cases h1 : slot = n + StartOutputs
      · subst h1
        have h2 : ¬ (StartOutputs ≤ n + StartOutputs ∧ n + StartOutputs < n + StartOutputs) := by
          omega
        have h3 : StartOutputs ≤ n + StartOutputs ∧ n + StartOutputs < n + 1 + StartOutputs := by
          omega
        simp [h2, h3]
      · by_cases h2 : StartOutputs ≤ slot ∧ slot < n + StartOutputs
        · have h3 : StartOutputs ≤ slot ∧ slot < n + 1 + StartOutputs := by omega
          simp [h1, h2, h3]
        · have h3 : ¬ (StartOutputs ≤ slot ∧ slot < n + 1 + StartOutputs) := by omega
          simp [h1, h2, h3]

theorem runTask_eq [Zero V] (f : ApplyAlgorithmFilter V) (p : Index) :
    f.runTask p = { f with outputs := fun slot => taskSlot f p slot (f.outputs slot) } := by
  unfold runTask
  simp only [writeOutputs_eq, writeResidual_eq, writeAllResiduals_eq, writeIterations_eq]
  cases hres : f.allResiduals <;>
    simp only [Bool.false_eq_true, if_false, if_true, mk.injEq, true_and, and_true] <;>
    funext slot <;>
    simp only [taskSlot, hres, AllResidualsOutput, ResidualOutput, IterationsOutput,
      StartOutputs] <;>
    (by_cases h2 : slot = 2
     · subst h2; simp [applyAt, inputVector, constants]
     · by_cases h0 : slot = 0
       · subst h0; simp [applyAt]
       · by_cases h1 : slot = 1
         · subst h1; simp [applyAt]
         · by_cases h3 : slot < f.algorithm.numOutputs + 3
           · have : 3 ≤ slot := by omega
             simp [h0, h1, h2, h3, this, applyAt]
           · simp [h0, h1, h2, h3, applyAt])

end ApplyAlgorithmFilter
end QUIT

namespace QUIT
variable {V : Type}

theorem Image.bulk_nil {α : Type} (img : Image α) (g : Index → α) : img.bulk [] g = img := by
  cases img; simp [Image.bulk]

theorem Image.bulk_cons {α : Type} (img : Image α) (p : Index) (L : List Index)
    (g : Index → α) : (img.Set p (g p)).bulk L g = img.bulk (p :: L) g := by
  cases img
  simp only [Image.bulk, Image.Set, Image.mk.injEq, true_and]
  funext q
  by_cases h1 : q ∈ L
  · simp [h1]
  · by_cases h2 : q = p
    · subst h2; simp [h1]
    · simp [h1, h2]

theorem Image.bulk_congr {α : Type} (img : Image α) (L1 L2 : List Index) (g : Index → α)
    (h : ∀ q, q ∈ L1 ↔ q ∈ L2) : img.bulk L1 g = img.bulk L2 g := by
  cases img
  simp only [Image.bulk, Image.mk.injEq, true_and]
  funext q
  by_cases h1 : q ∈ L1
  · simp [h1, (h q).1 h1]
  · have h2 : q ∉ L2 := fun hq => h1 ((h q).2 hq)
    simp [h1, h2]

theorem bulkScalar_nil (g : Index → V) (o : Option (DataObject V)) : bulkScalar [] g o = o := by
  rcases o with _ | (_ | _ | _) <;> simp [bulkScalar, Image.bulk_nil]

theorem bulkVector_nil (g : Index → List V) (o : Option (DataObject V)) :
    bulkVector [] g o = o := by
  rcases o with _ | (_ | _ | _) <;> simp [bulkVector, Image.bulk_nil]

theorem bulkIterations_nil (g : Index → Int) (o : Option (DataObject V)) :
    bulkIterations [] g o = o := by
  rcases o with _ | (_ | _ | _) <;> simp [bulkIterations, Image.bulk_nil]

theorem bulkScalar_cons (p : Index) (L : List Index) (g : Index → V)
    (o : Option (DataObject V)) :
    bulkScalar L g (setScalar p (g p) o) = bulkScalar (p :: L) g o := by
  rcases o with _ | (_ | _ | _) <;> simp [bulkScalar, setScalar, Image.bulk_cons]

theorem bulkVector_cons (p : Index) (L : List Index) (g : Index → List V)
    (o : Option (DataObject V)) :
    bulkVector L g (setVector p (g p) o) = bulkVector (p :: L) g o := by
  rcases o with _ | (_ | _ | _) <;> simp [bulkVector, setVector, Image.bulk_cons]

theorem bulkIterations_cons (p : Index) (L : List Index) (g : Index → Int)
    (o : Option (DataObject V)) :
    bulkIterations L g (setIterations p (g p) o) = bulkIterations (p :: L) g o := by
  rcases o with _ | (_ | _ | _) <;> simp [bulkIterations, setIterations, Image.bulk_cons]

theorem bulkScalar_congr (L1 L2 : List Index) (g : Index → V) (o : Option (DataObject V))
    (h : ∀ q, q ∈ L1 ↔ q ∈ L2) : bulkScalar L1 g o = bulkScalar L2 g o := by
  rcases o with _ | (_ | _ | _) <;> simp [bulkScalar, Image.bulk_congr _ L1 L2 g h]

theorem bulkVector_congr (L1 L2 : List Index) (g : Index → List V) (o : Option (DataObject V))
    (h : ∀ q, q ∈ L1 ↔ q ∈ L2) : bulkVector L1 g o = bulkVector L2 g o := by
  rcases o with _ | (_ | _ | _) <;> simp [bulkVector, Image.bulk_congr _ L1 L2 g h]

theorem bulkIterations_congr (L1 L2 : List Index) (g : Index → Int) (o : Option (DataObject V))
    (h : ∀ q, q ∈ L1 ↔ q ∈ L2) : bulkIterations L1 g o = bulkIterations L2 g o := by
  rcases o with _ | (_ | _ | _) <;> simp [bulkIterations, Image.bulk_congr _ L1 L2 g h]

namespace ApplyAlgorithmFilter

theorem taskSlots_nil [Zero V] (f : ApplyAlgorithmFilter V) (slot : Nat)
    (o : Option (DataObject V)) : taskSlots f [] slot o = o := by
  unfold taskSlots
  simp only [bulkScalar_nil, bulkVector_nil, bulkIterations_nil, ite_self]

theorem taskSlots_cons [Zero V] (f : ApplyAlgorithmFilter V) (p : Index) (L : List Index)
    (slot : Nat) (o : Option (DataObject V)) :
    taskSlots f L slot (taskSlot f p slot o) = taskSlots f (p :: L) slot o := by
  unfold taskSlots taskSlot
  split
  · exact bulkIterations_cons p L (fun q => (f.applyAt q).iterations) o
  · split
    · split
      · exact bulkVector_cons p L (fun q => (f.applyAt q).resids) o
      · rfl
    · split
      · exact bulkScalar_cons p L (fun q => (f.applyAt q).residual) o
      · split
        · exact bulkScalar_cons p L
            (fun q => (f.applyAt q).outputs.getD (slot - StartOutputs) 0) o
        · rfl

theorem taskSlots_congr [Zero V] (f : ApplyAlgorithmFilter V) (L1 L2 : List Index)
    (h : ∀ q, q ∈ L1 ↔ q ∈ L2) (slot : Nat) (o : Option (DataObject V)) :
    taskSlots f L1 slot o = taskSlots f L2 slot o := by
  unfold taskSlots
  rw [bulkIterations_congr L1 L2 _ o h, bulkVector_congr L1 L2 _ o h,
    bulkScalar_congr L1 L2 _ o h, bulkScalar_congr L1 L2 _ o h]

theorem constants_outputs (f : ApplyAlgorithmFilter V)
    (o : Nat → Option (DataObject V)) (p : Index) (n : Nat) :
    constants { f with outputs := o } p n = constants f p n := by
  induction n with
  | zero => rfl
  | succ n ih =>
      rw [constants, constants, ih]
      rfl

theorem applyAt_outputs (f : ApplyAlgorithmFilter V)
    (o : Nat → Option (DataObject V)) (p : Index) :
    applyAt { f with outputs := o } p = applyAt f p := by
  unfold applyAt
  rw [constants_outputs]
  rfl

theorem taskSlots_outputs [Zero V] (f : ApplyAlgorithmFilter V)
    (o : Nat → Option (DataObject V)) (L : List Index) (slot : Nat)
    (x : Option (DataObject V)) :
    taskSlots { f with outputs := o } L slot x = taskSlots f L slot x := by
  unfold taskSlots
  simp only [applyAt_outputs]

theorem drain_eq [Zero V] (L : List Index) :
    ∀ f : ApplyAlgorithmFilter V,
      drain L f = { f with outputs := fun slot => taskSlots f L slot (f.outputs slot) } := by
  induction L with
  | nil =>
      intro f
      cases f
      simp only [drain, mk.injEq, true_and]
      funext slot
      rw [taskSlots_nil]
  | cons p L ih =>
      intro f
      rw [drain, ih, runTask_eq]
      simp only [mk.injEq, true_and]
      funext slot
      rw [taskSlots_outputs]
      exact taskSlots_cons f p L slot (f.outputs slot)

end ApplyAlgorithmFilter
end QUIT

namespace QUIT
variable {V : Type}
namespace ApplyAlgorithmFilter

theorem writeInactive_eq [Zero V] (f : ApplyAlgorithmFilter V) (p : Index) :
    f.writeInactive p =
      if f.allResiduals then
        ⟨{ f with outputs := fun slot => zeroSlot f p slot (f.outputs slot) }, none⟩
      else
        ⟨zeroOutputs f p f.algorithm.numOutputs, some .nullDereference⟩ := by
  unfold writeInactive
  simp only [zeroOutputs_eq, writeResidual_eq, writeAllResiduals_eq, writeIterations_eq]
  cases hres : f.allResiduals
  · simp
  · simp only [if_true, Outcome.mk.injEq, mk.injEq, true_and, and_true]
    funext slot
    simp only [zeroSlot, AllResidualsOutput, ResidualOutput, IterationsOutput, StartOutputs]
    by_cases h2 : slot = 2
    · subst h2; simp
    · by_cases h0 : slot = 0
      · subst h0; simp
      · by_cases h1 : slot = 1
        · subst h1; simp
        · by_cases h3 : slot < f.algorithm.numOutputs + 3
          · have : 3 ≤ slot := by omega
            simp [h0, h1, h2, h3, this]
          · simp [h0, h1, h2, h3]

theorem zeroSlots_nil [Zero V] (f : ApplyAlgorithmFilter V) (slot : Nat)
    (o : Option (DataObject V)) : zeroSlots f [] slot o = o := by
  unfold zeroSlots
  simp only [bulkScalar_nil, bulkVector_nil, bulkIterations_nil, ite_self]

theorem zeroSlots_cons [Zero V] (f : ApplyAlgorithmFilter V) (p : Index) (L : List Index)
    (slot : Nat) (o : Option (DataObject V)) :
    zeroSlots f L slot (zeroSlot f p slot o) = zeroSlots f (p :: L) slot o := by
  unfold zeroSlots zeroSlot
  split
  · exact bulkIterations_cons p L (fun _ => 0) o
  · split
    · exact bulkVector_cons p L (fun _ => List.replicate f.algorithm.dataSize 0) o
    · split
      · exact bulkScalar_cons p L (fun _ => 0) o
      · split
        · exact bulkScalar_cons p L (fun _ => 0) o
        · rfl

theorem dispatchLoop_completes [DecidableEq V] [Zero V] (mask : Option (Image V))
    (L : List Index) :
    ∀ st : RunState V, st.error = none →
      (st.filter.allResiduals = true ∨ ∀ q, q ∈ L → isActive mask q = true) →
      dispatchLoop mask L st =
        { filter := { st.filter with outputs := (fun slot =>
            zeroSlots st.filter (L.filter (fun q => !isActive mask q)) slot
              (st.filter.outputs slot)) }
          error := none
          visited := st.visited ++ L
          submitted := st.submitted ++ L.filter (isActive mask)
          progress := st.progress + (L.filter (isActive mask)).length } := by
  induction L with
  | nil =>
      intro st herr _
      obtain ⟨f, e, vis, sub, pr⟩ := st
      cases f
      simp only at herr
      subst herr
      simp only [dispatchLoop, List.filter_nil, List.append_nil, List.length_nil, Nat.add_zero,
        RunState.mk.injEq, mk.injEq, true_and, and_true]
      funext slot
      rw [zeroSlots_nil]
  | cons p L ih =>
      intro st herr hC
      obtain ⟨f, e, vis, sub, pr⟩ := st
      simp only at herr
      subst herr
      by_cases hact : isActive mask p = true
      · have hC2 : f.allResiduals = true ∨ ∀ q, q ∈ L → isActive mask q = true := by
          rcases hC with h | h
          · exact Or.inl h
          · exact Or.inr (fun q hq => h q (List.mem_cons_of_mem _ hq))
        rw [dispatchLoop]
        simp only [dispatchStep, hact, if_true]
        rw [ih _ rfl hC2]
        simp [hact, Nat.add_assoc, Nat.add_comm 1]
      · have hres : f.allResiduals = true := by
          rcases hC with h | h
          · exact h
          · exact absurd (h p (List.mem_cons_self _ _)) hact
        have hact2 : isActive mask p = false := by simpa using hact
        rw [dispatchLoop]
        simp only [dispatchStep, hact2, Bool.false_eq_true, if_false]
        rw [writeInactive_eq, if_pos hres]
        rw [ih _ rfl (Or.inl hres)]
        simp only [hact2, RunState.mk.injEq, mk.injEq, true_and, List.append_assoc,
          List.singleton_append, Bool.not_false, List.filter_cons_of_pos,
          Bool.false_eq_true, not_false_eq_true, List.filter_cons_of_neg, and_true]
        funext slot
        exact zeroSlots_cons f p _ slot (f.outputs slot)

theorem dispatchLoop_faults [DecidableEq V] [Zero V] (mask : Option (Image V))
    (L : List Index) :
    ∀ st : RunState V, st.error = none → st.filter.allResiduals = false →
      (∃ q, q ∈ L ∧ isActive mask q = false) →
      (dispatchLoop mask L st).error = some .nullDereference := by
  induction L with
  | nil =>
      intro st _ _ h
      obtain ⟨q, hq, _⟩ := h
      cases hq
  | cons p L ih =>
      intro st herr hres h
      obtain ⟨f, e, vis, sub, pr⟩ := st
      simp only at herr hres
      subst herr
      by_cases hact : isActive mask p = true
      · rw [dispatchLoop]
        simp only [dispatchStep, hact, if_true]
        apply ih _ rfl hres
        obtain ⟨q, hq, hqa⟩ := h
        rcases List.mem_cons.1 hq with rfl | hq2
        · rw [hact] at hqa; cases hqa
        · exact ⟨q, hq2, hqa⟩
      · have hact2 : isActive mask p = false := by simpa using hact
        rw [dispatchLoop]
        simp only [dispatchStep, hact2, Bool.false_eq_true, if_false]
        rw [writeInactive_eq, if_neg (by simp [hres])]

end ApplyAlgorithmFilter
end QUIT

namespace QUIT
variable {V : Type}
namespace ApplyAlgorithmFilter

theorem bindDataIters_ok_iff (f : ApplyAlgorithmFilter V) (n : Nat) :
    f.bindDataIters n = .ok () ↔
      ∀ i, i < n → i < f.algorithm.numInputs ∧ (castVector (f.inputs i)).isSome = true := by
  induction n with
  | zero => simp [bindDataIters]
  | succ n ih =>
      rw [bindDataIters]
      constructor
      · intro h
        cases h1 : f.bindDataIters n with
        | error e => rw [h1] at h; cases h
        | ok u =>
            rw [h1] at h
            have ih1 := ih.1 h1
            intro i hi
            rcases Nat.lt_succ_iff_lt_or_eq.1 hi with hlt | rfl
            · exact ih1 i hlt
            · unfold GetInput at h
              by_cases hn : i < f.algorithm.numInputs
              · rw [if_pos hn] at h
                cases hc : castVector (f.inputs i) with
                | none => rw [hc] at h; cases h
                | some img => exact ⟨hn, rfl⟩
              · rw [if_neg hn] at h; cases h
      · intro h
        have h1 : f.bindDataIters n = .ok () := ih.2 (fun i hi => h i (Nat.lt_succ_of_lt hi))
        rw [h1]
        obtain ⟨hn, hs⟩ := h n (Nat.lt_succ_self n)
        unfold GetInput
        rw [if_pos hn]
        cases hc : castVector (f.inputs n) with
        | none => rw [hc] at hs; cases hs
        | some img => rfl

theorem bindOutputIters_ok_iff (f : ApplyAlgorithmFilter V) (n : Nat) :
    f.bindOutputIters n = .ok () ↔
      ∀ i, i < n → i < f.algorithm.numOutputs ∧
        (castScalar (f.outputs (i + StartOutputs))).isSome = true := by
  induction n with
  | zero => simp [bindOutputIters]
  | succ n ih =>
      rw [bindOutputIters]
      constructor
      · intro h
        cases h1 : f.bindOutputIters n with
        | error e => rw [h1] at h; cases h
        | ok u =>
            rw [h1] at h
            have ih1 := ih.1 h1
            intro i hi
            rcases Nat.lt_succ_iff_lt_or_eq.1 hi with hlt | rfl
            · exact ih1 i hlt
            · unfold GetOutput at h
              by_cases hn : i < f.algorithm.numOutputs
              · rw [if_pos hn] at h
                cases hc : castScalar (f.outputs (i + StartOutputs)) with
                | none => rw [hc] at h; cases h
                | some img => exact ⟨hn, rfl⟩
              · rw [if_neg hn] at h; cases h
      · intro h
        have h1 : f.bindOutputIters n = .ok () := ih.2 (fun i hi => h i (Nat.lt_succ_of_lt hi))
        rw [h1]
        obtain ⟨hn, hs⟩ := h n (Nat.lt_succ_self n)
        unfold GetOutput
        rw [if_pos hn]
        cases hc : castScalar (f.outputs (n + StartOutputs)) with
        | none => rw [hc] at hs; cases hs
        | some img => rfl

theorem bindIterators_ok_iff (f : ApplyAlgorithmFilter V) :
    f.bindIterators = .ok () ↔ f.IteratorsBound := by
  unfold bindIterators IteratorsBound GetAllResidualsOutput GetResidualOutput
    GetIterationsOutput
  constructor
  · intro h
    cases h1 : f.bindDataIters f.algorithm.numInputs with
    | error e => rw [h1] at h; cases h
    | ok u =>
        rw [h1] at h
        cases h2 : f.bindOutputIters f.algorithm.numOutputs with
        | error e => rw [h2] at h; cases h
        | ok u2 =>
            rw [h2] at h
            simp only at h
            split_ifs at h with a b c
            refine ⟨fun i hi => ((bindDataIters_ok_iff f _).1 h1 i hi).2,
              fun k hk => ((bindOutputIters_ok_iff f _).1 h2 k hk).2, ?_, ?_, ?_⟩
            · intro hres
              cases hv : castVector (f.outputs AllResidualsOutput) with
              | none => simp [hres, hv] at a
              | some img => rfl
            · cases hv : castScalar (f.outputs ResidualOutput) with
              | none => simp [hv] at b
              | some img => rfl
            · cases hv : castIterations (f.outputs IterationsOutput) with
              | none => simp [hv] at c
              | some img => rfl
  · rintro ⟨h1, h2, h3, h4, h5⟩
    rw [(bindDataIters_ok_iff f _).2 (fun i hi => ⟨hi, h1 i hi⟩),
      (bindOutputIters_ok_iff f _).2 (fun k hk => ⟨hk, h2 k hk⟩)]
    simp only
    have e4 : (castScalar (f.outputs ResidualOutput)).isNone = false := by
      cases hv : castScalar (f.outputs ResidualOutput) with
      | none => rw [hv] at h4; cases h4
      | some img => rfl
    have e5 : (castIterations (f.outputs IterationsOutput)).isNone = false := by
      cases hv : castIterations (f.outputs IterationsOutput) with
      | none => rw [hv] at h5; cases h5
      | some img => rfl
    have e3 : (f.allResiduals && (castVector (f.outputs AllResidualsOutput)).isNone) = false := by
      cases hres : f.allResiduals with
      | false => rfl
      | true =>
          cases hv : castVector (f.outputs AllResidualsOutput) with
          | none => have := h3 hres; rw [hv] at this; cases this
          | some img => rfl
    rw [e3, e4, e5]
    rfl

theorem bindIterators_ok_or_error (f : ApplyAlgorithmFilter V) :
    f.bindIterators = .ok () ∨ ∃ e, f.bindIterators = .error e := by
  cases h : f.bindIterators with
  | error e => exact Or.inr ⟨e, rfl⟩
  | ok u => exact Or.inl rfl

theorem constants_config (f g : ApplyAlgorithmFilter V) (ha : g.algorithm = f.algorithm)
    (hi : g.inputs = f.inputs) (p : Index) (n : Nat) :
    constants g p n = constants f p n := by
  induction n with
  | zero => simp [constants, ha]
  | succ n ih =>
      rw [constants, constants, ih]
      simp only [GetConst, ha, hi]

theorem applyAt_config (f g : ApplyAlgorithmFilter V) (ha : g.algorithm = f.algorithm)
    (hi : g.inputs = f.inputs) (p : Index) :
    applyAt g p = applyAt f p := by
  unfold applyAt inputVector
  rw [constants_config f g ha hi]
  simp only [GetInput, ha, hi]

theorem taskSlots_config [Zero V] (f g : ApplyAlgorithmFilter V)
    (ha : g.algorithm = f.algorithm) (hi : g.inputs = f.inputs)
    (hr : g.allResiduals = f.allResiduals) (L : List Index) (slot : Nat)
    (x : Option (DataObject V)) :
    taskSlots g L slot x = taskSlots f L slot x := by
  unfold taskSlots
  simp only [applyAt_config f g ha hi, ha, hr]

theorem countMask_eq [DecidableEq V] [Zero V] (mask : Image V) (L : List Index) :
    ∀ n, countMask mask L n = n + (L.filter (isActive (some mask))).length := by
  induction L with
  | nil => intro n; simp [countMask]
  | cons p L ih =>
      intro n
      rw [countMask, ih]
      by_cases h : mask.pix p = 0
      · simp [h, isActive]
      · simp [h, isActive]; omega

end ApplyAlgorithmFilter
end QUIT

namespace QUIT
variable {V : Type}
namespace ApplyAlgorithmFilter

theorem GenerateDataScheduled_completes [DecidableEq V] [Zero V] (f : ApplyAlgorithmFilter V)
    (t : Rat) (sch : List Index → List Index) (input : Image (List V))
    (hpos : 0 < f.algorithm.numInputs) (hin : castVector (f.inputs 0) = some input)
    (hsub : f.hasSubregion = true → input.region.IsInside f.subregion = true)
    (hb : f.IteratorsBound)
    (hC : f.allResiduals = true ∨
      ∀ q, q ∈ (f.activeRegion input).indices → isActive f.GetMask q = true) :
    f.GenerateDataScheduled t sch =
      { filter := { f with
          unmaskedVoxels := activeCount f.GetMask (f.activeRegion input)
          elapsedTime := t
          outputs := (fun slot =>
            taskSlots f (sch ((f.activeRegion input).indices.filter (isActive f.GetMask))) slot
              (zeroSlots f ((f.activeRegion input).indices.filter
                (fun q => !isActive f.GetMask q)) slot (f.outputs slot))) }
        error := none
        visited := (f.activeRegion input).indices
        submitted := (f.activeRegion input).indices.filter (isActive f.GetMask)
        progress := ((f.activeRegion input).indices.filter (isActive f.GetMask)).length } := by
  have hcount : (match f.GetMask with
      | some m => countMask m (f.activeRegion input).indices 0
      | none => (f.activeRegion input).GetNumberOfPixels) =
      activeCount f.GetMask (f.activeRegion input) := by
    unfold activeCount
    cases hm : f.GetMask with
    | none =>
        simp only
        rw [← Region.length_indices]
        congr 1
        symm
        apply List.filter_eq_self.2
        intro q _
        rfl
    | some m =>
        simp only
        rw [countMask_eq, Nat.zero_add]
  have hnot : (f.hasSubregion && !input.region.IsInside f.subregion) = false := by
    cases hs : f.hasSubregion with
    | false => rfl
    | true => rw [hsub hs]; rfl
  unfold GenerateDataScheduled
  simp only [GetInput, hpos, if_true, hin, hnot, Bool.false_eq_true, if_false]
  rw [hcount]
  have hb1 : bindIterators
      { f with unmaskedVoxels := (activeCount f.GetMask (f.activeRegion input)) } = .ok () :=
    (bindIterators_ok_iff _).2 hb
  rw [hb1]
  simp only
  rw [dispatchLoop_completes f.GetMask _ _ rfl hC]
  simp only [List.nil_append, Nat.zero_add, drain_eq, RunState.mk.injEq, mk.injEq, true_and,
    and_true]
  funext slot
  refine (taskSlots_config f _ ?_ ?_ ?_ _ _ _).trans ?_ <;> rfl

end ApplyAlgorithmFilter
end QUIT

namespace QUIT
variable {V : Type}
namespace ApplyAlgorithmFilter

theorem GenerateDataScheduled_ok_inv [DecidableEq V] [Zero V] (f : ApplyAlgorithmFilter V)
    (t : Rat) (sch : List Index → List Index)
    (h : (f.GenerateDataScheduled t sch).error = none) :
    ∃ input, 0 < f.algorithm.numInputs ∧ castVector (f.inputs 0) = some input ∧
      (f.hasSubregion = true → input.region.IsInside f.subregion = true) ∧
      f.IteratorsBound ∧
      (f.allResiduals = true ∨
        ∀ q, q ∈ (f.activeRegion input).indices → isActive f.GetMask q = true) := by
  unfold GenerateDataScheduled GetInput at h
  by_cases hpos : 0 < f.algorithm.numInputs
  · rw [if_pos hpos] at h
    cases hin : castVector (f.inputs 0) with
    | none => rw [hin] at h; cases h
    | some input =>
        rw [hin] at h
        simp only at h
        by_cases hnot : (f.hasSubregion && !input.region.IsInside f.subregion) = true
        · rw [if_pos hnot] at h; cases h
        · rw [if_neg hnot] at h
          have hsub : f.hasSubregion = true → input.region.IsInside f.subregion = true := by
            intro hs
            cases hi : input.region.IsInside f.subregion with
            | true => rfl
            | false => simp [hs, hi] at hnot
          rcases bindIterators_ok_or_error
            ({ f with unmaskedVoxels :=
                (match f.GetMask with
                | some m => countMask m (f.activeRegion input).indices 0
                | none => (f.activeRegion input).GetNumberOfPixels) }) with hb | ⟨e, hb⟩
          · have hbound0 := (bindIterators_ok_iff _).1 hb
            have hbound : f.IteratorsBound := hbound0
            refine ⟨input, hpos, rfl, hsub, hbound, ?_⟩
            by_contra hC
            have hres : f.allResiduals = false := by
              cases hr : f.allResiduals with
              | false => rfl
              | true => exact absurd (Or.inl hr) hC
            have hex : ∃ q, q ∈ (f.activeRegion input).indices ∧ isActive f.GetMask q = false := by
              by_contra hne
              apply hC
              right
              intro q hq
              cases ha : isActive f.GetMask q with
              | true => rfl
              | false => exact absurd ⟨q, hq, ha⟩ hne
            rw [hb] at h
            simp only at h
            have hf := dispatchLoop_faults f.GetMask (f.activeRegion input).indices
              ⟨{ f with unmaskedVoxels :=
                (match f.GetMask with
                | some m => countMask m (f.activeRegion input).indices 0
                | none => (f.activeRegion input).GetNumberOfPixels) }, none, [], [], 0⟩
              rfl hres hex
            split at h
            · rename_i e1 he1
              rw [he1] at h
              cases h
            · rename_i he1
              rw [hf] at he1
              cases he1
          · rw [hb] at h; cases h
  · rw [if_neg hpos] at h; cases h

/-- A run completes exactly when data channel 0 and every other bound image
exist, a supplied sub-region is inside the full extent, and either the
all-residuals iterator is bound or no position of the active region is masked
out. -/
theorem GenerateData_completes_iff [DecidableEq V] [Zero V] (f : ApplyAlgorithmFilter V)
    (t : Rat) :
    (f.GenerateData t).error = none ↔
      ∃ input, 0 < f.algorithm.numInputs ∧ castVector (f.inputs 0) = some input ∧
        (f.hasSubregion = true → input.region.IsInside f.subregion = true) ∧
        f.IteratorsBound ∧
        (f.allResiduals = true ∨
          ∀ q, q ∈ (f.activeRegion input).indices → isActive f.GetMask q = true) := by
  constructor
  · exact GenerateDataScheduled_ok_inv f t id
  · rintro ⟨input, hpos, hin, hsub, hb, hC⟩
    unfold GenerateData
    rw [GenerateDataScheduled_completes f t id input hpos hin hsub hb hC]

theorem castScalar_bulkScalar (L : List Index) (g : Index → V) (o : Option (DataObject V)) :
    castScalar (bulkScalar L g o) = (castScalar o).map (fun img => img.bulk L g) := by
  rcases o with _ | (_ | _ | _) <;> rfl

theorem castScalar_bulkVector (L : List Index) (g : Index → List V)
    (o : Option (DataObject V)) : castScalar (bulkVector L g o) = castScalar o := by
  rcases o with _ | (_ | _ | _) <;> rfl

theorem castScalar_bulkIterations (L : List Index) (g : Index → Int)
    (o : Option (DataObject V)) : castScalar (bulkIterations L g o) = castScalar o := by
  rcases o with _ | (_ | _ | _) <;> rfl

theorem castVector_bulkVector (L : List Index) (g : Index → List V)
    (o : Option (DataObject V)) :
    castVector (bulkVector L g o) = (castVector o).map (fun img => img.bulk L g) := by
  rcases o with _ | (_ | _ | _) <;> rfl

theorem castVector_bulkScalar (L : List Index) (g : Index → V) (o : Option (DataObject V)) :
    castVector (bulkScalar L g o) = castVector o := by
  rcases o with _ | (_ | _ | _) <;> rfl

theorem castVector_bulkIterations (L : List Index) (g : Index → Int)
    (o : Option (DataObject V)) : castVector (bulkIterations L g o) = castVector o := by
  rcases o with _ | (_ | _ | _) <;> rfl

theorem castIterations_bulkIterations (L : List Index) (g : Index → Int)
    (o : Option (DataObject V)) :
    castIterations (bulkIterations L g o) = (castIterations o).map (fun img => img.bulk L g) := by
  rcases o with _ | (_ | _ | _) <;> rfl

theorem castIterations_bulkScalar (L : List Index) (g : Index → V)
    (o : Option (DataObject V)) : castIterations (bulkScalar L g o) = castIterations o := by
  rcases o with _ | (_ | _ | _) <;> rfl

theorem castIterations_bulkVector (L : List Index) (g : Index → List V)
    (o : Option (DataObject V)) : castIterations (bulkVector L g o) = castIterations o := by
  rcases o with _ | (_ | _ | _) <;> rfl

theorem read_output [Zero V] (f : ApplyAlgorithmFilter V) (A Z : List Index) (k : Nat)
    (q : Index) (o : Option (DataObject V)) :
    (castScalar (taskSlots f A (k + StartOutputs) (zeroSlots f Z (k + StartOutputs) o))).map
        (fun img => img.pix q) =
      (castScalar o).map (fun img =>
        if k < f.algorithm.numOutputs then
          (if q ∈ A then (f.applyAt q).outputs.getD k 0 else if q ∈ Z then 0 else img.pix q)
        else img.pix q) := by
  unfold taskSlots zeroSlots
  simp only [StartOutputs, IterationsOutput, AllResidualsOutput, ResidualOutput,
    show k + 3 ≠ 2 by omega, show k + 3 ≠ 0 by omega, show k + 3 ≠ 1 by omega, if_false,
    Nat.add_lt_add_iff_right, Nat.add_sub_cancel]
  by_cases hk : k < f.algorithm.numOutputs
  · simp only [hk, if_true, castScalar_bulkScalar, Option.map_map]
    rfl
  · simp only [hk, if_false]

theorem read_residual [Zero V] (f : ApplyAlgorithmFilter V) (A Z : List Index)
    (q : Index) (o : Option (DataObject V)) :
    (castScalar (taskSlots f A ResidualOutput (zeroSlots f Z ResidualOutput o))).map
        (fun img => img.pix q) =
      (castScalar o).map (fun img =>
        if q ∈ A then (f.applyAt q).residual else if q ∈ Z then 0 else img.pix q) := by
  unfold taskSlots zeroSlots
  simp only [StartOutputs, IterationsOutput, AllResidualsOutput, ResidualOutput,
    show (1 : Nat) ≠ 2 by omega, show (1 : Nat) ≠ 0 by omega, if_false, if_true,
    castScalar_bulkScalar, Option.map_map]
  rfl

theorem read_iterations [Zero V] (f : ApplyAlgorithmFilter V) (A Z : List Index)
    (q : Index) (o : Option (DataObject V)) :
    (castIterations (taskSlots f A IterationsOutput (zeroSlots f Z IterationsOutput o))).map
        (fun img => img.pix q) =
      (castIterations o).map (fun img =>
        if q ∈ A then (f.applyAt q).iterations else if q ∈ Z then 0 else img.pix q) := by
  unfold taskSlots zeroSlots
  simp only [IterationsOutput, if_true, castIterations_bulkIterations, Option.map_map]
  rfl

theorem read_allResiduals [Zero V] (f : ApplyAlgorithmFilter V) (A Z : List Index)
    (q : Index) (o : Option (DataObject V)) :
    (castVector (taskSlots f A AllResidualsOutput (zeroSlots f Z AllResidualsOutput o))).map
        (fun img => img.pix q) =
      (castVector o).map (fun img =>
        if f.allResiduals = true ∧ q ∈ A then (f.applyAt q).resids
        else if q ∈ Z then List.replicate f.algorithm.dataSize 0 else img.pix q) := by
  unfold taskSlots zeroSlots
  simp only [IterationsOutput, AllResidualsOutput, show (0 : Nat) ≠ 2 by omega, if_false,
    if_true]
  cases hres : f.allResiduals
  · simp only [Bool.false_eq_true, if_false, false_and, castVector_bulkVector, Option.map_map]
    rfl
  · simp only [if_true, true_and, castVector_bulkVector, Option.map_map]
    rfl

end ApplyAlgorithmFilter
end QUIT

namespace QUIT
variable {V : Type}
namespace ApplyAlgorithmFilter

theorem isSome_map_eq {α β : Type} (o : Option α) (g : α → β) (b : β)
    (hs : o.isSome = true) (hg : ∀ a, o = some a → g a = b) : o.map g = some b := by
  cases o with
  | none => cases hs
  | some a => simp [hg a rfl]

end ApplyAlgorithmFilter
end QUIT

namespace QUIT
variable {V : Type}
namespace ApplyAlgorithmFilter

theorem constants_length (f : ApplyAlgorithmFilter V) (p : Index) (n : Nat) :
    (f.constants p n).length = f.algorithm.defaultConsts.length := by
  induction n with
  | zero => rfl
  | succ n ih =>
      rw [constants]
      split
      · rw [List.length_set, ih]
      · exact ih

theorem constants_getElem? (f : ApplyAlgorithmFilter V) (p : Index) (n : Nat)
    (hn : n ≤ f.algorithm.numConsts) (i : Nat) (hi : i < f.algorithm.defaultConsts.length) :
    (f.constants p n)[i]? =
      if i < n then
        (match castScalar (f.inputs (f.algorithm.numInputs + 1 + i)) with
          | some c => some (c.pix p)
          | none => f.algorithm.defaultConsts[i]?)
      else f.algorithm.defaultConsts[i]? := by
  induction n with
  | zero => simp [constants]
  | succ n ih =>
      have hlt : n < f.algorithm.numConsts := hn
      have ih1 := ih (Nat.le_of_lt hlt)
      rw [constants]
      simp only [GetConst, hlt, if_true]
      cases hc : castScalar (f.inputs (f.algorithm.numInputs + 1 + n)) with
      | none =>
          simp only
          rw [ih1]
          by_cases h1 : i < n
          · simp [h1, Nat.lt_succ_of_lt h1]
          · by_cases h2 : i = n
            · subst h2; simp [hc]
            · have h3 : ¬ i < n + 1 := by omega
              simp [h1, h3]
      | some c =>
          simp only
          rw [List.getElem?_set, constants_length]
          by_cases h2 : n = i
          · subst h2
            simp [hi, hc]
          · rw [if_neg h2, ih1]
            by_cases h1 : i < n
            · simp [h1, Nat.lt_succ_of_lt h1]
            · have h3 : ¬ i < n + 1 := by omega
              simp [h1, h3]

/-- C5. For a plugin whose default constants vector has `numConsts` entries,
the constants vector passed to `apply` for the voxel at `p` has `numConsts`
entries; slot `i` holds the value of constant channel `i` at `p` when that
channel is supplied and `defaultConsts()[i]` when it is not, and supplying
another channel `j` does not change slot `i`. -/
theorem constants_vector_slot_resolution [Zero V] (f : ApplyAlgorithmFilter V)
    (p : Index) (i : Nat)
    (hlen : f.algorithm.defaultConsts.length = f.algorithm.numConsts)
    (hi : i < f.algorithm.numConsts) :
    f.applyAt p =
      f.algorithm.apply (f.inputVector p) (f.constants p f.algorithm.numConsts) ∧
    (f.constants p f.algorithm.numConsts).length = f.algorithm.numConsts ∧
    (∀ c, f.GetConst i = .ok (some c) →
      (f.constants p f.algorithm.numConsts)[i]? = some (c.pix p)) ∧
    (f.GetConst i = .ok none →
      (f.constants p f.algorithm.numConsts)[i]? = f.algorithm.defaultConsts[i]?) ∧
    (∀ j img g, j ≠ i → f.SetConst j img = .ok g →
      (g.constants p g.algorithm.numConsts)[i]? =
        (f.constants p f.algorithm.numConsts)[i]?) := by
  have hi2 : i < f.algorithm.defaultConsts.length := by omega
  have hget := constants_getElem? f p f.algorithm.numConsts (Nat.le_refl _) i hi2
  rw [if_pos hi] at hget
  refine ⟨rfl, ?_, ?_, ?_, ?_⟩
  · rw [constants_length, hlen]
  · intro c hc
    simp only [GetConst, hi, if_true, Except.ok.injEq] at hc
    rw [hget, hc]
  · intro hc
    simp only [GetConst, hi, if_true, Except.ok.injEq] at hc
    rw [hget, hc]
  · intro j img g hj hset
    unfold SetConst at hset
    by_cases hjc : j < f.algorithm.numConsts
    · rw [if_pos hjc] at hset
      cases hset
      have hget2 := constants_getElem?
        (f.SetNthInput (f.algorithm.numInputs + 1 + j) (img.map DataObject.scalar)) p
        f.algorithm.numConsts (Nat.le_refl _) i hi2
      rw [if_pos hi] at hget2
      have hne : f.algorithm.numInputs + 1 + i ≠ f.algorithm.numInputs + 1 + j := by omega
      have hslot : (f.SetNthInput (f.algorithm.numInputs + 1 + j)
          (img.map DataObject.scalar)).inputs (f.algorithm.numInputs + 1 + i) =
          f.inputs (f.algorithm.numInputs + 1 + i) := by
        simp [SetNthInput, hne]
      have halg : (f.SetNthInput (f.algorithm.numInputs + 1 + j)
          (img.map DataObject.scalar)).algorithm = f.algorithm := rfl
      rw [halg] at hget2 ⊢
      rw [hslot] at hget2
      rw [hget2, hget]
    · rw [if_neg hjc] at hset
      cases hset

end ApplyAlgorithmFilter
end QUIT

namespace QUIT
variable {V : Type}
namespace ApplyAlgorithmFilter

theorem dispatchStep_unmaskedVoxels [DecidableEq V] [Zero V] (mask : Option (Image V))
    (st : RunState V) (p : Index) :
    (dispatchStep mask st p).filter.unmaskedVoxels = st.filter.unmaskedVoxels := by
  unfold dispatchStep
  split
  · rfl
  · simp only
    rw [writeInactive_eq]
    split
    · rfl
    · rw [zeroOutputs_eq]

theorem dispatchLoop_unmaskedVoxels [DecidableEq V] [Zero V] (mask : Option (Image V))
    (L : List Index) :
    ∀ st : RunState V,
      (dispatchLoop mask L st).filter.unmaskedVoxels = st.filter.unmaskedVoxels := by
  induction L with
  | nil => intro st; rfl
  | cons p L ih =>
      intro st
      rw [dispatchLoop]
      split
      · exact dispatchStep_unmaskedVoxels mask st p
      · rw [ih, dispatchStep_unmaskedVoxels]

theorem activeCount_eq [DecidableEq V] [Zero V] (mask : Option (Image V)) (r : Region) :
    (match mask with
      | some m => countMask m r.indices 0
      | none => r.GetNumberOfPixels) = activeCount mask r := by
  unfold activeCount
  cases mask with
  | none =>
      simp only
      rw [← Region.length_indices]
      congr 1
      symm
      apply List.filter_eq_self.2
      intro q _
      rfl
  | some m =>
      simp only
      rw [countMask_eq, Nat.zero_add]

theorem GenerateDataScheduled_unmaskedVoxels [DecidableEq V] [Zero V]
    (f : ApplyAlgorithmFilter V) (t : Rat) (sch : List Index → List Index)
    (input : Image (List V)) (hin : f.GetInput 0 = .ok (some input))
    (hsub : f.hasSubregion = true → input.region.IsInside f.subregion = true) :
    (f.GenerateDataScheduled t sch).filter.unmaskedVoxels =
      activeCount f.GetMask (f.activeRegion input) := by
  have hnot : (f.hasSubregion && !input.region.IsInside f.subregion) = false := by
    cases hs : f.hasSubregion with
    | false => rfl
    | true => rw [hsub hs]; rfl
  unfold GenerateDataScheduled
  rw [hin]
  simp only [hnot, Bool.false_eq_true, if_false]
  rw [activeCount_eq]
  split
  · rfl
  · split
    · rw [dispatchLoop_unmaskedVoxels]
    · simp only [drain_eq]
      rw [dispatchLoop_unmaskedVoxels]

/-- C6. After `GenerateData` passed its sub-region check, `GetEvaluations` is
the number of positions of the active region with a non-zero mask value when
there is a mask, and the number of positions of the active region (its
`GetNumberOfPixels`) when there is none; the active region is the sub-region
when one is set (and inside), else the full extent of data channel 0. -/
theorem evaluations_equal_active_voxel_count [DecidableEq V] [Zero V]
    (f : ApplyAlgorithmFilter V) (t : Rat) (input : Image (List V))
    (hin : f.GetInput 0 = .ok (some input))
    (hsub : f.hasSubregion = true → input.region.IsInside f.subregion = true) :
    (∀ m, f.GetMask = some m →
      (f.GenerateData t).filter.GetEvaluations =
        ((if f.hasSubregion then f.subregion else input.region).indices.filter
          (fun q => decide (m.pix q ≠ 0))).length) ∧
    (f.GetMask = none →
      (f.GenerateData t).filter.GetEvaluations =
        (if f.hasSubregion then f.subregion else input.region).indices.length) ∧
    (if f.hasSubregion then f.subregion else input.region).indices.length =
      (if f.hasSubregion then f.subregion else input.region).GetNumberOfPixels := by
  have h := GenerateDataScheduled_unmaskedVoxels f t id input hin hsub
  refine ⟨?_, ?_, Region.length_indices _⟩
  · intro m hm
    unfold GetEvaluations GenerateData
    rw [h, hm]
    rfl
  · intro hm
    unfold GetEvaluations GenerateData
    rw [h, hm]
    unfold activeCount activeRegion
    congr 1
    apply List.filter_eq_self.2
    intro q _
    rfl

end ApplyAlgorithmFilter
end QUIT

namespace QUIT
variable {V : Type}
namespace ApplyAlgorithmFilter

theorem GenerateDataScheduled_perm [DecidableEq V] [Zero V] (f : ApplyAlgorithmFilter V)
    (t : Rat) (sch : List Index → List Index) (hperm : ∀ L, (sch L).Perm L) :
    f.GenerateDataScheduled t sch = f.GenerateDataScheduled t id := by
  unfold GenerateDataScheduled
  split
  · rfl
  · rfl
  · split
    · rfl
    · simp only
      split
      · rfl
      · split
        · rfl
        · simp only [drain_eq, id, RunState.mk.injEq, mk.injEq, true_and, and_true]
          funext slot
          exact taskSlots_congr _ _ _ (fun q => (hperm _).mem_iff) slot _

/-- C9. Running the submitted units of work in any permutation of the
submission order gives the same result of `GenerateData` (output, residual,
all-residuals and iteration-count volumes included) as running them in
submission order; in a completed run no position is submitted twice and the
output volumes do not depend on the pool size either. -/
theorem outputs_independent_of_execution_order [DecidableEq V] [Zero V]
    (f : ApplyAlgorithmFilter V) (t : Rat) (sch : List Index → List Index)
    (hperm : ∀ L, (sch L).Perm L) :
    f.GenerateDataScheduled t sch = f.GenerateData t ∧
    ((f.GenerateData t).error = none →
      (f.GenerateData t).submitted.Nodup ∧
      ∀ n, ((f.SetPoolsize n).GenerateDataScheduled t sch).filter.outputs =
        (f.GenerateData t).filter.outputs) := by
  refine ⟨GenerateDataScheduled_perm f t sch hperm, ?_⟩
  intro hrun
  obtain ⟨input, hpos, hin, hsub, hb, hC⟩ := GenerateDataScheduled_ok_inv f t id hrun
  have heq := GenerateDataScheduled_completes f t id input hpos hin hsub hb hC
  constructor
  · unfold GenerateData
    rw [heq]
    exact List.Nodup.filter _ (Region.nodup_indices _)
  · intro n
    have heq2 := GenerateDataScheduled_completes (f.SetPoolsize n) t sch input hpos hin hsub
      hb hC
    unfold GenerateData
    rw [heq, heq2]
    simp only [id]
    funext slot
    refine (taskSlots_config f _ ?_ ?_ ?_ _ _ _).trans ?_
    · rfl
    · rfl
    · rfl
    · exact taskSlots_congr _ _ _ (fun q => (hperm _).mem_iff) slot _

end ApplyAlgorithmFilter
end QUIT

namespace QUIT
variable {V : Type}
namespace ApplyAlgorithmFilter

theorem inputSize_error (f : ApplyAlgorithmFilter V) (n : Nat) :
    ∀ e, f.inputSize n = .error e → e.isConfigurationError = false := by
  induction n with
  | zero => intro e h; cases h
  | succ n ih =>
      intro e h
      rw [inputSize] at h
      cases h1 : f.inputSize n with
      | error e1 =>
          rw [h1] at h
          cases h
          exact ih e h1
      | ok size =>
          rw [h1] at h
          unfold GetInput at h
          simp only at h
          split at h
          · rename_i e2 he2
            split at he2
            · cases he2
            · cases he2; cases h; rfl
          · cases h; rfl
          · cases h

theorem GenerateOutputInformation_never_subregion_error [Zero V]
    (f : ApplyAlgorithmFilter V) :
    f.GenerateOutputInformation.error ≠ some .subregionNotInside := by
  intro h
  unfold GenerateOutputInformation at h
  split at h
  · rename_i e he
    cases h
    have := inputSize_error f _ _ he
    cases this
  · split at h
    · cases h
    · split at h
      · cases h
      · split at h
        · rename_i e he
          cases h
          unfold GetInput at he
          split at he
          · cases he
          · cases he
        · cases h
        · have := allocation_error_not_config f _ _ _ h
          cases this

theorem Outcome.andThen_fields (o : Outcome V) (k : ApplyAlgorithmFilter V → Outcome V)
    (f : ApplyAlgorithmFilter V)
    (ho : o.filter = { f with outputs := o.filter.outputs })
    (hk : ∀ g, (k g).filter = { g with outputs := (k g).filter.outputs }) :
    (o.andThen k).filter = { f with outputs := (o.andThen k).filter.outputs } := by
  unfold Outcome.andThen
  split
  · rw [hk o.filter]
    simp only
    rw [ho]
  · exact ho

theorem prepareOutput_fields [Zero V] (f : ApplyAlgorithmFilter V) (input : Image (List V))
    (i : Nat) :
    (f.prepareOutput input i).filter =
      { f with outputs := (f.prepareOutput input i).filter.outputs } := by
  unfold prepareOutput
  split <;> rfl

theorem prepareOutputs_fields [Zero V] (f : ApplyAlgorithmFilter V) (input : Image (List V))
    (n : Nat) :
    (f.prepareOutputs input n).filter =
      { f with outputs := (f.prepareOutputs input n).filter.outputs } := by
  induction n with
  | zero => rfl
  | succ n ih =>
      rw [prepareOutputs]
      exact Outcome.andThen_fields _ _ f ih (fun g => prepareOutput_fields g input n)

theorem prepareAllResiduals_fields [Zero V] (f : ApplyAlgorithmFilter V)
    (input : Image (List V)) (size : Nat) :
    (f.prepareAllResiduals input size).filter =
      { f with outputs := (f.prepareAllResiduals input size).filter.outputs } := by
  unfold prepareAllResiduals
  split
  · split <;> rfl
  · rfl

theorem prepareResidual_fields [Zero V] (f : ApplyAlgorithmFilter V)
    (input : Image (List V)) :
    (f.prepareResidual input).filter =
      { f with outputs := (f.prepareResidual input).filter.outputs } := by
  unfold prepareResidual
  split <;> rfl

theorem prepareIterations_fields (f : ApplyAlgorithmFilter V) (input : Image (List V)) :
    (f.prepareIterations input).filter =
      { f with outputs := (f.prepareIterations input).filter.outputs } := by
  unfold prepareIterations
  split <;> rfl

theorem GenerateOutputInformation_fields [Zero V] (f : ApplyAlgorithmFilter V) :
    f.GenerateOutputInformation.filter =
      { f with outputs := f.GenerateOutputInformation.filter.outputs } := by
  unfold GenerateOutputInformation
  split
  · rfl
  · split
    · rfl
    · split
      · rfl
      · split
        · rfl
        · rfl
        · apply Outcome.andThen_fields
          · apply Outcome.andThen_fields
            · apply Outcome.andThen_fields
              · exact prepareOutputs_fields f _ _
              · intro g; exact prepareAllResiduals_fields g _ _
            · intro g; exact prepareResidual_fields g _
          · intro g; exact prepareIterations_fields g _

/-- C4, amended. A sub-region that is not inside the full extent of data channel 0
(a non-empty one then has a position outside the full extent) is rejected with
the sub-region configuration error by `GenerateData` (run), before any position
is visited, any unit of work submitted or any output written;
`GenerateOutputInformation` (configure) never raises this error, and in the
pipeline the error is raised in the state configure produced. -/
theorem subregion_error_is_raised_by_run [DecidableEq V] [Zero V]
    (f : ApplyAlgorithmFilter V) (t : Rat) (input : Image (List V))
    (hin : f.GetInput 0 = .ok (some input))
    (hset : f.hasSubregion = true)
    (hout : input.region.IsInside f.subregion = false) :
    f.GenerateData t = ⟨f, some .subregionNotInside, [], [], 0⟩ ∧
    Error.isConfigurationError .subregionNotInside = true ∧
    (0 < f.subregion.GetNumberOfPixels →
      ∃ p, p ∈ f.subregion.indices ∧ p ∉ input.region.indices) ∧
    f.GenerateOutputInformation.error ≠ some .subregionNotInside ∧
    (f.GenerateOutputInformation.error = none →
      f.Update t = ⟨f.GenerateOutputInformation.filter, some .subregionNotInside, [], [], 0⟩) := by
  have hrun : ∀ g : ApplyAlgorithmFilter V, g.GetInput 0 = .ok (some input) →
      g.hasSubregion = true → input.region.IsInside g.subregion = false →
      g.GenerateData t = ⟨g, some .subregionNotInside, [], [], 0⟩ := by
    intro g hg hs ho
    unfold GenerateData GenerateDataScheduled
    rw [hg]
    simp [hs, ho]
  refine ⟨hrun f hin hset hout, rfl, ?_, GenerateOutputInformation_never_subregion_error f, ?_⟩
  · intro hne
    by_contra hcon
    have hall : ∀ p, p ∈ f.subregion.indices → p ∈ input.region.indices := by
      intro p hp
      by_contra hnp
      exact hcon ⟨p, hp, hnp⟩
    rw [(Region.IsInside_iff _ _ hne).2 hall] at hout
    cases hout
  intro hok
  unfold Update
  rw [hok]
  simp only
  have hf := GenerateOutputInformation_fields f
  apply hrun
  · rw [hf]; exact hin
  · rw [hf]; exact hset
  · rw [hf]; exact hout

end ApplyAlgorithmFilter
end QUIT

namespace QUIT
open ApplyAlgorithmFilter

/-- C1, witness: a plugin that expects five components with a channel of two. -/
theorem configure_fails_iff_size_mismatch_or_zero_witness :
    mismatchFilter.declaredInputSize = 2 ∧
    mismatchFilter.GenerateOutputInformation.error = some (.sequenceSizeMismatch 5 2) ∧
    mismatchFilter.GenerateOutputInformation.filter = mismatchFilter :=
  ⟨by decide, by decide,
    ((configure_fails_iff_size_mismatch_or_zero mismatchFilter (by decide)).2
      (.sequenceSizeMismatch 5 2) (by decide) rfl).1⟩

/-- C4, counterexample: with a sub-region that sticks out of the volume,
configure raises no error and allocates the output volumes; the sub-region
error is raised afterwards, by run. -/
theorem subregion_error_not_raised_by_configure :
    dataImage.region.IsInside outsideFilter.subregion = false ∧
    outsideFilter.GenerateOutputInformation.error = none ∧
    outsideFilter.GenerateOutputInformation.filter.GetResidualOutput.map
      (fun img => img.allocated) = some true ∧
    (castScalar (outsideFilter.GenerateOutputInformation.filter.outputs
      (0 + StartOutputs))).map (fun img => img.allocated) = some true ∧
    (outsideFilter.Update 0).error = some .subregionNotInside := by
  decide

/-- C4, witness of the amended statement. -/
theorem subregion_error_is_raised_by_run_witness :
    outsideFilter.GenerateData 0 = ⟨outsideFilter, some .subregionNotInside, [], [], 0⟩ ∧
    outsideFilter.Update 0 =
      ⟨outsideFilter.GenerateOutputInformation.filter, some .subregionNotInside, [], [], 0⟩ :=
  have h := subregion_error_is_raised_by_run outsideFilter 0 dataImage rfl rfl (by decide)
  ⟨h.1, h.2.2.2.2 (by decide)⟩

/-- C5, witness: defaults 7 and 9, constant channel 1 supplied. -/
theorem constants_vector_slot_resolution_witness :
    (constFilter.constants [1, 0, 0] 2)[1]? = some 41 ∧
    (constFilter.constants [1, 0, 0] 2)[0]? = some 7 :=
  ⟨(constants_vector_slot_resolution constFilter [1, 0, 0] 1 (by decide) (by decide)).2.2.1
      constImage rfl,
    (constants_vector_slot_resolution constFilter [1, 0, 0] 0 (by decide) (by decide)).2.2.2.1
      rfl⟩

/-- C6, witness: one active voxel with the mask, four without a mask. -/
theorem evaluations_equal_active_voxel_count_witness :
    (maskedConfigured.GenerateData 0).filter.GetEvaluations = 1 ∧
    (sumConfigured.GenerateData 0).filter.GetEvaluations = 4 :=
  ⟨(evaluations_equal_active_voxel_count maskedConfigured 0 dataImage rfl (by decide)).1
      maskImage rfl,
    (evaluations_equal_active_voxel_count sumConfigured 0 dataImage rfl (by decide)).2.1 rfl⟩

/-- C9, witness: the units of work run in reverse submission order. -/
theorem outputs_independent_of_execution_order_witness :
    sumConfigured.GenerateDataScheduled 0 List.reverse = sumConfigured.GenerateData 0 :=
  (outputs_independent_of_execution_order sumConfigured 0 List.reverse
    (fun L => List.reverse_perm L)).1

/-- C10, witness: one data channel and one output. -/
theorem accessors_raise_index_error_iff_past_count_witness :
    (∃ e, sumFilter.GetInput 1 = .error e ∧ e.isIndexError = true) ∧
    sumFilter.GetOutput 0 = .ok (castScalar (sumFilter.outputs 3)) :=
  have h := accessors_raise_index_error_iff_past_count sumFilter 1 none none
  have h0 := accessors_raise_index_error_iff_past_count sumFilter 0 none none
  ⟨h.2.1.2 (by decide), h0.2.2.2.2.2.2.2 (by decide)⟩

end QUIT

namespace QUIT
variable {V : Type}
namespace ApplyAlgorithmFilter

theorem prepareImage_sharesGeometry {α β : Type} (op : Image α) (input : Image β) (zero : α) :
    SharesGeometry (prepareImage op input zero) input :=
  ⟨rfl, rfl, rfl, rfl, rfl⟩

theorem Outcome.andThen_ok (o : Outcome V) (k : ApplyAlgorithmFilter V → Outcome V)
    (h : (o.andThen k).error = none) :
    o.error = none ∧ o.andThen k = k o.filter := by
  unfold Outcome.andThen at h ⊢
  cases ho : o.error with
  | none => exact ⟨rfl, rfl⟩
  | some e =>
      rw [ho] at h
      simp only at h
      rw [ho] at h
      cases h

theorem inputSize_ok_eq (f : ApplyAlgorithmFilter V) (n : Nat) :
    ∀ s, f.inputSize n = .ok s →
      s = ((List.range n).map
        (fun i => match castVector (f.inputs i) with
          | some img => img.ncomp
          | none => 0)).sum := by
  induction n with
  | zero =>
      intro s h
      cases h
      rfl
  | succ n ih =>
      intro s h
      rw [inputSize] at h
      cases h1 : f.inputSize n with
      | error e => rw [h1] at h; cases h
      | ok s0 =>
          rw [h1] at h
          unfold GetInput at h
          by_cases hn : n < f.algorithm.numInputs
          · rw [if_pos hn] at h
            cases hc : castVector (f.inputs n) with
            | none => rw [hc] at h; cases h
            | some img =>
                rw [hc] at h
                cases h
                rw [ih s0 h1]
                simp [List.range_succ, hc]
          · rw [if_neg hn] at h
            cases h

theorem prepareOutput_ok [Zero V] (f : ApplyAlgorithmFilter V) (input : Image (List V))
    (i : Nat) (h : (f.prepareOutput input i).error = none) :
    ∃ op, (f.prepareOutput input i).filter.outputs =
      fun slot => if slot = i + StartOutputs then
        some (.scalar (prepareImage op input 0)) else f.outputs slot := by
  unfold prepareOutput at h ⊢
  split at h
  · cases h
  · cases h
  · rename_i op hop
    exact ⟨op, rfl⟩

theorem prepareOutputs_ok [Zero V] (f : ApplyAlgorithmFilter V) (input : Image (List V))
    (n : Nat) (h : (f.prepareOutputs input n).error = none) :
    (∀ k, k < n → ∃ img, castScalar ((f.prepareOutputs input n).filter.outputs
        (k + StartOutputs)) = some img ∧ SharesGeometry img input) ∧
    (∀ slot, slot < StartOutputs →
      (f.prepareOutputs input n).filter.outputs slot = f.outputs slot) := by
  induction n with
  | zero =>
      exact ⟨fun k hk => absurd hk (Nat.not_lt_zero k), fun _ _ => rfl⟩
  | succ n ih =>
      rw [prepareOutputs] at h ⊢
      obtain ⟨h1, h2⟩ := Outcome.andThen_ok _ _ h
      rw [h2] at h ⊢
      obtain ⟨ihk, ihs⟩ := ih h1
      obtain ⟨op, hop⟩ := prepareOutput_ok _ input n h
      rw [hop]
      constructor
      · intro k hk
        by_cases hkn : k = n
        · subst hkn
          simp only [if_true]
          exact ⟨_, rfl, prepareImage_sharesGeometry op input 0⟩
        · have hne : k + StartOutputs ≠ n + StartOutputs := by omega
          simp only [hne, if_false]
          exact ihk k (by omega)
      · intro slot hs
        have hne : slot ≠ n + StartOutputs := by omega
        simp only [hne, if_false]
        exact ihs slot hs

end ApplyAlgorithmFilter
end QUIT

namespace QUIT
variable {V : Type}
namespace ApplyAlgorithmFilter

theorem prepareAllResiduals_ok [Zero V] (f : ApplyAlgorithmFilter V)
    (input : Image (List V)) (size : Nat)
    (h : (f.prepareAllResiduals input size).error = none) :
    (∀ slot, slot ≠ AllResidualsOutput →
      (f.prepareAllResiduals input size).filter.outputs slot = f.outputs slot) ∧
    (f.allResiduals = true →
      ∃ img, castVector ((f.prepareAllResiduals input size).filter.outputs
        AllResidualsOutput) = some img ∧ SharesGeometry img input ∧ img.ncomp = size) := by
  unfold prepareAllResiduals at h ⊢
  by_cases hres : f.allResiduals = true
  · rw [if_pos hres] at h ⊢
    split at h
    · cases h
    · rename_i r hr
      exact ⟨fun slot hs => by simp [SetNthOutput, hs],
        fun _ => ⟨_, rfl, ⟨rfl, rfl, rfl, rfl, rfl⟩, rfl⟩⟩
  · rw [if_neg hres]
    exact ⟨fun _ _ => rfl, fun h2 => absurd h2 hres⟩

theorem prepareResidual_ok [Zero V] (f : ApplyAlgorithmFilter V) (input : Image (List V))
    (h : (f.prepareResidual input).error = none) :
    (∀ slot, slot ≠ ResidualOutput →
      (f.prepareResidual input).filter.outputs slot = f.outputs slot) ∧
    (∃ img, castScalar ((f.prepareResidual input).filter.outputs ResidualOutput) = some img ∧
      SharesGeometry img input) := by
  unfold prepareResidual at h ⊢
  split at h
  · cases h
  · rename_i r hr
    exact ⟨fun slot hs => by simp [SetNthOutput, hs],
      ⟨_, rfl, prepareImage_sharesGeometry r input 0⟩⟩

theorem prepareIterations_ok (f : ApplyAlgorithmFilter V) (input : Image (List V))
    (h : (f.prepareIterations input).error = none) :
    (∀ slot, slot ≠ IterationsOutput →
      (f.prepareIterations input).filter.outputs slot = f.outputs slot) ∧
    (∃ img, castIterations ((f.prepareIterations input).filter.outputs IterationsOutput) =
      some img ∧ SharesGeometry img input) := by
  unfold prepareIterations at h ⊢
  split at h
  · cases h
  · rename_i r hr
    exact ⟨fun slot hs => by simp [SetNthOutput, hs],
      ⟨_, rfl, prepareImage_sharesGeometry r input 0⟩⟩

/-- C11. After a successful `GenerateOutputInformation`, every parameter output
volume, the residual volume and the iteration-count volume have the region (the
largest possible region), spacing, origin and direction of data channel 0 and
are allocated; when all-residuals is enabled the all-residuals volume has the
same geometry and as many components per voxel as the total input size, the sum
of the component counts of the data channels. -/
theorem configured_outputs_share_geometry [Zero V] (f : ApplyAlgorithmFilter V)
    (input : Image (List V))
    (hin : castVector (f.inputs 0) = some input)
    (hok : f.GenerateOutputInformation.error = none) :
    (∀ k, k < f.algorithm.numOutputs →
      ∃ img, f.GenerateOutputInformation.filter.GetOutput k = .ok (some img) ∧
        SharesGeometry img input) ∧
    (∃ img, f.GenerateOutputInformation.filter.GetResidualOutput = some img ∧
      SharesGeometry img input) ∧
    (∃ img, f.GenerateOutputInformation.filter.GetIterationsOutput = some img ∧
      SharesGeometry img input) ∧
    (f.allResiduals = true →
      ∃ img, f.GenerateOutputInformation.filter.GetAllResidualsOutput = some img ∧
        SharesGeometry img input ∧ img.ncomp = f.declaredInputSize) := by
  have halg : f.GenerateOutputInformation.filter.algorithm = f.algorithm := by
    rw [GenerateOutputInformation_fields f]
  unfold GetResidualOutput GetIterationsOutput GetAllResidualsOutput
  simp only [GetOutput, halg]
  unfold GenerateOutputInformation at hok ⊢
  cases hs : f.inputSize f.algorithm.numInputs with
  | error e => rw [hs] at hok; cases hok
  | ok size =>
      have hsize : size = f.declaredInputSize := inputSize_ok_eq f _ size hs
      rw [hs] at hok
      simp only at hok ⊢
      by_cases h1 : f.algorithm.dataSize ≠ size
      · rw [if_pos h1] at hok; cases hok
      · rw [if_neg h1] at hok ⊢
        by_cases h2 : size = 0
        · rw [if_pos h2] at hok; cases hok
        · rw [if_neg h2] at hok ⊢
          have hpos : 0 < f.algorithm.numInputs := by
            by_contra hz
            apply h2
            have hz0 : f.algorithm.numInputs = 0 := by omega
            rw [hsize]
            simp [declaredInputSize, hz0]
          simp only [GetInput, hpos, if_true, hin] at hok ⊢
          obtain ⟨hA, eA⟩ := Outcome.andThen_ok _ _ hok
          rw [eA] at hok ⊢
          obtain ⟨hB, eB⟩ := Outcome.andThen_ok _ _ hA
          rw [eB] at hA hok ⊢
          obtain ⟨hC, eC⟩ := Outcome.andThen_ok _ _ hB
          rw [eC] at hB hA hok ⊢
          obtain ⟨p1, p2⟩ := prepareOutputs_ok f input _ hC
          obtain ⟨q1, q2⟩ := prepareAllResiduals_ok _ input size hB
          obtain ⟨r1, r2⟩ := prepareResidual_ok _ input hA
          obtain ⟨s1, s2⟩ := prepareIterations_ok _ input hok
          have hflag : (f.prepareOutputs input f.algorithm.numOutputs).filter.allResiduals =
              f.allResiduals := by
            rw [prepareOutputs_fields f input _]
          refine ⟨?_, ?_, s2, ?_⟩
          · intro k hk
            rw [if_pos hk]
            obtain ⟨img, himg, hgeo⟩ := p1 k hk
            refine ⟨img, ?_, hgeo⟩
            rw [s1 _ (by simp [StartOutputs, IterationsOutput]),
              r1 _ (by simp [StartOutputs, ResidualOutput]),
              q1 _ (by simp [StartOutputs, AllResidualsOutput]), himg]
          · obtain ⟨img, himg, hgeo⟩ := r2
            refine ⟨img, ?_, hgeo⟩
            rw [s1 _ (by simp [ResidualOutput, IterationsOutput]), himg]
          · intro hres
            obtain ⟨img, himg, hgeo, hn⟩ := q2 (hflag.trans hres)
            refine ⟨img, ?_, hgeo, hn.trans hsize⟩
            rw [s1 _ (by simp [AllResidualsOutput, IterationsOutput]),
              r1 _ (by simp [AllResidualsOutput, ResidualOutput]), himg]

end ApplyAlgorithmFilter
end QUIT

namespace QUIT
variable {V : Type}
namespace ApplyAlgorithmFilter

theorem runTask_allResiduals_off [Zero V] (f : ApplyAlgorithmFilter V) (p : Index)
    (hres : f.allResiduals = false) :
    (f.runTask p).outputs AllResidualsOutput = f.outputs AllResidualsOutput := by
  rw [runTask_eq]
  simp [taskSlots, taskSlot, hres, AllResidualsOutput, IterationsOutput]

/-- C15. With all-residuals disabled, the unit of work of an active voxel
leaves the all-residuals slot alone (its write is guarded by `m_allResiduals`),
but the inactive branch is not guarded: it writes through the all-residuals
iterator, which was never bound to a volume.  Every run that is otherwise valid
and meets a masked-out voxel of the active region therefore stops with that
undefined write. -/
theorem inactive_branch_writes_through_unbound_iterator [DecidableEq V] [Zero V]
    (f : ApplyAlgorithmFilter V) (t : Rat) (input : Image (List V)) (q : Index)
    (hpos : 0 < f.algorithm.numInputs)
    (hin : castVector (f.inputs 0) = some input)
    (hsub : f.hasSubregion = true → input.region.IsInside f.subregion = true)
    (hb : f.IteratorsBound)
    (hres : f.allResiduals = false)
    (hq : q ∈ (f.activeRegion input).indices)
    (hmask : isActive f.GetMask q = false) :
    (f.GenerateData t).error = some .nullDereference ∧
    (f.writeInactive q).error = some .nullDereference ∧
    (∀ p, (f.runTask p).outputs AllResidualsOutput = f.outputs AllResidualsOutput) := by
  refine ⟨?_, ?_, fun p => runTask_allResiduals_off f p hres⟩
  · have hnot : (f.hasSubregion && !input.region.IsInside f.subregion) = false := by
      cases hs : f.hasSubregion with
      | false => rfl
      | true => rw [hsub hs]; rfl
    unfold GenerateData GenerateDataScheduled
    simp only [GetInput, hpos, if_true, hin, hnot, Bool.false_eq_true, if_false]
    rw [activeCount_eq]
    have hb1 : bindIterators
        { f with unmaskedVoxels := (activeCount f.GetMask (f.activeRegion input)) } = .ok () :=
      (bindIterators_ok_iff _).2 hb
    rw [hb1]
    simp only
    have hf := dispatchLoop_faults f.GetMask (f.activeRegion input).indices
      ⟨{ f with unmaskedVoxels := (activeCount f.GetMask (f.activeRegion input)) },
        none, [], [], 0⟩ rfl hres ⟨q, hq, hmask⟩
    split
    · rename_i e he
      rw [hf] at he
      cases he
      exact hf
    · rename_i he
      rw [hf] at he
      cases he
  · rw [writeInactive_eq, if_neg (by simp [hres])]

end ApplyAlgorithmFilter
end QUIT

namespace QUIT

/-- C12. For both plugins `FMLMAlgo::apply` and `FMSRCAlgo::apply`: when the T1
constant `inputs[0]` is not finite or is not greater than 0.001, `apply` returns
(it reads nothing else) with every output component and every residual
component equal to zero, whatever the data, the B1 constant and the fit are. -/
theorem fm_apply_returns_zero_for_invalid_T1 (fitLM fitSRC : FitBranch)
    (data rest outputs resids : List Double) (T1 : Double)
    (h : T1.isfinite = false ∨ T1.gt literal0001 = false) :
    FMLMAlgo.apply fitLM data (T1 :: rest) outputs resids =
      some (List.replicate outputs.length Double.zero,
        List.replicate resids.length Double.zero) ∧
    FMSRCAlgo.apply fitSRC data (T1 :: rest) outputs resids =
      some (List.replicate outputs.length Double.zero,
        List.replicate resids.length Double.zero) := by
  have hg : (T1.isfinite && T1.gt literal0001) = false := by
    rcases h with h | h
    · rw [h]; rfl
    · rw [h]; exact Bool.and_false _
  have hz : ∀ l : List Double, l.map (fun _ => Double.zero) =
      List.replicate l.length Double.zero := by
    intro l
    induction l with
    | nil => rfl
    | cons a l ih => simp [List.replicate_succ, ih]
  constructor
  · simp only [FMLMAlgo.apply, hg, Bool.false_eq_true, if_false, hz]
  · simp only [FMSRCAlgo.apply, hg, Bool.false_eq_true, if_false, hz]

/-- C12, witness: a negative T1 of `-1` with three outputs and two residuals. -/
theorem fm_apply_returns_zero_for_invalid_T1_witness :
    FMLMAlgo.apply (fun _ _ _ o => (o, [])) [.finite 5, .finite 6] [.finite (-1), .nan]
        [.finite 1, .finite 2, .finite 3] [.finite 4, .finite 5] =
      some ([Double.zero, Double.zero, Double.zero], [Double.zero, Double.zero]) :=
  (fm_apply_returns_zero_for_invalid_T1 (fun _ _ _ o => (o, []))
    (fun _ _ _ o => (o, [])) [.finite 5, .finite 6] [.nan]
    [.finite 1, .finite 2, .finite 3] [.finite 4, .finite 5] (.finite (-1))
    (Or.inr (by simp [Double.gt, literal0001]; norm_num))).1

end QUIT

namespace QUIT

theorem getline_no_delim (text str : List Char) (delim : Char)
    (h : ∀ c, c ∈ text → c ≠ delim) (hne : text ≠ []) :
    (IStream.ofText text).getline str delim =
      ({ rest := [], eofbit := true, failbit := false }, text) := by
  have hd : text.dropWhile (fun c => c != delim) = [] := by
    rw [List.dropWhile_eq_nil_iff]
    intro c hc
    simpa using h c hc
  have ht : text.takeWhile (fun c => c != delim) = text := by
    rw [List.takeWhile_eq_self_iff]
    intro c hc
    simpa using h c hc
  unfold IStream.getline IStream.ofText
  simp only [Bool.or_self, Bool.false_eq_true, if_false, hd, ht]
  cases text with
  | nil => exact absurd rfl hne
  | cons a l => rfl

theorem eigenRow_no_comma (a b c : List Char) (ha : ',' ∉ a) (hb : ',' ∉ b) (hc : ',' ∉ c) :
    ∀ x, x ∈ eigenRow [a, b, c] ++ ['\n'] → x ≠ ',' := by
  intro x hx hxc
  subst hxc
  simp [eigenRow, List.intercalate, List.intersperse, ha, hb, hc, List.mem_replicate] at hx

/-- The reader of a Gauss kernel applied to the text `print` wrote: all three
components are the one number `std::stod` finds at the start of the row. -/
theorem ReadKernel_print_gauss (nt : NumberText) (init : KernelInit) (f0 f1 f2 : Rat)
    (hcomma : ∀ q, ',' ∉ nt.put q) :
    ReadKernel nt init (IStream.ofText ((FilterKernel.gauss f0 f1 f2).print nt)) =
      match nt.stod (eigenRow [nt.put f0, nt.put f1, nt.put f2] ++ ['\n']) with
      | some v => .ok (.gauss v v v)
      | none => .error .invalidArgument := by
  have hrow := eigenRow_no_comma (nt.put f0) (nt.put f1) (nt.put f2) (hcomma f0) (hcomma f1)
    (hcomma f2)
  have hg := getline_no_delim (eigenRow [nt.put f0, nt.put f1, nt.put f2] ++ ['\n']) [] ','
    hrow (by simp)
  have hfirst : (IStream.ofText ((FilterKernel.gauss f0 f1 f2).print nt)).getline [] ',' =
      (IStream.ofText (eigenRow [nt.put f0, nt.put f1, nt.put f2] ++ ['\n']),
        ['G', 'a', 'u', 's', 's']) := by
    simp [FilterKernel.print, IStream.getline, IStream.ofText, List.dropWhile, List.takeWhile]
  unfold ReadKernel
  rw [hfirst]
  simp only [show (['G', 'a', 'u', 's', 's'] : List Char) ≠ ['T', 'u', 'k', 'e', 'y'] by decide,
    show (['G', 'a', 'u', 's', 's'] : List Char) ≠ ['H', 'a', 'm', 'm', 'i', 'n', 'g'] by decide,
    if_false, if_true]
  unfold GaussKernel.read
  rw [hg]
  simp only [IStream.ofText, IStream.getline, NumberText.parse, Bool.not_false, if_true,
    Bool.true_or]
  cases nt.stod (eigenRow [nt.put f0, nt.put f1, nt.put f2] ++ ['\n']) <;> rfl

theorem digitChar_ne_comma (d : Nat) : Nat.digitChar d ≠ ',' := by
  by_cases h : d < 16
  · interval_cases d <;> decide
  · have hstar : Nat.digitChar d = '*' := by
      unfold Nat.digitChar
      repeat (rw [if_neg (by omega)])
    rw [hstar]
    decide

theorem toDigitsCore_no_comma (b : Nat) :
    ∀ (fuel n : Nat) (ds : List Char), (∀ c, c ∈ ds → c ≠ ',') →
      ∀ c, c ∈ Nat.toDigitsCore b fuel n ds → c ≠ ',' := by
  intro fuel
  induction fuel with
  | zero =>
      intro n ds hds c hc
      exact hds c hc
  | succ fuel ih =>
      intro n ds hds c hc
      unfold Nat.toDigitsCore at hc
      simp only at hc
      have hcons : ∀ c, c ∈ Nat.digitChar (n % b) :: ds → c ≠ ',' := by
        intro x hx
        rcases List.mem_cons.1 hx with rfl | hx
        · exact digitChar_ne_comma _
        · exact hds x hx
      split at hc
      · exact hcons c hc
      · exact ih _ _ hcons c hc

theorem wholeText_no_comma (q : Rat) : ',' ∉ wholeText.put q := by
  intro h
  exact toDigitsCore_no_comma 10 _ _ [] (fun c hc => by cases hc) ',' h rfl

/-- C13. The text serialisation of a Gauss kernel does not round-trip when the
FWHM components differ: `print` separates them by blanks, `ReadKernel` splits at
commas, so whatever the conversion of numbers to text and back is (as long as a
written number contains no comma) the kernel read back has three equal
components and is not the kernel that was written. -/
theorem gauss_kernel_text_does_not_round_trip (nt : NumberText) (init : KernelInit)
    (f0 f1 f2 : Rat)
    (hcomma : ∀ q, ',' ∉ nt.put q)
    (hdiffer : ¬ (f0 = f1 ∧ f0 = f2)) :
    ReadKernel nt init (IStream.ofText ((FilterKernel.gauss f0 f1 f2).print nt)) ≠
      .ok (.gauss f0 f1 f2) ∧
    (∀ k, ReadKernel nt init (IStream.ofText ((FilterKernel.gauss f0 f1 f2).print nt)) = .ok k →
      ∃ v, k = .gauss v v v) := by
  rw [ReadKernel_print_gauss nt init f0 f1 f2 hcomma]
  cases nt.stod (eigenRow [nt.put f0, nt.put f1, nt.put f2] ++ ['\n']) with
  | none =>
      exact ⟨fun h => (by cases h), fun k h => (by cases h)⟩
  | some v =>
      refine ⟨?_, fun k h => ⟨v, ?_⟩⟩
      · intro h
        simp only [Except.ok.injEq, FilterKernel.gauss.injEq] at h
        obtain ⟨h0, h1, h2⟩ := h
        exact hdiffer ⟨h0.symm.trans h1, h0.symm.trans h2⟩
      · simp only [Except.ok.injEq] at h
        exact h.symm

/-- C13, witness: the Gauss kernel with FWHM (1, 2, 3) is written as
`Gauss,1 2 3` and read back with FWHM (1, 1, 1); a Tukey kernel with the same
kind of parameters is read back unchanged. -/
theorem gauss_kernel_text_does_not_round_trip_witness :
    (FilterKernel.gauss 1 2 3).print wholeText =
      ['G', 'a', 'u', 's', 's', ',', '1', ' ', '2', ' ', '3', '\n'] ∧
    ReadKernel wholeText zeroInit (IStream.ofText ((FilterKernel.gauss 1 2 3).print wholeText)) =
      .ok (.gauss 1 1 1) ∧
    ReadKernel wholeText zeroInit (IStream.ofText ((FilterKernel.gauss 1 2 3).print wholeText)) ≠
      .ok (.gauss 1 2 3) ∧
    ReadKernel wholeText zeroInit (IStream.ofText ((FilterKernel.tukey 1 2).print wholeText)) =
      .ok (.tukey 1 2) :=
  ⟨by decide, rfl,
    (gauss_kernel_text_does_not_round_trip wholeText zeroInit 1 2 3
      wholeText_no_comma (by decide)).1, rfl⟩

end QUIT

namespace QUIT

theorem IStream.ofText_eofbit (text : List Char) : (IStream.ofText text).eofbit = false := rfl

theorem dropWhile_at_delim (delim : Char) (post : List Char) :
    ∀ pre : List Char, (∀ c, c ∈ pre → c ≠ delim) →
      (pre ++ delim :: post).dropWhile (fun c => c != delim) = delim :: post := by
  intro pre
  induction pre with
  | nil => intro _; simp [List.dropWhile]
  | cons a l ih =>
      intro h
      have ha : a ≠ delim := h a (List.mem_cons_self _ _)
      simp only [List.cons_append, List.dropWhile_cons, bne_iff_ne, ne_eq, ha,
        not_false_eq_true, if_true]
      exact ih (fun c hc => h c (List.mem_cons_of_mem _ hc))

theorem takeWhile_at_delim (delim : Char) (post : List Char) :
    ∀ pre : List Char, (∀ c, c ∈ pre → c ≠ delim) →
      (pre ++ delim :: post).takeWhile (fun c => c != delim) = pre := by
  intro pre
  induction pre with
  | nil => intro _; simp [List.takeWhile]
  | cons a l ih =>
      intro h
      have ha : a ≠ delim := h a (List.mem_cons_self _ _)
      simp only [List.cons_append, List.takeWhile_cons, bne_iff_ne, ne_eq, ha,
        not_false_eq_true, if_true, List.cons.injEq, true_and]
      exact ih (fun c hc => h c (List.mem_cons_of_mem _ hc))

theorem getline_at_delim (pre post str : List Char) (delim : Char)
    (h : ∀ c, c ∈ pre → c ≠ delim) :
    (IStream.ofText (pre ++ delim :: post)).getline str delim = (IStream.ofText post, pre) := by
  unfold IStream.getline
  simp only [IStream.ofText, Bool.or_self, Bool.false_eq_true, if_false,
    dropWhile_at_delim delim post pre h, takeWhile_at_delim delim post pre h]

/-- The comma-separated kernels are read back as written: when a written number
contains no comma and `std::stod` recovers a number from its text, also when a
line end follows, `ReadKernel` applied to the text of `print` gives back a Tukey
or Hamming kernel, and a Blackman kernel whose coefficients derive from alpha. -/
theorem ReadKernel_print_comma_separated (nt : NumberText) (init : KernelInit) (x y : Rat)
    (hcomma : ∀ q, ',' ∉ nt.put q)
    (hx : nt.stod (nt.put x) = some x)
    (hxn : nt.stod (nt.put x ++ ['\n']) = some x)
    (hyn : nt.stod (nt.put y ++ ['\n']) = some y) :
    ReadKernel nt init (IStream.ofText ((FilterKernel.tukey x y).print nt)) =
      .ok (.tukey x y) ∧
    ReadKernel nt init (IStream.ofText ((FilterKernel.hamming x y).print nt)) =
      .ok (.hamming x y) ∧
    ReadKernel nt init (IStream.ofText
        ((FilterKernel.blackman x ((1 - x) / 2) (1 / 2) (x / 2)).print nt)) =
      .ok (.blackman x ((1 - x) / 2) (1 / 2) (x / 2)) := by
  have hnc : ∀ q c, c ∈ nt.put q → c ≠ ',' := by
    intro q c hc hcc
    subst hcc
    exact hcomma q hc
  have hncn : ∀ q c, c ∈ nt.put q ++ ['\n'] → c ≠ ',' := by
    intro q c hc
    rcases List.mem_append.1 hc with h | h
    · exact hnc q c h
    · rw [List.mem_singleton.1 h]
      decide
  have hx1 := getline_at_delim (nt.put x) (nt.put y ++ ['\n']) [] ',' (hnc x)
  have hy1 : ∀ str, (IStream.ofText (nt.put y ++ ['\n'])).getline str ',' =
      ({ rest := [], eofbit := true, failbit := false }, nt.put y ++ ['\n']) :=
    fun str => getline_no_delim _ str ',' (hncn y) (by simp)
  have hx2 : (IStream.ofText (nt.put x ++ ['\n'])).getline [] ',' =
      ({ rest := [], eofbit := true, failbit := false }, nt.put x ++ ['\n']) :=
    getline_no_delim _ [] ',' (hncn x) (by simp)
  refine ⟨?_, ?_, ?_⟩
  · have hfirst : (IStream.ofText ((FilterKernel.tukey x y).print nt)).getline [] ',' =
        (IStream.ofText (nt.put x ++ ',' :: (nt.put y ++ ['\n'])), ['T', 'u', 'k', 'e', 'y']) := by
      have := getline_at_delim ['T', 'u', 'k', 'e', 'y'] (nt.put x ++ ',' :: (nt.put y ++ ['\n']))
        [] ',' (by decide)
      simpa [FilterKernel.print] using this
    unfold ReadKernel
    rw [hfirst]
    simp only [if_true]
    unfold TukeyKernel.read
    rw [hx1]
    simp only [hy1, NumberText.parse, hx, hyn, IStream.ofText_eofbit, Bool.not_false, if_true]
  · have hfirst : (IStream.ofText ((FilterKernel.hamming x y).print nt)).getline [] ',' =
        (IStream.ofText (nt.put x ++ ',' :: (nt.put y ++ ['\n'])),
          ['H', 'a', 'm', 'm', 'i', 'n', 'g']) := by
      have := getline_at_delim ['H', 'a', 'm', 'm', 'i', 'n', 'g']
        (nt.put x ++ ',' :: (nt.put y ++ ['\n'])) [] ',' (by decide)
      simpa [FilterKernel.print] using this
    unfold ReadKernel
    rw [hfirst]
    simp only [show (['H', 'a', 'm', 'm', 'i', 'n', 'g'] : List Char) ≠
      ['T', 'u', 'k', 'e', 'y'] by decide, if_false, if_true]
    unfold HammingKernel.read
    rw [hx1]
    simp only [hy1, NumberText.parse, hx, hyn, IStream.ofText_eofbit, Bool.not_false, if_true]
  · have hfirst : (IStream.ofText
        ((FilterKernel.blackman x ((1 - x) / 2) (1 / 2) (x / 2)).print nt)).getline [] ',' =
        (IStream.ofText (nt.put x ++ ['\n']), ['B', 'l', 'a', 'c', 'k', 'm', 'a', 'n']) := by
      have := getline_at_delim ['B', 'l', 'a', 'c', 'k', 'm', 'a', 'n'] (nt.put x ++ ['\n'])
        [] ',' (by decide)
      simpa [FilterKernel.print] using this
    unfold ReadKernel
    rw [hfirst]
    simp only [show (['B', 'l', 'a', 'c', 'k', 'm', 'a', 'n'] : List Char) ≠
        ['T', 'u', 'k', 'e', 'y'] by decide,
      show (['B', 'l', 'a', 'c', 'k', 'm', 'a', 'n'] : List Char) ≠
        ['H', 'a', 'm', 'm', 'i', 'n', 'g'] by decide,
      show (['B', 'l', 'a', 'c', 'k', 'm', 'a', 'n'] : List Char) ≠
        ['G', 'a', 'u', 's', 's'] by decide, if_false, if_true]
    unfold BlackmanKernel.read
    simp only [hx2, NumberText.parse, hxn, IStream.ofText_eofbit, Bool.not_false, if_true]

end QUIT

namespace QUIT

theorem PoolState.step_queue_le (capacity workers : Nat) (st : PoolState) (turn : Turn)
    (h : st.queue.length ≤ capacity) :
    (st.step capacity workers turn).queue.length ≤ capacity := by
  obtain ⟨pending, queue, running, finished⟩ := st
  simp only at h
  cases turn with
  | dispatch =>
      cases pending with
      | nil => exact h
      | cons p ps =>
          simp only [PoolState.step]
          split
          · simp only [List.length_append, List.length_singleton]
            omega
          · exact h
  | start =>
      cases queue with
      | nil => exact h
      | cons p qs =>
          simp only [PoolState.step]
          simp only [List.length_cons] at h
          split
          · simp only
            omega
          · simp only [List.length_cons]
            exact h
  | finish k =>
      simp only [PoolState.step]
      split
      · exact h
      · exact h

theorem count_eraseIdx_add {α : Type} [DecidableEq α] (l : List α) (k : Nat) (p : α)
    (hp : l[k]? = some p) (a : α) :
    List.count a l = List.count a (l.eraseIdx k) + List.count a [p] := by
  obtain ⟨hk, hget⟩ := List.getElem?_eq_some.1 hp
  rw [List.eraseIdx_eq_take_drop_succ]
  conv_lhs => rw [← List.take_append_drop k l, List.drop_eq_getElem_cons hk, hget]
  simp only [List.count_append, List.count_cons, List.count_nil]
  omega

theorem PoolState.step_perm (capacity workers : Nat) (st : PoolState) (turn : Turn) :
    ((st.step capacity workers turn).pending ++ (st.step capacity workers turn).queue ++
      (st.step capacity workers turn).running ++ (st.step capacity workers turn).finished).Perm
    (st.pending ++ st.queue ++ st.running ++ st.finished) := by
  obtain ⟨pending, queue, running, finished⟩ := st
  rw [List.perm_iff_count]
  intro a
  cases turn with
  | dispatch =>
      cases pending with
      | nil => rfl
      | cons p ps =>
          simp only [PoolState.step]
          split
          · simp only [List.count_append, List.count_cons, List.count_nil]
            omega
          · rfl
  | start =>
      cases queue with
      | nil => rfl
      | cons p qs =>
          simp only [PoolState.step]
          split
          · simp only [List.count_append, List.count_cons, List.count_nil]
            omega
          · rfl
  | finish k =>
      simp only [PoolState.step]
      split
      · rfl
      · rename_i p hp
        have hc := count_eraseIdx_add running k p hp a
        simp only [List.count_append]
        omega

theorem PoolState.run_queue_le (capacity workers : Nat) (turns : List Turn) :
    ∀ st : PoolState, st.queue.length ≤ capacity →
      (PoolState.run capacity workers turns st).queue.length ≤ capacity := by
  induction turns with
  | nil => intro st h; exact h
  | cons turn turns ih =>
      intro st h
      exact ih _ (PoolState.step_queue_le capacity workers st turn h)

theorem PoolState.run_perm (capacity workers : Nat) (turns : List Turn) :
    ∀ st : PoolState,
      ((PoolState.run capacity workers turns st).pending ++
        (PoolState.run capacity workers turns st).queue ++
        (PoolState.run capacity workers turns st).running ++
        (PoolState.run capacity workers turns st).finished).Perm
      (st.pending ++ st.queue ++ st.running ++ st.finished) := by
  induction turns with
  | nil => intro st; exact List.Perm.refl _
  | cons turn turns ih =>
      intro st
      exact (ih _).trans (PoolState.step_perm capacity workers st turn)

theorem PoolState.run_serial (capacity workers : Nat) (hc : 0 < capacity) (hw : 0 < workers)
    (units : List Index) :
    ∀ done : List Index,
      PoolState.run capacity workers (serialSchedule units)
        { pending := units, queue := [], running := [], finished := done } =
      { pending := [], queue := [], running := [], finished := done ++ units } := by
  induction units with
  | nil => intro done; simp [serialSchedule, PoolState.run]
  | cons p ps ih =>
      intro done
      have hs : serialSchedule (p :: ps) =
          Turn.dispatch :: Turn.start :: Turn.finish 0 :: serialSchedule ps := by
        simp [serialSchedule]
      rw [hs]
      simp only [PoolState.run, PoolState.step, List.length_nil, hc, hw, if_true,
        List.nil_append, List.getElem?_cons_zero, List.eraseIdx_cons_zero]
      rw [ih]
      simp

/-- C14. In the bounded-queue worker pool as the specification describes it, an
`enqueue` on a queue at capacity blocks the dispatch thread: its turn changes
nothing until a worker has pulled a unit of work.  Hence, whatever the schedule
of the dispatch thread and the workers is, at every point of a run the number
of queued and not yet started units is at most the capacity.  No unit is lost
or duplicated, and blocking cannot stall the run: with a capacity and a worker
count of at least one there is a schedule that completes every unit. -/
theorem queue_never_exceeds_capacity (capacity workers : Nat) (units : List Index)
    (turns : List Turn) :
    (PoolState.run capacity workers turns (PoolState.initial units)).queue.length ≤ capacity ∧
    ((PoolState.run capacity workers turns (PoolState.initial units)).queue.length = capacity →
      (PoolState.run capacity workers turns (PoolState.initial units)).step capacity workers
        Turn.dispatch = PoolState.run capacity workers turns (PoolState.initial units)) ∧
    (∀ turn,
      ((PoolState.run capacity workers turns (PoolState.initial units)).step capacity workers
        turn).queue.length <
        (PoolState.run capacity workers turns (PoolState.initial units)).queue.length →
      turn = Turn.start) ∧
    ((PoolState.run capacity workers turns (PoolState.initial units)).pending ++
      (PoolState.run capacity workers turns (PoolState.initial units)).queue ++
      (PoolState.run capacity workers turns (PoolState.initial units)).running ++
      (PoolState.run capacity workers turns (PoolState.initial units)).finished).Perm units ∧
    (0 < capacity → 0 < workers →
      PoolState.run capacity workers (serialSchedule units) (PoolState.initial units) =
        { pending := [], queue := [], running := [], finished := units }) := by
  refine ⟨PoolState.run_queue_le capacity workers turns _ (Nat.zero_le _), ?_, ?_, ?_, ?_⟩
  · intro hfull
    generalize PoolState.run capacity workers turns (PoolState.initial units) = st at hfull ⊢
    obtain ⟨pending, queue, running, finished⟩ := st
    simp only at hfull
    cases pending with
    | nil => rfl
    | cons p ps =>
        simp only [PoolState.step]
        rw [if_neg (by omega)]
  · intro turn
    generalize PoolState.run capacity workers turns (PoolState.initial units) = st
    obtain ⟨pending, queue, running, finished⟩ := st
    intro hlt
    cases turn with
    | start => rfl
    | dispatch =>
        exfalso
        cases pending with
        | nil => simp [PoolState.step] at hlt
        | cons p ps =>
            simp only [PoolState.step] at hlt
            split at hlt
            · simp only [List.length_append, List.length_singleton] at hlt
              omega
            · simp only at hlt
              omega
    | finish k =>
        exfalso
        simp only [PoolState.step] at hlt
        split at hlt <;> simp at hlt
  · have h := PoolState.run_perm capacity workers turns (PoolState.initial units)
    simpa [PoolState.initial] using h
  · intro hc hw
    have h := PoolState.run_serial capacity workers hc hw units []
    simpa [PoolState.initial] using h

/-- C14, example: three units, a queue of capacity one and one worker; after
the first `enqueue` the queue is full and the next two turns of the dispatch
thread change nothing, until the worker has pulled the queued unit. -/
theorem queue_never_exceeds_capacity_witness :
    (PoolState.run 1 1 [Turn.dispatch, Turn.dispatch, Turn.dispatch]
      (PoolState.initial [[0], [1], [2]])).queue.length ≤ 1 ∧
    (PoolState.run 1 1 [Turn.dispatch, Turn.dispatch, Turn.dispatch]
      (PoolState.initial [[0], [1], [2]])).queue = [[0]] ∧
    (PoolState.run 1 1 [Turn.dispatch, Turn.dispatch, Turn.start, Turn.dispatch]
      (PoolState.initial [[0], [1], [2]])).queue = [[1]] :=
  ⟨(queue_never_exceeds_capacity 1 1 [[0], [1], [2]]
      [Turn.dispatch, Turn.dispatch, Turn.dispatch]).1, by decide, by decide⟩

end QUIT

namespace QUIT
open ApplyAlgorithmFilter

/-- C11, witness: the test scenario with all residuals requested; the
all-residuals volume gets the geometry of the data channel and two components. -/
theorem configured_outputs_share_geometry_witness :
    (∃ img, residsFilter.GenerateOutputInformation.filter.GetAllResidualsOutput = some img ∧
      SharesGeometry img dataImage ∧ img.ncomp = residsFilter.declaredInputSize) ∧
    residsFilter.declaredInputSize = 2 ∧
    (∃ img, residsFilter.GenerateOutputInformation.filter.GetResidualOutput = some img ∧
      SharesGeometry img dataImage) :=
  have h := configured_outputs_share_geometry residsFilter dataImage rfl (by decide)
  ⟨h.2.2.2 rfl, by decide, h.2.1⟩

/-- C15, failing input: the 2 x 2 x 1 scenario with the one-voxel mask and
all-residuals disabled stops at the first masked-out voxel, (1, 0, 0), with the
write through the unbound all-residuals iterator. -/
theorem inactive_branch_writes_through_unbound_iterator_witness :
    (maskedPlainConfigured.GenerateData 0).error = some .nullDereference ∧
    (maskedPlainConfigured.GenerateData 0).visited = [[0, 0, 0], [1, 0, 0]] :=
  ⟨(inactive_branch_writes_through_unbound_iterator maskedPlainConfigured 0 dataImage
      [1, 0, 0] (by decide) rfl (by decide) (by unfold IteratorsBound; decide) rfl
      (by decide) (by decide)).1, by decide⟩

end QUIT

namespace QUIT
variable {V : Type}
namespace ApplyAlgorithmFilter

theorem writeInactiveTraced_eq [Zero V] (f : ApplyAlgorithmFilter V) (p : Index) :
    f.writeInactiveTraced p =
      { f with outputs := fun slot => zeroSlotTraced f p slot (f.outputs slot) } := by
  unfold writeInactiveTraced
  simp only [zeroOutputs_eq]
  cases hres : f.allResiduals
  · simp only [Bool.false_eq_true, if_false, writeResidual_eq, writeIterations_eq, mk.injEq,
      true_and, and_true]
    funext slot
    simp only [zeroSlotTraced, zeroSlot, AllResidualsOutput, ResidualOutput, IterationsOutput,
      StartOutputs, hres, and_true]
    by_cases h2 : slot = 2
    · subst h2; simp
    · by_cases h0 : slot = 0
      · subst h0; simp
      · by_cases h1 : slot = 1
        · subst h1; simp
        · by_cases h3 : slot < f.algorithm.numOutputs + 3
          · have : 3 ≤ slot := by omega
            simp [h0, h1, h2, h3, this]
          · simp [h0, h1, h2, h3]
  · simp only [if_true, writeAllResiduals_eq, writeResidual_eq, writeIterations_eq, mk.injEq,
      true_and, and_true]
    funext slot
    simp only [zeroSlotTraced, zeroSlot, AllResidualsOutput, ResidualOutput, IterationsOutput,
      StartOutputs, hres, Bool.true_eq_false, and_false, if_false]
    by_cases h2 : slot = 2
    · subst h2; simp
    · by_cases h0 : slot = 0
      · subst h0; simp
      · by_cases h1 : slot = 1
        · subst h1; simp
        · by_cases h3 : slot < f.algorithm.numOutputs + 3
          · have : 3 ≤ slot := by omega
            simp [h0, h1, h2, h3, this]
          · simp [h0, h1, h2, h3]

theorem zeroSlotsTraced_nil [Zero V] (f : ApplyAlgorithmFilter V) (slot : Nat)
    (o : Option (DataObject V)) : zeroSlotsTraced f [] slot o = o := by
  unfold zeroSlotsTraced
  rw [zeroSlots_nil, ite_self]

theorem zeroSlotsTraced_cons [Zero V] (f : ApplyAlgorithmFilter V) (p : Index) (L : List Index)
    (slot : Nat) (o : Option (DataObject V)) :
    zeroSlotsTraced f L slot (zeroSlotTraced f p slot o) = zeroSlotsTraced f (p :: L) slot o := by
  unfold zeroSlotsTraced zeroSlotTraced
  split
  · rfl
  · exact zeroSlots_cons f p L slot o

theorem zeroSlotsTraced_of_ne [Zero V] (f : ApplyAlgorithmFilter V) (L : List Index)
    (slot : Nat) (o : Option (DataObject V)) (h : slot ≠ AllResidualsOutput) :
    zeroSlotsTraced f L slot o = zeroSlots f L slot o := by
  unfold zeroSlotsTraced
  rw [if_neg (fun hc => h hc.1)]

theorem zeroSlotsTraced_of_bound [Zero V] (f : ApplyAlgorithmFilter V) (L : List Index)
    (slot : Nat) (o : Option (DataObject V))
    (h : f.allResiduals = true ∨ L = []) :
    zeroSlotsTraced f L slot o = zeroSlots f L slot o := by
  rcases h with h | h
  · unfold zeroSlotsTraced
    rw [if_neg (fun hc => by rw [h] at hc; cases hc.2)]
  · subst h
    rw [zeroSlotsTraced_nil, zeroSlots_nil]

theorem dispatchLoopTraced_eq [DecidableEq V] [Zero V] (mask : Option (Image V))
    (L : List Index) :
    ∀ st : TracedRun V,
      dispatchLoopTraced mask L st =
        { filter := { st.filter with outputs := (fun slot =>
            zeroSlotsTraced st.filter (L.filter (fun q => !isActive mask q)) slot
              (st.filter.outputs slot)) }
          error := st.error
          visited := st.visited ++ L
          submitted := st.submitted ++ L.filter (isActive mask)
          progress := st.progress + (L.filter (isActive mask)).length
          unboundWrites := st.unboundWrites ++
            (if st.filter.allResiduals then [] else L.filter (fun q => !isActive mask q)) } := by
  induction L with
  | nil =>
      intro st
      obtain ⟨f, e, vis, sub, pr, ub⟩ := st
      cases f
      simp only [dispatchLoopTraced, List.filter_nil, List.append_nil, List.length_nil,
        Nat.add_zero, ite_self, TracedRun.mk.injEq, mk.injEq, true_and, and_true]
      funext slot
      rw [zeroSlotsTraced_nil]
  | cons p L ih =>
      intro st
      obtain ⟨f, e, vis, sub, pr, ub⟩ := st
      by_cases hact : isActive mask p = true
      · rw [dispatchLoopTraced]
        simp only [dispatchStepTraced, hact, if_true]
        rw [ih]
        simp [hact, Nat.add_assoc, Nat.add_comm 1]
      · have hact2 : isActive mask p = false := by simpa using hact
        rw [dispatchLoopTraced]
        simp only [dispatchStepTraced, hact2, Bool.false_eq_true, if_false]
        rw [ih, writeInactiveTraced_eq]
        simp only [hact2, TracedRun.mk.injEq, mk.injEq, true_and, List.append_assoc,
          List.singleton_append, Bool.not_false, List.filter_cons_of_pos,
          Bool.false_eq_true, not_false_eq_true, List.filter_cons_of_neg, and_true]
        refine ⟨?_, ?_⟩
        · funext slot
          refine Eq.trans ?_ (zeroSlotsTraced_cons f p _ slot (f.outputs slot))
          unfold zeroSlotsTraced
          rfl
        · cases f.allResiduals <;> simp

end ApplyAlgorithmFilter
end QUIT

namespace QUIT
variable {V : Type}
namespace ApplyAlgorithmFilter

theorem GenerateDataTraced_completes [DecidableEq V] [Zero V] (f : ApplyAlgorithmFilter V)
    (t : Rat) (input : Image (List V))
    (hpos : 0 < f.algorithm.numInputs) (hin : castVector (f.inputs 0) = some input)
    (hsub : f.hasSubregion = true → input.region.IsInside f.subregion = true)
    (hb : f.IteratorsBound) :
    f.GenerateDataTraced t =
      { filter := { f with
          unmaskedVoxels := activeCount f.GetMask (f.activeRegion input)
          elapsedTime := t
          outputs := (fun slot =>
            taskSlots f ((f.activeRegion input).indices.filter (isActive f.GetMask)) slot
              (zeroSlotsTraced f ((f.activeRegion input).indices.filter
                (fun q => !isActive f.GetMask q)) slot (f.outputs slot))) }
        error := none
        visited := (f.activeRegion input).indices
        submitted := (f.activeRegion input).indices.filter (isActive f.GetMask)
        progress := ((f.activeRegion input).indices.filter (isActive f.GetMask)).length
        unboundWrites :=
          (if f.allResiduals then []
            else (f.activeRegion input).indices.filter (fun q => !isActive f.GetMask q)) } := by
  have hnot : (f.hasSubregion && !input.region.IsInside f.subregion) = false := by
    cases hs : f.hasSubregion with
    | false => rfl
    | true => rw [hsub hs]; rfl
  unfold GenerateDataTraced
  simp only [GetInput, hpos, if_true, hin, hnot, Bool.false_eq_true, if_false]
  rw [activeCount_eq]
  have hb1 : bindIterators
      { f with unmaskedVoxels := (activeCount f.GetMask (f.activeRegion input)) } = .ok () :=
    (bindIterators_ok_iff _).2 hb
  rw [hb1]
  simp only
  rw [dispatchLoopTraced_eq]
  simp only [List.nil_append, Nat.zero_add, drain_eq, TracedRun.mk.injEq, mk.injEq, true_and,
    and_true]
  funext slot
  refine (taskSlots_config f _ ?_ ?_ ?_ _ _ _).trans ?_ <;> rfl

theorem GenerateDataTraced_ok_inv [DecidableEq V] [Zero V] (f : ApplyAlgorithmFilter V)
    (t : Rat) (h : (f.GenerateDataTraced t).error = none) :
    ∃ input, 0 < f.algorithm.numInputs ∧ castVector (f.inputs 0) = some input ∧
      (f.hasSubregion = true → input.region.IsInside f.subregion = true) ∧
      f.IteratorsBound := by
  unfold GenerateDataTraced GetInput at h
  by_cases hpos : 0 < f.algorithm.numInputs
  · rw [if_pos hpos] at h
    cases hin : castVector (f.inputs 0) with
    | none => rw [hin] at h; cases h
    | some input =>
        rw [hin] at h
        simp only at h
        by_cases hnot : (f.hasSubregion && !input.region.IsInside f.subregion) = true
        · rw [if_pos hnot] at h; cases h
        · rw [if_neg hnot] at h
          have hsub : f.hasSubregion = true → input.region.IsInside f.subregion = true := by
            intro hs
            cases hi : input.region.IsInside f.subregion with
            | true => rfl
            | false => simp [hs, hi] at hnot
          rcases bindIterators_ok_or_error
            ({ f with unmaskedVoxels :=
                (match f.GetMask with
                | some m => countMask m (f.activeRegion input).indices 0
                | none => (f.activeRegion input).GetNumberOfPixels) }) with hb | ⟨e, hb⟩
          · have hbound0 := (bindIterators_ok_iff _).1 hb
            have hbound : f.IteratorsBound := hbound0
            exact ⟨input, hpos, rfl, hsub, hbound⟩
          · rw [hb] at h; cases h
  · rw [if_neg hpos] at h; cases h

/-- The statement-by-statement reading returns exactly when data channel 0 and
every other bound image exist and a supplied sub-region is inside the full
extent, whatever the mask and the all-residuals flag. -/
theorem GenerateDataTraced_completes_iff [DecidableEq V] [Zero V] (f : ApplyAlgorithmFilter V)
    (t : Rat) :
    (f.GenerateDataTraced t).error = none ↔
      ∃ input, 0 < f.algorithm.numInputs ∧ castVector (f.inputs 0) = some input ∧
        (f.hasSubregion = true → input.region.IsInside f.subregion = true) ∧
        f.IteratorsBound := by
  constructor
  · exact GenerateDataTraced_ok_inv f t
  · rintro ⟨input, hpos, hin, hsub, hb⟩
    rw [GenerateDataTraced_completes f t input hpos hin hsub hb]

theorem GenerateDataTraced_result [DecidableEq V] [Zero V] (f : ApplyAlgorithmFilter V)
    (t : Rat) (input : Image (List V))
    (hin : castVector (f.inputs 0) = some input)
    (h : (f.GenerateDataTraced t).error = none) :
    f.IteratorsBound ∧
    (f.hasSubregion = true → input.region.IsInside f.subregion = true) ∧
    f.GenerateDataTraced t =
      { filter := { f with
          unmaskedVoxels := activeCount f.GetMask (f.activeRegion input)
          elapsedTime := t
          outputs := (fun slot =>
            taskSlots f ((f.activeRegion input).indices.filter (isActive f.GetMask)) slot
              (zeroSlotsTraced f ((f.activeRegion input).indices.filter
                (fun q => !isActive f.GetMask q)) slot (f.outputs slot))) }
        error := none
        visited := (f.activeRegion input).indices
        submitted := (f.activeRegion input).indices.filter (isActive f.GetMask)
        progress := ((f.activeRegion input).indices.filter (isActive f.GetMask)).length
        unboundWrites :=
          (if f.allResiduals then []
            else (f.activeRegion input).indices.filter (fun q => !isActive f.GetMask q)) } := by
  obtain ⟨input1, hpos, hin1, hsub, hb⟩ := GenerateDataTraced_ok_inv f t h
  rw [hin] at hin1
  cases hin1
  exact ⟨hb, hsub, GenerateDataTraced_completes f t input hpos hin hsub hb⟩

theorem filter_not_active_eq_nil [DecidableEq V] [Zero V] (mask : Option (Image V))
    (L : List Index) (h : ∀ q, q ∈ L → isActive mask q = true) :
    L.filter (fun q => !isActive mask q) = [] := by
  apply List.filter_eq_nil_iff.2
  intro q hq
  simp [h q hq]

/-- Where the run of `GenerateData` completes, the statement-by-statement
reading made no write through the unbound iterator and gives the same state. -/
theorem GenerateData_eq_traced [DecidableEq V] [Zero V] (f : ApplyAlgorithmFilter V)
    (t : Rat) (h : (f.GenerateData t).error = none) :
    (f.GenerateDataTraced t).error = none ∧
    (f.GenerateDataTraced t).unboundWrites = [] ∧
    (f.GenerateDataTraced t).filter = (f.GenerateData t).filter ∧
    (f.GenerateDataTraced t).visited = (f.GenerateData t).visited ∧
    (f.GenerateDataTraced t).submitted = (f.GenerateData t).submitted ∧
    (f.GenerateDataTraced t).progress = (f.GenerateData t).progress := by
  obtain ⟨input, hpos, hin, hsub, hb, hC⟩ := GenerateDataScheduled_ok_inv f t id h
  have hZ : f.allResiduals = true ∨
      (f.activeRegion input).indices.filter (fun q => !isActive f.GetMask q) = [] := by
    rcases hC with hC | hC
    · exact Or.inl hC
    · exact Or.inr (filter_not_active_eq_nil _ _ hC)
  unfold GenerateData
  rw [GenerateDataScheduled_completes f t id input hpos hin hsub hb hC,
    GenerateDataTraced_completes f t input hpos hin hsub hb]
  refine ⟨rfl, ?_, ?_, rfl, rfl, rfl⟩
  · simp only
    rcases hZ with hZ | hZ
    · rw [hZ]; rfl
    · rw [hZ, ite_self]
  · simp only [id, mk.injEq, true_and, and_true]
    funext slot
    rw [zeroSlotsTraced_of_bound f _ slot _ hZ]

/-- The run of `GenerateData` completes exactly when the statement-by-statement
reading returns without a write through the unbound iterator. -/
theorem GenerateData_completes_iff_traced [DecidableEq V] [Zero V]
    (f : ApplyAlgorithmFilter V) (t : Rat) :
    (f.GenerateData t).error = none ↔
      (f.GenerateDataTraced t).error = none ∧ (f.GenerateDataTraced t).unboundWrites = [] := by
  constructor
  · intro h
    exact ⟨(GenerateData_eq_traced f t h).1, (GenerateData_eq_traced f t h).2.1⟩
  · rintro ⟨h1, h2⟩
    obtain ⟨input, hpos, hin, hsub, hb⟩ := GenerateDataTraced_ok_inv f t h1
    rw [GenerateDataTraced_completes f t input hpos hin hsub hb] at h2
    simp only at h2
    apply (GenerateData_completes_iff f t).2
    refine ⟨input, hpos, hin, hsub, hb, ?_⟩
    cases hres : f.allResiduals with
    | true => exact Or.inl rfl
    | false =>
        right
        rw [hres] at h2
        simp only [Bool.false_eq_true, if_false] at h2
        intro q hq
        cases ha : isActive f.GetMask q with
        | true => rfl
        | false =>
            have : q ∈ (f.activeRegion input).indices.filter (fun q => !isActive f.GetMask q) :=
              List.mem_filter.2 ⟨hq, by simp [ha]⟩
            rw [h2] at this
            cases this

theorem read_allResiduals_traced [Zero V] (f : ApplyAlgorithmFilter V) (A Z : List Index)
    (q : Index) (o : Option (DataObject V)) :
    (castVector (taskSlots f A AllResidualsOutput
        (zeroSlotsTraced f Z AllResidualsOutput o))).map (fun img => img.pix q) =
      (castVector o).map (fun img =>
        if f.allResiduals = true then
          (if q ∈ A then (f.applyAt q).resids
            else if q ∈ Z then List.replicate f.algorithm.dataSize 0 else img.pix q)
        else img.pix q) := by
  cases hres : f.allResiduals
  · unfold taskSlots zeroSlotsTraced
    simp [IterationsOutput, AllResidualsOutput, hres]
  · rw [zeroSlotsTraced_of_bound f Z _ o (Or.inl hres), read_allResiduals]
    simp [hres]

end ApplyAlgorithmFilter
end QUIT

namespace QUIT
variable {V : Type}
namespace ApplyAlgorithmFilter

theorem isActive_eq_match [DecidableEq V] [Zero V] (mask : Option (Image V)) (q : Index) :
    isActive mask q =
      (match mask with
        | none => true
        | some m => decide (m.pix q ≠ 0)) := rfl

theorem not_isActive_eq_match [DecidableEq V] [Zero V] (mask : Option (Image V)) (q : Index) :
    (!isActive mask q) =
      (match mask with
        | none => false
        | some m => decide (m.pix q = 0)) := by
  cases mask with
  | none => rfl
  | some m => simp [isActive]

/-- C3. When `GenerateData`, read statement by statement, returns with a mask,
then at every position `p` of the processed region (the sub-region when one is
set, else the full extent of data channel 0) whose mask value is zero every
parameter output, the residual and the iteration count are zero, whether
all-residuals is enabled or not.  With all-residuals enabled the all-residuals
vector at `p` has `dataSize` components, all zero; with all-residuals disabled
the run leaves the all-residuals slot at `p` as it was and `p` is one of the
positions of a write through the unbound iterator; so in either case, if no
component of the all-residuals vector at `p` was non-zero before the run (as
for the empty vector of the volume that configure leaves unallocated), none is
after it.  Where the run of
`GenerateData` completes, all-residuals is enabled and its final filter state
is the same one. -/
theorem masked_voxel_holds_zero [DecidableEq V] [Zero V] (f : ApplyAlgorithmFilter V)
    (t : Rat) (input : Image (List V)) (mask : Image V) (p : Index)
    (hin : castVector (f.inputs 0) = some input)
    (hmask : castScalar (f.inputs f.algorithm.numInputs) = some mask)
    (hrun : (f.GenerateDataTraced t).error = none)
    (hp : p ∈ (if f.hasSubregion then f.subregion else input.region).indices)
    (hzero : mask.pix p = 0) :
    (∀ k, k < f.algorithm.numOutputs →
      (f.GenerateDataTraced t).filter.outputAt k p = some 0) ∧
    (f.GenerateDataTraced t).filter.residualAt p = some 0 ∧
    (f.GenerateDataTraced t).filter.iterationsAt p = some 0 ∧
    (f.allResiduals = true →
      ∃ v, (f.GenerateDataTraced t).filter.allResidualsAt p = some v ∧
        v.length = f.algorithm.dataSize ∧ ∀ c, c ∈ v → c = 0) ∧
    (f.allResiduals = false →
      (f.GenerateDataTraced t).filter.allResidualsAt p = f.allResidualsAt p ∧
      p ∈ (f.GenerateDataTraced t).unboundWrites) ∧
    ((∀ v, f.allResidualsAt p = some v → ∀ c, c ∈ v → c = 0) →
      ∀ v, (f.GenerateDataTraced t).filter.allResidualsAt p = some v → ∀ c, c ∈ v → c = 0) ∧
    ((f.GenerateData t).error = none →
      f.allResiduals = true ∧
      (f.GenerateData t).filter = (f.GenerateDataTraced t).filter) := by
  have hmask1 : f.GetMask = some mask := hmask
  have hp1 : p ∈ (f.activeRegion input).indices := hp
  have hinactive : isActive f.GetMask p = false := by
    rw [hmask1]
    simp [isActive, hzero]
  obtain ⟨hb, _, heq⟩ := GenerateDataTraced_result f t input hin hrun
  obtain ⟨_, hbo, hba, hbr, hbi⟩ := hb
  have hA : p ∉ (f.activeRegion input).indices.filter (isActive f.GetMask) := by
    intro h
    rw [(List.mem_filter.1 h).2] at hinactive
    cases hinactive
  have hZ : p ∈ (f.activeRegion input).indices.filter (fun q => !isActive f.GetMask q) :=
    List.mem_filter.2 ⟨hp1, by simp [hinactive]⟩
  have hbridge : (f.GenerateData t).error = none →
      f.allResiduals = true ∧
      (f.GenerateData t).filter = (f.GenerateDataTraced t).filter := by
    intro hgd
    refine ⟨?_, (GenerateData_eq_traced f t hgd).2.2.1.symm⟩
    obtain ⟨input1, _, hin1, _, _, hC⟩ := (GenerateData_completes_iff f t).1 hgd
    rw [hin] at hin1
    cases hin1
    rcases hC with h | h
    · exact h
    · rw [h p hp1] at hinactive; cases hinactive
  have hoff : f.allResiduals = false →
      (f.GenerateDataTraced t).filter.allResidualsAt p = f.allResidualsAt p := by
    intro hres
    rw [heq]
    simp only [allResidualsAt]
    rw [read_allResiduals_traced]
    simp [hres]
  have hon : f.allResiduals = true →
      (f.GenerateDataTraced t).filter.allResidualsAt p =
        some (List.replicate f.algorithm.dataSize 0) := by
    intro hres
    rw [heq]
    simp only [allResidualsAt]
    rw [read_allResiduals_traced]
    exact isSome_map_eq _ _ _ (hba hres) (fun a _ => by simp [hres, hA, hZ])
  refine ⟨?_, ?_, ?_, ?_, ?_, ?_, hbridge⟩
  · intro k hk
    rw [heq]
    simp only [outputAt]
    rw [zeroSlotsTraced_of_ne f _ _ _ (by simp [StartOutputs, AllResidualsOutput]), read_output]
    exact isSome_map_eq _ _ _ (hbo k hk) (fun a _ => by simp [hk, hA, hZ])
  · rw [heq]
    simp only [residualAt]
    rw [zeroSlotsTraced_of_ne f _ _ _ (by simp [ResidualOutput, AllResidualsOutput]),
      read_residual]
    exact isSome_map_eq _ _ _ hbr (fun a _ => by simp [hA, hZ])
  · rw [heq]
    simp only [iterationsAt]
    rw [zeroSlotsTraced_of_ne f _ _ _ (by simp [IterationsOutput, AllResidualsOutput]),
      read_iterations]
    exact isSome_map_eq _ _ _ hbi (fun a _ => by simp [hA, hZ])
  · intro hres
    exact ⟨List.replicate f.algorithm.dataSize 0, hon hres, List.length_replicate _ _,
      fun c hc => List.eq_of_mem_replicate hc⟩
  · intro hres
    refine ⟨hoff hres, ?_⟩
    rw [heq]
    simp only [hres, Bool.false_eq_true, if_false]
    exact hZ
  · intro hpre v hv c hc
    cases hres : f.allResiduals with
    | false =>
        rw [hoff hres] at hv
        exact hpre v hv c hc
    | true =>
        rw [hon hres] at hv
        cases hv
        exact List.eq_of_mem_replicate hc

/-- C7. For every configuration that passes the setup of `GenerateData` (data
channel 0 exists, a supplied sub-region is inside its extent, every image an
iterator is bound to exists), with or without a mask and whatever the
all-residuals flag, the dispatch loop read statement by statement returns, and
it visits the positions of the processed region (the sub-region when one is
set, else the full extent of data channel 0) in row-major scan order, each
exactly once.  The submitted units are exactly the positions at which there is
no mask or the mask value is non-zero, each once and in scan order, and none
for a masked-out position; the progress reporter is advanced once per
submitted unit, and both counts equal `GetEvaluations`.  The writes through the
unbound all-residuals iterator are made at the masked-out positions when
all-residuals is off.  Where the run of `GenerateData` completes it has the
same visits, units and progress count. -/
theorem dispatch_visits_each_position_once [DecidableEq V] [Zero V]
    (f : ApplyAlgorithmFilter V) (t : Rat) (input : Image (List V)) (mask : Option (Image V))
    (hpos : 0 < f.algorithm.numInputs)
    (hin : castVector (f.inputs 0) = some input)
    (hmask : castScalar (f.inputs f.algorithm.numInputs) = mask)
    (hsub : f.hasSubregion = true → input.region.IsInside f.subregion = true)
    (hb : f.IteratorsBound) :
    (f.GenerateDataTraced t).error = none ∧
    (f.GenerateDataTraced t).visited =
      (if f.hasSubregion then f.subregion else input.region).indices ∧
    (f.GenerateDataTraced t).visited.Pairwise scanBefore ∧
    (f.GenerateDataTraced t).visited.Nodup ∧
    (∀ p, p ∈ (f.GenerateDataTraced t).visited ↔
      (if f.hasSubregion then f.subregion else input.region).IsInsideIndex p = true) ∧
    (f.GenerateDataTraced t).submitted =
      (f.GenerateDataTraced t).visited.filter
        (fun p => match mask with
          | none => true
          | some m => decide (m.pix p ≠ 0)) ∧
    (f.GenerateDataTraced t).submitted.Nodup ∧
    (∀ p, p ∈ (f.GenerateDataTraced t).submitted ↔
      (if f.hasSubregion then f.subregion else input.region).IsInsideIndex p = true ∧
        ∀ m, mask = some m → m.pix p ≠ 0) ∧
    (f.GenerateDataTraced t).progress = (f.GenerateDataTraced t).submitted.length ∧
    (f.GenerateDataTraced t).submitted.length =
      (f.GenerateDataTraced t).filter.GetEvaluations ∧
    (f.GenerateDataTraced t).unboundWrites =
      (if f.allResiduals then []
        else (f.GenerateDataTraced t).visited.filter
          (fun p => match mask with
            | none => false
            | some m => decide (m.pix p = 0))) ∧
    ((f.GenerateData t).error = none →
      (f.GenerateData t).visited = (f.GenerateDataTraced t).visited ∧
      (f.GenerateData t).submitted = (f.GenerateDataTraced t).submitted ∧
      (f.GenerateData t).progress = (f.GenerateDataTraced t).progress) := by
  have hbridge : (f.GenerateData t).error = none →
      (f.GenerateData t).visited = (f.GenerateDataTraced t).visited ∧
      (f.GenerateData t).submitted = (f.GenerateDataTraced t).submitted ∧
      (f.GenerateData t).progress = (f.GenerateDataTraced t).progress := by
    intro hgd
    obtain ⟨_, _, _, h1, h2, h3⟩ := GenerateData_eq_traced f t hgd
    exact ⟨h1.symm, h2.symm, h3.symm⟩
  have hmask1 : f.GetMask = mask := hmask
  refine ⟨?_, ?_, ?_, ?_, ?_, ?_, ?_, ?_, ?_, ?_, ?_, hbridge⟩ <;>
    rw [GenerateDataTraced_completes f t input hpos hin hsub hb] <;>
    simp only [hmask1]
  · rfl
  · exact Region.pairwise_indices _
  · exact Region.nodup_indices _
  · exact fun p => Region.mem_indices _ p
  · rfl
  · exact List.Nodup.filter _ (Region.nodup_indices _)
  · intro p
    rw [List.mem_filter, isActive_eq_match]
    refine and_congr (Region.mem_indices _ p) ?_
    cases mask with
    | none => simp
    | some m => simp
  · rfl
  · cases f.allResiduals with
    | true => rfl
    | false =>
        simp only [Bool.false_eq_true, if_false]
        exact List.filter_congr (fun q _ => not_isActive_eq_match mask q)

end ApplyAlgorithmFilter
end QUIT

namespace QUIT
open ApplyAlgorithmFilter

/-- C3, witness: the volumes hold the non-zero results of an earlier run
(output 12, residual 7, five iterations, residuals 3 and 4 at position
(1, 1, 0)); the run with the one-voxel mask writes zero over them at the
masked-out position (1, 1, 0), with all-residuals off and with all-residuals
on, and leaves the computed value at the active position (0, 0, 0).  In the
configured scenario with all-residuals off the all-residuals vector at a
masked-out position is the empty vector. -/
theorem masked_voxel_holds_zero_witness :
    rerunPlain.allResiduals = false ∧
    rerunPlain.outputAt 0 [1, 1, 0] = some 12 ∧
    rerunPlain.residualAt [1, 1, 0] = some 7 ∧
    rerunPlain.iterationsAt [1, 1, 0] = some 5 ∧
    (rerunPlain.GenerateDataTraced 0).filter.outputAt 0 [1, 1, 0] = some 0 ∧
    (rerunPlain.GenerateDataTraced 0).filter.residualAt [1, 1, 0] = some 0 ∧
    (rerunPlain.GenerateDataTraced 0).filter.iterationsAt [1, 1, 0] = some 0 ∧
    (rerunPlain.GenerateDataTraced 0).filter.outputAt 0 [0, 0, 0] = some 1 ∧
    rerunResids.allResiduals = true ∧
    rerunResids.allResidualsAt [1, 1, 0] = some [3, 4] ∧
    (∃ v, (rerunResids.GenerateDataTraced 0).filter.allResidualsAt [1, 1, 0] = some v ∧
      v.length = 2 ∧ ∀ c, c ∈ v → c = 0) ∧
    (rerunResids.GenerateDataTraced 0).filter.allResidualsAt [1, 1, 0] = some [0, 0] ∧
    (rerunResids.GenerateData 0).filter.outputAt 0 [1, 1, 0] = some 0 ∧
    (maskedPlainConfigured.GenerateDataTraced 0).filter.allResidualsAt [1, 0, 0] = some [] ∧
    (∀ v, (maskedPlainConfigured.GenerateDataTraced 0).filter.allResidualsAt [1, 0, 0] = some v →
      ∀ c, c ∈ v → c = 0) :=
  have h := masked_voxel_holds_zero rerunPlain 0 dataImage maskImage [1, 1, 0] rfl rfl
    (by decide) (by decide) (by decide)
  have h2 := masked_voxel_holds_zero rerunResids 0 dataImage maskImage [1, 1, 0] rfl rfl
    (by decide) (by decide) (by decide)
  have h3 := masked_voxel_holds_zero maskedPlainConfigured 0 dataImage maskImage [1, 0, 0]
    rfl rfl (by decide) (by decide) (by decide)
  ⟨by decide, by decide, by decide, by decide, h.1 0 (by decide), h.2.1, h.2.2.1, by decide,
    by decide, by decide, h2.2.2.2.1 rfl, by decide, by decide, by decide,
    h3.2.2.2.2.2.1 (by decide)⟩

/-- C7, witness: the 2 x 2 x 1 volume with the one-voxel mask and all-residuals
off: four visits in scan order, one unit of work, for position (0, 0, 0), one
progress advance, and a write through the unbound iterator at each of the three
masked-out positions.  Without a mask: four visits and four units. -/
theorem dispatch_visits_each_position_once_witness :
    maskedPlainConfigured.allResiduals = false ∧
    (maskedPlainConfigured.GenerateDataTraced 0).error = none ∧
    (maskedPlainConfigured.GenerateDataTraced 0).visited =
      [[0, 0, 0], [1, 0, 0], [0, 1, 0], [1, 1, 0]] ∧
    (maskedPlainConfigured.GenerateDataTraced 0).submitted = [[0, 0, 0]] ∧
    (maskedPlainConfigured.GenerateDataTraced 0).progress = 1 ∧
    (maskedPlainConfigured.GenerateDataTraced 0).filter.GetEvaluations = 1 ∧
    (maskedPlainConfigured.GenerateDataTraced 0).unboundWrites =
      [[1, 0, 0], [0, 1, 0], [1, 1, 0]] ∧
    (sumConfigured.GenerateDataTraced 0).submitted =
      [[0, 0, 0], [1, 0, 0], [0, 1, 0], [1, 1, 0]] ∧
    (sumConfigured.GenerateData 0).visited = [[0, 0, 0], [1, 0, 0], [0, 1, 0], [1, 1, 0]] :=
  have h := dispatch_visits_each_position_once maskedPlainConfigured 0 dataImage
    (some maskImage) (by decide) rfl rfl (by decide) (by unfold IteratorsBound; decide)
  have h0 := dispatch_visits_each_position_once sumConfigured 0 dataImage none
    (by decide) rfl rfl (by decide) (by unfold IteratorsBound; decide)
  ⟨by decide, h.1, h.2.1.trans (by decide), h.2.2.2.2.2.1.trans (by decide),
    h.2.2.2.2.2.2.2.2.1.trans (by decide), h.2.2.2.2.2.2.2.2.2.1.symm.trans (by decide),
    h.2.2.2.2.2.2.2.2.2.2.1.trans (by decide), h0.2.2.2.2.2.1.trans (by decide),
    (h0.2.2.2.2.2.2.2.2.2.2.2 (by decide)).1.trans (h0.2.1.trans (by decide))⟩

end QUIT
